import Mathlib

/-!
Ferbl: the room-scoped game state machine of `server.js`.

A shallow embedding of the `GameRoom` class of `src/server.js`.

Conventions of the embedding.

* JavaScript arrays are Lean lists in the same index order: `push` appends at
  the end, `pop` removes the last element, `arr[arr.length - 1]` is `getLast?`.
* The insertion-ordered `Map` of players is the list of its values in insertion
  order; the `Map` of histories is an association list in insertion order.
* `null` and `undefined` are both `none`.
* A `TypeError` raised by a property access on `undefined` is an explicit
  outcome, never a silent default.
* The random choices (`uuidv4`, `Math.random`) are parameters of the
  operations that make them.
-/

namespace Ferbl

/-! ## Data model -/

/-- One card object `{ suit, value, id }` as pushed by `createDeck`. -/
structure Card where
  suit : String
  value : String
  id : String
deriving DecidableEq, Repr

/-- One value of the `players` map: `{ id, name, hand, connected }`. -/
structure Player where
  id : String
  name : String
  hand : List Card
  connected : Bool
deriving DecidableEq, Repr

/-- One value of the `gameHistory` map. -/
structure History where
  totalPoints : Nat
  gamesPlayed : Nat
  lastGamePoints : Nat
  name : String
deriving DecidableEq, Repr

/-- One entry of the `players` array of a result payload. The fields
`totalPoints` and `eliminated` exist only in the elimination payload. -/
structure PlayerResult where
  id : String
  name : String
  points : Nat
  totalPoints : Option Nat
  cards : Nat
  isWinner : Bool
  eliminated : Option Bool
  redQueenPenalty : Bool
deriving DecidableEq, Repr

/-- The payload stored in `gameState.gameResults`. The fields `elimination`
and `eliminatedPlayer` exist only in the elimination payload (`elimination` is
`false` here where JavaScript has `undefined`). -/
structure GameResults where
  winner : String
  winnerPoints : Nat
  elimination : Bool
  eliminatedPlayer : Option String
  redQueenWin : Bool
  players : List PlayerResult
  losers : List String
  maxPoints : Nat
deriving DecidableEq, Repr

/-- The object `this.gameState`. -/
structure GameState where
  started : Bool
  deck : List Card
  playedCards : List Card
  currentPlayer : Int
  direction : Int
  drawStack : Nat
  currentSuit : Option String
  currentValue : Option String
  skipNext : Bool
  lastPlayedWasSpecial : Bool
  maxDrawStack : Nat
  winner : Option String
  gameResults : Option GameResults
deriving DecidableEq, Repr

/-- An instance of `class GameRoom`. -/
structure GameRoom where
  id : String
  players : List Player
  gameHistory : List (String × History)
  gameStarter : Option String
  previousLosers : List String
  gameState : GameState
  maxPlayers : Nat
deriving DecidableEq, Repr

/-- What a call of a method that can raise leaves behind: either it returned a
boolean, or a `TypeError` was raised; in both cases with the room as it then is. -/
inductive Outcome where
  | returned (value : Bool) (room : GameRoom)
  | threw (room : GameRoom)
deriving DecidableEq, Repr

/-- The room of an outcome. -/
def Outcome.room : Outcome → GameRoom
  | .returned _ r => r
  | .threw r => r

/-- The boolean an outcome returned, if it returned. -/
def Outcome.value? : Outcome → Option Bool
  | .returned b _ => some b
  | .threw _ => none

/-! ## Constants and small helpers -/

/-- The constant `SUITS`. -/
def SUITS : List String := ["hearts", "diamonds", "clubs", "spades"]

/-- The constant `VALUES`. -/
def VALUES : List String := ["7", "8", "9", "10", "J", "Q", "K", "A"]

/-- The local constant `validValues` of `playCard`. -/
def validValues : List String := ["7", "8", "9", "10", "J", "Q", "K", "A"]

/-- JavaScript truthiness of a value that is `null`/`undefined` or a string:
only the non-empty strings are truthy. -/
def truthy : Option String → Bool
  | none => false
  | some s => decide (s ≠ "")

/-- The expression `list.includes(x)` for a value `x` that is `null`/`undefined`
or a string, on a list of strings. -/
def includes (list : List String) : Option String → Bool
  | none => false
  | some s => decide (s ∈ list)

/-- The expression `Array.from(this.players.keys())`. -/
def playerIds (r : GameRoom) : List String := r.players.map (fun p => p.id)

/-- The expression `playerIds[i]` for an integer `i`: `undefined` out of range. -/
def idAt (ids : List String) (i : Int) : Option String :=
  if 0 ≤ i then ids[i.toNat]? else none

/-- The expression `this.players.get(playerId)`. -/
def getPlayer (ps : List Player) (playerId : String) : Option Player :=
  ps.find? (fun p => decide (p.id = playerId))

/-- Replace the hand of the player stored under `playerId` (a mutation of
`player.hand` through the reference held by the map). -/
def setHand (ps : List Player) (playerId : String) (hand : List Card) : List Player :=
  ps.map (fun p => if p.id = playerId then { p with hand := hand } else p)

/-- The expression `hand.findIndex(card => card.id === cardId)` together with
the card found there; `none` is the index `-1`. -/
def findCard (cardId : String) : List Card → Option (Nat × Card)
  | [] => none
  | c :: cs =>
    if c.id = cardId then some (0, c)
    else (findCard cardId cs).map (fun p => (p.1 + 1, p.2))

/-! ## The legality validator -/

/-- The method `GameRoom.canPlayCard(playerId, card)`. It returns `none` where
the source raises a `TypeError`: the round is started, the asking player is the
one at the turn pointer, and there is no top card to read. -/
def canPlayCard (r : GameRoom) (playerId : String) (card : Card) : Option Bool :=
  if r.gameState.started = false then some false
  else if idAt (playerIds r) r.gameState.currentPlayer ≠ some playerId then some false
  else
    match r.gameState.playedCards.getLast? with
    | none => none
    | some topCard =>
      if r.gameState.drawStack > 0 then
        if topCard.value = "K" ∧ topCard.suit = "spades" then
          some (decide (card.value = "7" ∧ card.suit = "spades"))
        else if topCard.value = "7" ∧ topCard.suit = "spades" then
          some (decide (card.value = "K" ∧ card.suit = "spades"))
        else some false
      else if card.value = "Q" then
        if truthy r.gameState.currentValue = true ∧ r.gameState.currentValue ≠ some "Q" then
          some false
        else if r.gameState.currentValue = some "Q" then some true
        else if r.gameState.lastPlayedWasSpecial = true ∧
            (topCard.value = "A" ∨ topCard.value = "7" ∨
              (topCard.value = "K" ∧ topCard.suit = "spades")) then
          some false
        else some true
      else if card.value = "J" then
        if truthy r.gameState.currentValue = true ∧ r.gameState.currentValue ≠ some "J" then
          some false
        else if r.gameState.currentValue = some "J" then some true
        else some true
      else if card.value = "A" ∧ topCard.value = "A" then some true
      else if truthy r.gameState.currentValue = true then
        some (decide (some card.value = r.gameState.currentValue))
      else
        some (decide (some card.suit = r.gameState.currentSuit ∨ card.value = topCard.value))

/-! ## Scoring -/

/-- The table `CARD_POINTS`, as a lookup by key (`none` is `undefined`). -/
def CARD_POINTS (value : String) : Option Nat :=
  if value = "7" then some 7
  else if value = "8" then some 8
  else if value = "9" then some 9
  else if value = "10" then some 10
  else if value = "J" then some 1
  else if value = "K" then some 2
  else if value = "Q" then some 20
  else if value = "A" then some 11
  else none

/-- The function `getCardPoints(card)`; the fallback covers a value that is not
a key of the table (the values of real cards all are). -/
def getCardPoints (card : Card) : Nat :=
  if card.value = "K" ∧ card.suit = "spades" then 50
  else if card.value = "Q" ∧ card.suit = "hearts" then 40
  else (CARD_POINTS card.value).getD 0

/-- The function `calculatePlayerScore(hand)`. -/
def calculatePlayerScore (hand : List Card) : Nat :=
  hand.foldl (fun total card => total + getCardPoints card) 0

/-- The expression `this.gameHistory.get(playerId)`. -/
def getHistory (h : List (String × History)) (playerId : String) : Option History :=
  (h.find? (fun e => decide (e.1 = playerId))).map (fun e => e.2)

/-- The three assignments `calculateGameResults` makes to the history of
`playerId`, when that history exists. -/
def recordPoints (h : List (String × History)) (playerId : String) (points : Nat) :
    List (String × History) :=
  h.map (fun e =>
    if e.1 = playerId then
      (e.1, { e.2 with
                totalPoints := e.2.totalPoints + points
                gamesPlayed := e.2.gamesPlayed + 1
                lastGamePoints := points })
    else e)

/-- The variables the loop of `calculateGameResults` carries. -/
structure ScoreAcc where
  playerResults : List PlayerResult
  maxPoints : Nat
  losers : List String
  gameHistory : List (String × History)
deriving DecidableEq, Repr

/-- One iteration of the loop `for (const [playerId, player] of this.players)`
of `calculateGameResults`. -/
def scoreStep (winnerId : String) (redQueenWin : Bool) (acc : ScoreAcc) (player : Player) :
    ScoreAcc :=
  let points :=
    if redQueenWin = true ∧ player.id ≠ winnerId then calculatePlayerScore player.hand * 2
    else calculatePlayerScore player.hand
  let playerResults := acc.playerResults ++
    [{ id := player.id
       name := player.name
       points := points
       totalPoints := none
       cards := player.hand.length
       isWinner := decide (player.id = winnerId)
       eliminated := none
       redQueenPenalty := redQueenWin && decide (player.id ≠ winnerId) }]
  let gameHistory := recordPoints acc.gameHistory player.id points
  if points > acc.maxPoints then
    { playerResults := playerResults, maxPoints := points, losers := [player.id],
      gameHistory := gameHistory }
  else if points = acc.maxPoints ∧ points > 0 then
    { playerResults := playerResults, maxPoints := acc.maxPoints,
      losers := acc.losers ++ [player.id], gameHistory := gameHistory }
  else
    { playerResults := playerResults, maxPoints := acc.maxPoints, losers := acc.losers,
      gameHistory := gameHistory }

/-- The method `GameRoom.calculateGameResults(winnerId)`: the room with the
histories and `previousLosers` updated, and the payload returned. It is
`Except.error` (with the room as the loop left it) where the source raises a
`TypeError` reading the name of a winner who is not seated. -/
def calculateGameResults (r : GameRoom) (winnerId : String) :
    Except GameRoom (GameRoom × GameResults) :=
  let redQueenWin : Bool :=
    match r.gameState.playedCards.getLast? with
    | none => false
    | some lastPlayedCard =>
      decide (lastPlayedCard.value = "Q" ∧ lastPlayedCard.suit = "hearts")
  let acc := r.players.foldl (scoreStep winnerId redQueenWin)
    { playerResults := [], maxPoints := 0, losers := [], gameHistory := r.gameHistory }
  let r1 : GameRoom := { r with gameHistory := acc.gameHistory, previousLosers := acc.losers }
  match getPlayer r.players winnerId with
  | none => .error r1
  | some winner =>
    .ok (r1,
      { winner := winner.name
        winnerPoints := calculatePlayerScore winner.hand
        elimination := false
        eliminatedPlayer := none
        redQueenWin := redQueenWin
        players := acc.playerResults
        losers := acc.losers.filterMap (fun id => (getPlayer r.players id).map (fun p => p.name))
        maxPoints := acc.maxPoints })

/-! ## Turn advance -/

/-- The method `GameRoom.nextPlayer()`. The operator `%` of JavaScript is the
truncating remainder `Int.tmod`. Every caller has looked the acting player up
before, so the room has at least one seated player and the remainder is never
the `NaN` of a division by zero. -/
def nextPlayer (r : GameRoom) : GameRoom :=
  let playerCount : Int := r.players.length
  let gs := r.gameState
  let gs1 : GameState :=
    if gs.skipNext = true then
      { gs with
          currentPlayer := Int.tmod (gs.currentPlayer + gs.direction + playerCount) playerCount
          skipNext := false
          lastPlayedWasSpecial := false }
    else gs
  { r with gameState :=
      { gs1 with
          currentPlayer :=
            Int.tmod (gs1.currentPlayer + gs1.direction + playerCount) playerCount } }

/-! ## The effect engine -/

/-- The chain `if (card.value === 'A') ... else ...` of `playCard` that handles
the special cards, applied to the game state `gs` in which the card is already
on the pile. It is `none` where the source leaves `playCard` with
`return false` (a Jack played with a truthy chosen value that is not one of
`validValues`). `playerCount` is `this.players.size`. -/
def applyEffect (gs : GameState) (playerCount : Nat) (card : Card)
    (newSuit newValue : Option String) : Option GameState :=
  if card.value = "A" then
    some { gs with skipNext := true, currentSuit := some card.suit, lastPlayedWasSpecial := true }
  else if card.value = "7" then
    some { gs with
            drawStack := min (gs.drawStack + 2) gs.maxDrawStack
            currentSuit := some card.suit
            lastPlayedWasSpecial := true }
  else if card.value = "K" ∧ card.suit = "spades" then
    some { gs with
            drawStack := min (gs.drawStack + 5) gs.maxDrawStack
            currentSuit := some card.suit
            lastPlayedWasSpecial := true }
  else if card.value = "10" ∧ playerCount ≥ 3 then
    some { gs with direction := gs.direction * (-1), currentSuit := some card.suit }
  else if card.value = "Q" ∧ truthy newSuit = true then
    some { gs with currentSuit := newSuit, lastPlayedWasSpecial := false }
  else if card.value = "J" ∧ truthy newValue = true then
    if includes validValues newValue = true then
      some { gs with currentValue := newValue, lastPlayedWasSpecial := false }
    else none
  else
    some { gs with currentSuit := some card.suit }

/-- The method `GameRoom.playCard(playerId, cardId, newSuit, newValue)`. The
chosen suit and value arrive from the client; they are modelled as absent or a
string. The outcome is `threw` where the source raises a `TypeError`: the log
line that prints the top card when the pile is empty. -/
def playCard (r : GameRoom) (playerId cardId : String) (newSuit newValue : Option String) :
    Outcome :=
  match getPlayer r.players playerId with
  | none => .returned false r
  | some player =>
    match findCard cardId player.hand with
    | none => .returned false r
    | some (cardIndex, card) =>
      match r.gameState.playedCards.getLast? with
      | none => .threw r
      | some _ =>
        match canPlayCard r playerId card with
        | none => .threw r
        | some false => .returned false r
        | some true =>
          let hand := player.hand.eraseIdx cardIndex
          let players := setHand r.players playerId hand
          let gs1 : GameState :=
            { r.gameState with
                playedCards := r.gameState.playedCards ++ [card]
                lastPlayedWasSpecial := false
                currentValue := if card.value ≠ "J" then none else r.gameState.currentValue }
          match applyEffect gs1 r.players.length card newSuit newValue with
          | none => .returned false { r with players := players, gameState := gs1 }
          | some gs2 =>
            if hand.length = 0 ∧ card.value = "Q" then
              let r3 : GameRoom :=
                { r with
                    players := players
                    gameState := { gs2 with winner := some playerId, started := false } }
              match calculateGameResults r3 playerId with
              | .error r4 => .threw r4
              | .ok (r4, results) =>
                .returned true
                  { r4 with gameState := { r4.gameState with gameResults := some results } }
            else
              .returned true (nextPlayer { r with players := players, gameState := gs2 })

/-! ## Draw and reshuffle -/

/-- The loop `for (i = 0; i < n && deck.length > 0; i++) hand.push(deck.pop())`:
the hand and the deck after it. -/
def popInto : Nat → List Card → List Card → List Card × List Card
  | 0, hand, deck => (hand, deck)
  | n + 1, hand, deck =>
    match deck.getLast? with
    | none => (hand, deck)
    | some c => popInto n (hand ++ [c]) deck.dropLast

/-- The method `GameRoom.reshuffleDiscardPile()`: the boolean returned and the
room afterwards. -/
def reshuffleDiscardPile (r : GameRoom) : Bool × GameRoom :=
  if h : r.gameState.playedCards.length > 1 then
    let topCard := r.gameState.playedCards.getLast (List.ne_nil_of_length_pos (by omega))
    let newCards := r.gameState.playedCards.dropLast.reverse
    (true, { r with gameState :=
      { r.gameState with
          deck := r.gameState.deck ++ newCards
          playedCards := [topCard] } })
  else (false, r)

/-- The method `GameRoom.drawCard(playerId)`: the boolean returned and the room
afterwards. In the branch that draws one card the deck is non-empty by the
check before it, so that draw is one round of the same loop. -/
def drawCard (r : GameRoom) (playerId : String) : Bool × GameRoom :=
  match getPlayer r.players playerId with
  | none => (false, r)
  | some player =>
    if idAt (playerIds r) r.gameState.currentPlayer ≠ some playerId then (false, r)
    else
      let cardsNeeded := if r.gameState.drawStack > 0 then r.gameState.drawStack else 1
      if r.gameState.deck.length < cardsNeeded then (false, r)
      else
        let drawn :=
          if r.gameState.drawStack > 0 then
            popInto r.gameState.drawStack player.hand r.gameState.deck
          else popInto 1 player.hand r.gameState.deck
        (true,
          nextPlayer
            { r with
                players := setHand r.players playerId drawn.1
                gameState := { r.gameState with deck := drawn.2, drawStack := 0 } })

/-! ## Joining and leaving -/

/-- The constructor `new GameRoom(roomId)`. -/
def newRoom (roomId : String) : GameRoom :=
  { id := roomId
    players := []
    gameHistory := []
    gameStarter := none
    previousLosers := []
    gameState :=
      { started := false
        deck := []
        playedCards := []
        currentPlayer := 0
        direction := 1
        drawStack := 0
        currentSuit := none
        currentValue := none
        skipNext := false
        lastPlayedWasSpecial := false
        maxDrawStack := 10
        winner := none
        gameResults := none }
    maxPlayers := 4 }

/-- The method `GameRoom.addPlayer(playerId, playerName)`. `Map.set` on a key
that is present replaces the value and keeps the position of the key. -/
def addPlayer (r : GameRoom) (playerId playerName : String) : Bool × GameRoom :=
  if r.players.length ≥ r.maxPlayers then (false, r)
  else
    let player : Player := { id := playerId, name := playerName, hand := [], connected := true }
    let players :=
      if (getPlayer r.players playerId).isSome = true then
        r.players.map (fun q => if q.id = playerId then player else q)
      else r.players ++ [player]
    let gameHistory :=
      if (getHistory r.gameHistory playerId).isSome = true then r.gameHistory
      else r.gameHistory ++
        [(playerId, { totalPoints := 0, gamesPlayed := 0, lastGamePoints := 0, name := playerName })]
    (true, { r with players := players, gameHistory := gameHistory })

/-- The method `GameRoom.removePlayer(playerId)`. -/
def removePlayer (r : GameRoom) (playerId : String) : Bool × GameRoom :=
  let players := r.players.filter (fun p => decide (p.id ≠ playerId))
  (decide (players.length = 0), { r with players := players })

/-! ## Round start -/

/-- The variables the loop of `calculateEliminationResults` carries;
`minTotalPoints` is `none` while it is `Infinity`. -/
structure ElimAcc where
  playerResults : List PlayerResult
  minTotalPoints : Option Nat
  winnerId : Option String
deriving DecidableEq, Repr

/-- The comparison `totalPoints < minTotalPoints`, where `none` is `Infinity`. -/
def belowMin (totalPoints : Nat) : Option Nat → Bool
  | none => true
  | some m => decide (totalPoints < m)

/-- One iteration of the loop of `calculateEliminationResults`. -/
def elimStep (gameHistory : List (String × History)) (eliminatedPlayerId : String)
    (acc : ElimAcc) (player : Player) : ElimAcc :=
  let totalPoints : Nat :=
    match getHistory gameHistory player.id with
    | some history => history.totalPoints
    | none => 0
  let playerResults := acc.playerResults ++
    [{ id := player.id
       name := player.name
       points := 0
       totalPoints := some totalPoints
       cards := player.hand.length
       isWinner := false
       eliminated := some (decide (player.id = eliminatedPlayerId))
       redQueenPenalty := false }]
  if player.id ≠ eliminatedPlayerId ∧ belowMin totalPoints acc.minTotalPoints = true then
    { playerResults := playerResults, minTotalPoints := some totalPoints,
      winnerId := some player.id }
  else
    { playerResults := playerResults, minTotalPoints := acc.minTotalPoints,
      winnerId := acc.winnerId }

/-- The statement `winnerResult = playerResults.find(p => p.id === winnerId);
if (winnerResult) winnerResult.isWinner = true`: the first entry of that id is
flagged. -/
def flagWinner (winnerId : String) : List PlayerResult → List PlayerResult
  | [] => []
  | p :: ps =>
    if p.id = winnerId then { p with isWinner := true } :: ps
    else p :: flagWinner winnerId ps

/-- The method `GameRoom.calculateEliminationResults(eliminatedPlayerId)`: the
room with `previousLosers` emptied, and the payload. It is `Except.error` where
the source raises a `TypeError` reading the name of a player who is not seated. -/
def calculateEliminationResults (r : GameRoom) (eliminatedPlayerId : String) :
    Except GameRoom (GameRoom × GameResults) :=
  let acc := r.players.foldl (elimStep r.gameHistory eliminatedPlayerId)
    { playerResults := [], minTotalPoints := none, winnerId := none }
  let playerResults :=
    match acc.winnerId with
    | some w => if truthy (some w) = true then flagWinner w acc.playerResults else acc.playerResults
    | none => acc.playerResults
  let r1 : GameRoom := { r with previousLosers := [] }
  let winnerName : Option String :=
    match acc.winnerId with
    | some w =>
      if truthy (some w) = true then (getPlayer r.players w).map (fun p => p.name)
      else some "Neznámý"
    | none => some "Neznámý"
  match winnerName, getPlayer r.players eliminatedPlayerId with
  | some winner, some eliminated =>
    .ok (r1,
      { winner := winner
        winnerPoints := 0
        elimination := true
        eliminatedPlayer := some eliminated.name
        redQueenWin := false
        players := playerResults
        losers := [eliminated.name]
        maxPoints := 0 })
  | _, _ => .error r1

/-- The number `cardsToGet` that the dealing loop of `startGame` computes for
`playerId`. -/
def cardsToGet (r : GameRoom) (playerId : String) : Nat :=
  match getHistory r.gameHistory playerId with
  | some history =>
    if history.lastGamePoints > 0 ∧ playerId ∈ r.previousLosers then
      (max (0 : Int) (5 - ((history.lastGamePoints / 50 : Nat) : Int))).toNat
    else 4
  | none => 4

/-- The dealing loop `for (const playerId of playerIds)` of `startGame`, from
the seats still to serve: the players, the deck, and the player at whom the loop
broke off (`eliminatedPlayer`), if it did. The histories and `previousLosers`
are read from `r`; the loop does not change them. -/
def dealLoop (r : GameRoom) : List String → List Player → List Card →
    List Player × List Card × Option String
  | [], players, deck => (players, deck, none)
  | playerId :: rest, players, deck =>
    if cardsToGet r playerId = 0 then (setHand players playerId [], deck, some playerId)
    else
      let dealt := popInto (cardsToGet r playerId) [] deck
      dealLoop r rest (setHand players playerId dealt.1) dealt.2

/-- The condition of the loop `do ... while` that places the first card. -/
def notNeutral (firstCard : Card) : Bool :=
  decide (firstCard.value = "A" ∨ firstCard.value = "7" ∨ firstCard.value = "Q" ∨
    firstCard.value = "J" ∨ (firstCard.value = "K" ∧ firstCard.suit = "spades"))

/-- The loop `do { firstCard = deck.pop() } while (...)` on the deck listed from
its last card: the first card kept and the cards below it, or `none` when the
deck runs out (the source then raises a `TypeError` on `firstCard.value`). -/
def popFirstCard : List Card → Option (Card × List Card)
  | [] => none
  | firstCard :: below =>
    if notNeutral firstCard = true then popFirstCard below else some (firstCard, below)

/-- The method `GameRoom.startGame(initiatorId)`. `deck` is what `createDeck()`
returns in this call and `rnd` decides `Math.floor(Math.random() * n)` (as
`rnd % n`, so every `rnd` is one of the outcomes, and all are covered). -/
def startGame (r : GameRoom) (initiatorId : String) (deck : List Card) (rnd : Nat) : Outcome :=
  if r.players.length < 2 then .returned false r
  else
    let gs0 : GameState :=
      { r.gameState with
          deck := deck
          playedCards := []
          direction := 1
          drawStack := 0
          currentValue := none
          skipNext := false
          lastPlayedWasSpecial := false
          winner := none
          gameResults := none
          started := false }
    let ids := playerIds r
    let validLosers := r.previousLosers.filter (fun loserId => (getPlayer r.players loserId).isSome)
    let gameStarter : Option String :=
      if truthy r.gameStarter = false then some initiatorId else r.gameStarter
    let firstPlayerId : Option String :=
      if truthy r.gameStarter = false then some initiatorId
      else if r.previousLosers.length > 0 then
        if validLosers.length > 0 then validLosers[rnd % validLosers.length]?
        else ids[0]?
      else ids[0]?
    let currentPlayer : Int :=
      match firstPlayerId with
      | some f => if f ∈ ids then (ids.indexOf f : Nat) else 0
      | none => 0
    let dealt := dealLoop r ids r.players deck
    let r1 : GameRoom :=
      { r with
          gameStarter := gameStarter
          players := dealt.1
          gameState := { gs0 with currentPlayer := currentPlayer, deck := dealt.2.1 } }
    match dealt.2.2 with
    | some eliminatedPlayer =>
      let r2 : GameRoom :=
        { r1 with gameState :=
            { r1.gameState with winner := some eliminatedPlayer, started := false } }
      match calculateEliminationResults r2 eliminatedPlayer with
      | .error r3 => .threw r3
      | .ok (r3, results) =>
        .returned true { r3 with gameState := { r3.gameState with gameResults := some results } }
    | none =>
      match popFirstCard r1.gameState.deck.reverse with
      | none => .threw { r1 with gameState := { r1.gameState with deck := [] } }
      | some (firstCard, below) =>
        .returned true
          { r1 with gameState :=
              { r1.gameState with
                  deck := below.reverse
                  playedCards := [firstCard]
                  currentSuit := some firstCard.suit
                  started := true } }

/-- The number of cards in all hands, the deck and the discard pile. -/
def totalCards (r : GameRoom) : Nat :=
  (r.players.map (fun p => p.hand.length)).sum + r.gameState.deck.length +
    r.gameState.playedCards.length

/-! ## Concrete rooms used to evaluate the operations -/

/-- Two seated players `a` (at the turn pointer) and `b`, the given hands, deck
and discard pile, in a started round whose current suit is hearts. -/
def roomOf (handA handB deck pile : List Card) : GameRoom :=
  { newRoom "room" with
      players :=
        [{ id := "a", name := "A", hand := handA, connected := true },
         { id := "b", name := "B", hand := handB, connected := true }]
      gameHistory :=
        [("a", { totalPoints := 0, gamesPlayed := 0, lastGamePoints := 0, name := "A" }),
         ("b", { totalPoints := 0, gamesPlayed := 0, lastGamePoints := 0, name := "B" })]
      gameStarter := some "a"
      gameState :=
        { (newRoom "room").gameState with
            started := true
            deck := deck
            playedCards := pile
            currentSuit := some "hearts" } }

/-- The Jack of clubs with id `c1`. -/
def jackOfClubs : Card := { suit := "clubs", value := "J", id := "c1" }

/-- Player `a` at the turn pointer holds the Jack of clubs and the Nine of
diamonds; the top discard is the Eight of hearts; no draw stack, no value lock. -/
def jackRoom : GameRoom :=
  roomOf [jackOfClubs, { suit := "diamonds", value := "9", id := "c2" }]
    [{ suit := "clubs", value := "8", id := "c3" }]
    [{ suit := "clubs", value := "10", id := "c4" }]
    [{ suit := "hearts", value := "8", id := "c0" }]

/-- The 32 cards in the order in which `createDeck` pushes them, before the
shuffle; it is also one outcome of the shuffle (every swap being of a card with
itself). The ids stand for the random `uuidv4()` strings. -/
def unshuffledDeck : List Card :=
  SUITS.flatMap (fun suit =>
    VALUES.map (fun value => { suit := suit, value := value, id := suit ++ "-" ++ value }))

/-- A fresh room joined by `a` and then by `b`. -/
def lobby : GameRoom :=
  (addPlayer (addPlayer (newRoom "room") "a" "A").2 "b" "B").2

/-- The Seven of spades with id `s7`. -/
def sevenOfSpades : Card := { suit := "spades", value := "7", id := "s7" }

/-- A started room under the value lock `K` with draw stack 5, whose top
discard is the King of spades; `a`, at the turn pointer, holds the Seven of
spades. -/
def lockedStackRoom : GameRoom :=
  { roomOf [sevenOfSpades] [{ suit := "clubs", value := "8", id := "c3" }]
      [{ suit := "clubs", value := "10", id := "c4" }]
      [{ suit := "spades", value := "K", id := "c0" }] with
    gameState :=
      { (roomOf [sevenOfSpades] [{ suit := "clubs", value := "8", id := "c3" }]
          [{ suit := "clubs", value := "10", id := "c4" }]
          [{ suit := "spades", value := "K", id := "c0" }]).gameState with
        currentValue := some "K"
        drawStack := 5 } }

/-- The room after `a` has started the first round of `lobby` on
`unshuffledDeck`: `a`, at the turn pointer, holds the Ace, King, Queen and Jack
of spades, `b` the Ten, Nine, Eight and Seven of spades, and the King of clubs is
the top discard. -/
def openedRoom : GameRoom := (startGame lobby "a" unshuffledDeck 0).room

/-- The Jack of spades of `unshuffledDeck`. -/
def jackOfSpades : Card := { suit := "spades", value := "J", id := "spades-J" }

/-! ## Runs of a room -/

/-- Whether `deck` is something `createDeck()` can return: 32 cards, each pair
of a suit of `SUITS` and a value of `VALUES` exactly once, under any ids. -/
def isDeck (deck : List Card) : Bool :=
  decide (deck.length = 32) &&
    SUITS.all (fun suit =>
      VALUES.all (fun value =>
        decide (deck.countP (fun c => decide (c.suit = suit ∧ c.value = value)) = 1)))

/-- One call of a method of a room from outside, with its arguments (and, for
`startGame`, the outcome of its random choices). -/
inductive Op where
  | addPlayer (playerId playerName : String)
  | removePlayer (playerId : String)
  | startGame (initiatorId : String) (deck : List Card) (rnd : Nat)
  | playCard (playerId cardId : String) (newSuit newValue : Option String)
  | drawCard (playerId : String)
  | reshuffleDiscardPile
deriving DecidableEq, Repr

/-- The only constraint on a call: the deck handed to `startGame` is one that
`createDeck()` can return. -/
def Op.valid : Op → Bool
  | .startGame _ deck _ => isDeck deck
  | _ => true

/-- The room after one call, whatever the call returned or raised. -/
def step (r : GameRoom) : Op → GameRoom
  | .addPlayer playerId playerName => (addPlayer r playerId playerName).2
  | .removePlayer playerId => (removePlayer r playerId).2
  | .startGame initiatorId deck rnd => (startGame r initiatorId deck rnd).room
  | .playCard playerId cardId newSuit newValue =>
    (playCard r playerId cardId newSuit newValue).room
  | .drawCard playerId => (drawCard r playerId).2
  | .reshuffleDiscardPile => (reshuffleDiscardPile r).2

/-- The rooms reachable from a fresh room by a sequence of calls. -/
inductive Reachable : GameRoom → Prop
  | fresh (roomId : String) : Reachable (newRoom roomId)
  | step (r : GameRoom) (op : Op) : Reachable r → op.valid = true → Reachable (step r op)

/-- The game state of `playCard` once the card is on the pile, before the chain
of special cards runs: `lastPlayedWasSpecial` reset, `currentValue` reset unless
the card is a Jack. -/
def pushCard (gs : GameState) (card : Card) : GameState :=
  { gs with
      playedCards := gs.playedCards ++ [card]
      lastPlayedWasSpecial := false
      currentValue := if card.value ≠ "J" then none else gs.currentValue }

/-- The room `openedRoom` after `a` has played the King of spades (on the King
of clubs): draw stack 5, turn of `b`. -/
def kingRoom : GameRoom := step openedRoom (.playCard "a" "spades-K" none none)

/-- The room `kingRoom` after `b` has answered with the Seven of spades: draw
stack 7, turn of `a`. -/
def chainedRoom : GameRoom := step kingRoom (.playCard "b" "spades-7" none none)

/-- The room `openedRoom` after `a` has drawn a card (the turn passes to `b`,
seat 1) and `b` has then left the room. -/
def strandedRoom : GameRoom := step (step openedRoom (.drawCard "a")) (.removePlayer "b")

/-- The room `openedRoom` after `a` has played the Queen of spades and chosen
spades: turn of `b`, who holds the Ten, Nine, Eight and Seven of spades. -/
def queenChosenRoom : GameRoom :=
  step openedRoom (.playCard "a" "spades-Q" (some "spades") none)

/-- The room `queenChosenRoom` after `b` has played the Nine of spades: turn of
`a`, who holds the Ace, King and Jack of spades. -/
def aceRoom : GameRoom := step queenChosenRoom (.playCard "b" "spades-9" none none)

/-- The seat that `startGame` assigns to `currentPlayer`: the index of the
first player it has determined, or 0 when that player is not seated. -/
def startSeat (r : GameRoom) (initiatorId : String) (rnd : Nat) : Int :=
  let ids := playerIds r
  let validLosers := r.previousLosers.filter (fun loserId => (getPlayer r.players loserId).isSome)
  let firstPlayerId : Option String :=
    if truthy r.gameStarter = false then some initiatorId
    else if r.previousLosers.length > 0 then
      if validLosers.length > 0 then validLosers[rnd % validLosers.length]?
      else ids[0]?
    else ids[0]?
  match firstPlayerId with
  | some f => if f ∈ ids then (ids.indexOf f : Nat) else 0
  | none => 0

/-- The room of `startGame` when its dealing loop has ended: the per-round
fields reset, the starter remembered, the turn pointer set, the hands dealt. -/
def dealtRoom (r : GameRoom) (initiatorId : String) (deck : List Card) (rnd : Nat) : GameRoom :=
  { r with
      gameStarter := if truthy r.gameStarter = false then some initiatorId else r.gameStarter
      players := (dealLoop r (playerIds r) r.players deck).1
      gameState :=
        { r.gameState with
            deck := (dealLoop r (playerIds r) r.players deck).2.1
            playedCards := []
            direction := 1
            drawStack := 0
            currentValue := none
            skipNext := false
            lastPlayedWasSpecial := false
            winner := none
            gameResults := none
            started := false
            currentPlayer := startSeat r initiatorId rnd } }

/-- The card of a suit and a value, under the id `suit-value`. -/
def cardOf (suit value : String) : Card :=
  { suit := suit, value := value, id := suit ++ "-" ++ value }

/-- The twelve cards on top of `quickDeck`, the last one the top card. -/
def quickTop : List Card :=
  [cardOf "hearts" "7", cardOf "clubs" "K", cardOf "diamonds" "K", cardOf "hearts" "K",
   cardOf "spades" "J", cardOf "clubs" "J", cardOf "diamonds" "J", cardOf "hearts" "J",
   cardOf "diamonds" "Q", cardOf "hearts" "10", cardOf "hearts" "9", cardOf "hearts" "8"]

/-- A shuffled deck: with two players, the first is dealt the Eight, Nine and
Ten of hearts and the Queen of diamonds, the second the four Jacks, the King of
hearts opens the pile, and the next cards of the deck are the King of diamonds,
the King of clubs and the Seven of hearts. -/
def quickDeck : List Card :=
  unshuffledDeck.filter (fun c => decide (c ∉ quickTop)) ++ quickTop

/-- A whole round on `quickDeck`: `a` starts, plays the Eight, Nine and Ten of
hearts while `b` draws a card each time, and wins with the Queen of diamonds. -/
def quickOps : List Op :=
  [.startGame "a" quickDeck 0, .playCard "a" "hearts-8" none none, .drawCard "b",
   .playCard "a" "hearts-9" none none, .drawCard "b", .playCard "a" "hearts-10" none none,
   .drawCard "b", .playCard "a" "diamonds-Q" (some "hearts") none]

/-- The room after the round `quickOps` played in `lobby`: `a` has won, `b` is
left with the four Jacks, two Kings and a Seven (15 points) and is the loser. -/
def finishedRoom : GameRoom := quickOps.foldl step lobby

/-- The twelve cards on top of `redDeck`, the last one the top card. -/
def redTop : List Card :=
  [cardOf "diamonds" "A", cardOf "clubs" "A", cardOf "spades" "A", cardOf "hearts" "K",
   cardOf "spades" "K", cardOf "spades" "Q", cardOf "clubs" "Q", cardOf "diamonds" "Q",
   cardOf "hearts" "Q", cardOf "hearts" "10", cardOf "hearts" "9", cardOf "hearts" "8"]

/-- A shuffled deck: with two players, the first is dealt the Eight, Nine, Ten
and Queen of hearts, the second the King of spades and three Queens, the King of
hearts opens the pile, and the next cards of the deck are three Aces. -/
def redDeck : List Card :=
  unshuffledDeck.filter (fun c => decide (c ∉ redTop)) ++ redTop

/-- A whole round on `redDeck`: `a` starts, plays the Eight, Nine and Ten of
hearts while `b` draws a card each time, and wins with the Queen of hearts. -/
def redOps : List Op :=
  [.startGame "a" redDeck 0, .playCard "a" "hearts-8" none none, .drawCard "b",
   .playCard "a" "hearts-9" none none, .drawCard "b", .playCard "a" "hearts-10" none none,
   .drawCard "b", .playCard "a" "hearts-Q" (some "hearts") none]

/-- The room after the round `redOps` played in `lobby`: `a` has won with the
Queen of hearts, `b` is left with 143 points in hand, doubled to 286, and is the
loser. -/
def penalizedRoom : GameRoom := redOps.foldl step lobby

/-- The cumulative total that `calculateEliminationResults` reads for a player:
`history ? history.totalPoints : 0`. -/
def totalPointsOf (gameHistory : List (String × History)) (playerId : String) : Nat :=
  match getHistory gameHistory playerId with
  | some history => history.totalPoints
  | none => 0

/-- The entry that the loop of `calculateEliminationResults` pushes for a
player. -/
def elimResultOf (gameHistory : List (String × History)) (eliminatedPlayerId : String)
    (player : Player) : PlayerResult :=
  { id := player.id
    name := player.name
    points := 0
    totalPoints := some (totalPointsOf gameHistory player.id)
    cards := player.hand.length
    isWinner := false
    eliminated := some (decide (player.id = eliminatedPlayerId))
    redQueenPenalty := false }

/-- The flag `redQueenWin` of `calculateGameResults`: the last card played is
the Queen of hearts. -/
def redQueenWinOf (r : GameRoom) : Bool :=
  match r.gameState.playedCards.getLast? with
  | none => false
  | some lastPlayedCard => decide (lastPlayedCard.value = "Q" ∧ lastPlayedCard.suit = "hearts")

/-- The variable `points` of the loop of `calculateGameResults` for a player. -/
def roundPoints (winnerId : String) (redQueenWin : Bool) (player : Player) : Nat :=
  if redQueenWin = true ∧ player.id ≠ winnerId then calculatePlayerScore player.hand * 2
  else calculatePlayerScore player.hand

/-- The entry that the loop of `calculateGameResults` pushes for a player. -/
def scoreResultOf (winnerId : String) (redQueenWin : Bool) (player : Player) : PlayerResult :=
  { id := player.id
    name := player.name
    points := roundPoints winnerId redQueenWin player
    totalPoints := none
    cards := player.hand.length
    isWinner := decide (player.id = winnerId)
    eliminated := none
    redQueenPenalty := redQueenWin && decide (player.id ≠ winnerId) }

/-! ## Deck creation -/

/-- The statement `[shuffled[i], shuffled[j]] = [shuffled[j], shuffled[i]]`. Both
indices are within the array in every iteration of `shuffleDeck`. -/
def swapAt (shuffled : List Card) (i j : Nat) : List Card :=
  match shuffled[i]?, shuffled[j]? with
  | some atI, some atJ => (shuffled.set i atJ).set j atI
  | _, _ => shuffled

/-- The loop `for (let i = n; i > 0; i--)` of `shuffleDeck`; `choice i` decides
`Math.floor(Math.random() * (i + 1))` in the iteration of index `i` (as
`choice i % (i + 1)`, so every `choice` is one of the outcomes, and all are
covered). -/
def shuffleLoop (choice : Nat → Nat) : Nat → List Card → List Card
  | 0, shuffled => shuffled
  | i + 1, shuffled =>
    shuffleLoop choice i (swapAt shuffled (i + 1) (choice (i + 1) % (i + 1 + 1)))

/-- The function `shuffleDeck(deck)`. The source works on the copy `[...deck]`
and returns it; the argument is never written to. -/
def shuffleDeck (deck : List Card) (choice : Nat → Nat) : List Card :=
  shuffleLoop choice (deck.length - 1) deck

/-- The function `createDeck()`; `uuid suit value` is the string that `uuidv4()`
returns for the card of that suit and value. -/
def createDeck (uuid : String → String → String) (choice : Nat → Nat) : List Card :=
  shuffleDeck
    (SUITS.flatMap (fun suit =>
      VALUES.map (fun value => { suit := suit, value := value, id := uuid suit value })))
    choice

/-! ## Views of a room -/

/-- One entry of the array `players` of the snapshot. -/
structure PlayerView where
  id : String
  name : String
  handSize : Nat
  connected : Bool
deriving DecidableEq, Repr

/-- The object that `getGameState()` returns. -/
structure Snapshot where
  roomId : String
  players : List PlayerView
  started : Bool
  currentPlayer : Int
  topCard : Option Card
  currentSuit : Option String
  currentValue : Option String
  direction : Int
  deckSize : Nat
  playedCardsCount : Nat
  drawStack : Nat
  lastPlayedWasSpecial : Bool
  winner : Option String
deriving DecidableEq, Repr

/-- The method `GameRoom.getGameState()`. Every id of `playerIds` is a key of
the map, so `this.players.get(id)` is always found. -/
def getGameState (r : GameRoom) : Snapshot :=
  { roomId := r.id
    players := (playerIds r).filterMap (fun id =>
      (getPlayer r.players id).map (fun player =>
        { id := id, name := player.name, handSize := player.hand.length,
          connected := player.connected }))
    started := r.gameState.started
    currentPlayer := r.gameState.currentPlayer
    topCard := r.gameState.playedCards.getLast?
    currentSuit := r.gameState.currentSuit
    currentValue := r.gameState.currentValue
    direction := r.gameState.direction
    deckSize := r.gameState.deck.length
    playedCardsCount := r.gameState.playedCards.length
    drawStack := r.gameState.drawStack
    lastPlayedWasSpecial := r.gameState.lastPlayedWasSpecial
    winner := r.gameState.winner }

/-- The method `GameRoom.getPlayerHand(playerId)`. -/
def getPlayerHand (r : GameRoom) (playerId : String) : List Card :=
  match getPlayer r.players playerId with
  | some player => player.hand
  | none => []

/-- The method `PrsiGame.canPlayCard(card)` of `script.js`, on the snapshot the
client holds in `this.gameState` (`none` while it has received none) and its
`this.socket.id`. -/
def PrsiGame.canPlayCard (gameState : Option Snapshot) (socketId : String) (card : Card) :
    Bool :=
  match gameState with
  | none => false
  | some gs =>
    if gs.started = false then false
    else if ((if 0 ≤ gs.currentPlayer then gs.players[gs.currentPlayer.toNat]? else none).map
        (fun p => p.id)) ≠ some socketId then false
    else
      match gs.topCard with
      | none => false
      | some topCard =>
        if gs.drawStack > 0 then
          if topCard.value = "K" ∧ topCard.suit = "spades" then
            decide (card.value = "7" ∧ card.suit = "spades")
          else if topCard.value = "7" ∧ topCard.suit = "spades" then
            decide (card.value = "K" ∧ card.suit = "spades")
          else false
        else if card.value = "Q" then
          if truthy gs.currentValue = true ∧ gs.currentValue ≠ some "Q" then false
          else if gs.currentValue = some "Q" then true
          else if gs.lastPlayedWasSpecial = true ∧
              (topCard.value = "A" ∨ topCard.value = "7" ∨
                (topCard.value = "K" ∧ topCard.suit = "spades")) then
            false
          else true
        else if card.value = "J" then
          if truthy gs.currentValue = true ∧ gs.currentValue ≠ some "J" then false
          else if gs.currentValue = some "J" then true
          else true
        else if card.value = "A" ∧ topCard.value = "A" then true
        else if truthy gs.currentValue = true then decide (some card.value = gs.currentValue)
        else decide (some card.suit = gs.currentSuit ∨ card.value = topCard.value)

/-- A fresh room joined by `a`, `b`, `c` and `d`. -/
def fullLobby : GameRoom :=
  (addPlayer (addPlayer lobby "c" "C").2 "d" "D").2

/-- A shuffled deck whose 15 neutral cards are the 15 cards on top: the four
hands of four cards take them all (and one Seven), and the 16 cards left are
all Aces, Sevens, Queens, Jacks or the King of spades. -/
def starvedDeck : List Card :=
  unshuffledDeck.filter notNeutral ++ unshuffledDeck.filter (fun c => !notNeutral c)

/-- The facts about the top of the discard pile that hold between two calls: a
started round has a top card; under a draw stack, and while the flag
`lastPlayedWasSpecial` is up, the top card is a Seven or the King of spades; a
value lock is one of `validValues`, lies on a Jack, and excludes a draw stack. -/
def pileInvariant (gs : GameState) : Prop :=
  (gs.started = true → ∃ top, gs.playedCards.getLast? = some top) ∧
    ((0 < gs.drawStack ∨ gs.lastPlayedWasSpecial = true) →
      ∃ top, gs.playedCards.getLast? = some top ∧
        (top.value = "7" ∨ (top.value = "K" ∧ top.suit = "spades"))) ∧
    (∀ v, gs.currentValue = some v →
      v ∈ validValues ∧ gs.drawStack = 0 ∧
        ∃ top, gs.playedCards.getLast? = some top ∧ top.value = "J")

/-- The room `openedRoom` after `a` has played the Jack of spades and chosen the
value 9: turn of `b`, under the value lock 9. -/
def jackChosenRoom : GameRoom :=
  step openedRoom (.playCard "a" "spades-J" none (some "9"))

/-- All the cards of a room: the hands in seat order, then the deck, then the
discard pile. -/
def allCards (r : GameRoom) : List Card :=
  r.players.flatMap (fun p => p.hand) ++ r.gameState.deck ++ r.gameState.playedCards

/-- The two cards that can be played under a draw stack: the King of spades and
the Seven of spades. -/
def chains (c : Card) : Bool :=
  decide ((c.value = "K" ∨ c.value = "7") ∧ c.suit = "spades")

/-- The facts about the draw stack that hold between two calls: it is 0 outside
a round; a started round holds at most two cards that chain; and the stack is 0,
or 2 on a Seven, or 5 on the King of spades, or 7 with both cards that chain
out of the hands. -/
def stackInvariant (r : GameRoom) : Prop :=
  (r.gameState.started = false → r.gameState.drawStack = 0) ∧
    (r.gameState.started = true → (allCards r).countP chains ≤ 2) ∧
    (r.gameState.drawStack = 0 ∨
      (r.gameState.drawStack = 2 ∧
        ∃ top, r.gameState.playedCards.getLast? = some top ∧ top.value = "7") ∨
      (r.gameState.drawStack = 5 ∧
        ∃ top, r.gameState.playedCards.getLast? = some top ∧
          top.value = "K" ∧ top.suit = "spades") ∨
      (r.gameState.drawStack = 7 ∧
        2 ≤ (r.gameState.deck ++ r.gameState.playedCards).countP chains))

/-- The room `kingRoom` after `b` has drawn the five cards of the draw stack:
turn of `a`, who holds the Ace, Queen and Jack of spades; the King of spades is
still the top discard and `lastPlayedWasSpecial` is still up. -/
def drawnRoom : GameRoom := step kingRoom (.drawCard "b")

/-- The room `penalizedRoom` after `a` has called `startGame` on
`unshuffledDeck`: `b` is eliminated, the round is not started and there is no
discard pile; `a` has been dealt the Ace, King, Queen and Jack of spades, and
the turn pointer is at the seat of `b`. -/
def eliminatedRoom : GameRoom := step penalizedRoom (.startGame "a" unshuffledDeck 0)

end Ferbl

namespace Ferbl

/-! ## Basic facts about the helpers -/

theorem getPlayer_setHand (ps : List Player) (playerId : String) (hand : List Card)
    (player : Player) (h : getPlayer ps playerId = some player) :
    getPlayer (setHand ps playerId hand) playerId = some { player with hand := hand } := by
  induction ps with
  | nil => simp [getPlayer] at h
  | cons q qs ih =>
    by_cases hq : q.id = playerId
    · have hqp : q = player := by simpa [getPlayer, hq] using h
      subst hqp
      simp [getPlayer, setHand, hq]
    · have h2 : getPlayer qs playerId = some player := by
        simpa [getPlayer, hq] using h
      have := ih h2
      simpa [getPlayer, setHand, hq] using this

theorem canPlayCard_ne_true_of_empty (r : GameRoom) (playerId : String) (card : Card)
    (h : r.gameState.playedCards.getLast? = none) : canPlayCard r playerId card ≠ some true := by
  unfold canPlayCard
  rw [h]
  split
  · simp
  · split <;> simp

theorem includes_validValues_truthy (newValue : Option String)
    (h : includes validValues newValue = true) : truthy newValue = true := by
  cases newValue with
  | none => simp [includes] at h
  | some v =>
    simp only [includes, validValues, decide_eq_true_eq] at h
    simp only [truthy, decide_eq_true_eq]
    intro hv
    subst hv
    revert h
    decide

theorem applyEffect_isSome (gs : GameState) (playerCount : Nat) (card : Card)
    (newSuit newValue : Option String)
    (h : card.value ≠ "J" ∨ truthy newValue = false ∨ includes validValues newValue = true) :
    ∃ gs2, applyEffect gs playerCount card newSuit newValue = some gs2 := by
  unfold applyEffect
  split_ifs with h1 h2 h3 h4 h5 h6 h7
  all_goals first
    | exact ⟨_, rfl⟩
    | (exfalso
       rcases h with h | h | h
       · exact h h6.1
       · rw [h6.2] at h; exact Bool.noConfusion h
       · exact h7 h)

theorem applyEffect_none_of_invalid (gs : GameState) (playerCount : Nat) (card : Card)
    (newSuit newValue : Option String) (hJ : card.value = "J") (ht : truthy newValue = true)
    (hv : includes validValues newValue = false) :
    applyEffect gs playerCount card newSuit newValue = none := by
  unfold applyEffect
  simp [hJ, ht, hv]

theorem calculateGameResults_ok (r : GameRoom) (winnerId : String) (winner : Player)
    (h : getPlayer r.players winnerId = some winner) :
    ∃ r1 results, calculateGameResults r winnerId = .ok (r1, results) := by
  unfold calculateGameResults
  simp only [h]
  exact ⟨_, _, rfl⟩

/-- With the acting player and the card found, and a legal card whose effect is
not the early `return false`, `playCard` returns `true`. -/
theorem playCard_returns_true (r : GameRoom) (playerId : String) (player : Player)
    (cardIndex : Nat) (card : Card) (newSuit newValue : Option String)
    (hp : getPlayer r.players playerId = some player)
    (hc : findCard card.id player.hand = some (cardIndex, card))
    (hlegal : canPlayCard r playerId card = some true)
    (hv : card.value ≠ "J" ∨ truthy newValue = false ∨ includes validValues newValue = true) :
    ∃ r2, playCard r playerId card.id newSuit newValue = .returned true r2 := by
  have htop : ∃ top, r.gameState.playedCards.getLast? = some top := by
    cases hl : r.gameState.playedCards.getLast? with
    | none => exact absurd hlegal (canPlayCard_ne_true_of_empty r playerId card hl)
    | some top => exact ⟨top, rfl⟩
  obtain ⟨top, htop⟩ := htop
  obtain ⟨gs2, hgs2⟩ := applyEffect_isSome
    { r.gameState with
        playedCards := r.gameState.playedCards ++ [card]
        lastPlayedWasSpecial := false
        currentValue := if card.value ≠ "J" then none else r.gameState.currentValue }
    r.players.length card newSuit newValue hv
  unfold playCard
  simp only [hp, hc, htop, hlegal, hgs2]
  split_ifs with hwin
  · obtain ⟨r4, results, hres⟩ := calculateGameResults_ok
      { r with
          players := setHand r.players playerId (player.hand.eraseIdx cardIndex)
          gameState := { gs2 with winner := some playerId, started := false } }
      playerId _ (getPlayer_setHand r.players playerId _ player hp)
    simp only [hres]
    exact ⟨_, rfl⟩
  · exact ⟨_, rfl⟩

/-- Whatever the arguments, `playCard` returns `true` only for a card that
`canPlayCard` accepts. -/
theorem playCard_true_imp_canPlayCard (r : GameRoom) (playerId : String) (player : Player)
    (cardIndex : Nat) (card : Card) (newSuit newValue : Option String)
    (hp : getPlayer r.players playerId = some player)
    (hc : findCard card.id player.hand = some (cardIndex, card))
    (h : (playCard r playerId card.id newSuit newValue).value? = some true) :
    canPlayCard r playerId card = some true := by
  unfold playCard at h
  simp only [hp, hc] at h
  cases htop : r.gameState.playedCards.getLast? with
  | none => simp [htop, Outcome.value?] at h
  | some top =>
    simp only [htop] at h
    cases hlegal : canPlayCard r playerId card with
    | none => simp [hlegal, Outcome.value?] at h
    | some b =>
      cases b with
      | true => rfl
      | false => simp [hlegal, Outcome.value?] at h


/-! ## Validator and engine -/

/-- C1, counterexample: in `openedRoom` the player `a` at the turn pointer holds
the Jack of spades, `canPlayCard` accepts it, and `playCard` with the chosen
value `X` returns `false`: engine and validator disagree. -/
theorem playCard_invalid_jack_disagrees :
    (getPlayer openedRoom.players "a").map (fun p => findCard jackOfSpades.id p.hand) =
        some (some (3, jackOfSpades)) ∧
      canPlayCard openedRoom "a" jackOfSpades = some true ∧
      (playCard openedRoom "a" jackOfSpades.id none (some "X")).value? = some false ∧
      ¬ ((playCard openedRoom "a" jackOfSpades.id none (some "X")).value? = some true ↔
          canPlayCard openedRoom "a" jackOfSpades = some true) := by
  decide

/-- C1 (amended): for every room, every seated player and every card found in
that player's hand under its id, and every chosen suit: when the card is not a
Jack, or the chosen value is one of the 8 legal values, `playCard` returns
`true` if and only if `canPlayCard` returns `true` on the same room and card;
and a Jack played with a non-empty chosen value outside the 8 legal values is
never accepted (it is answered `false` whenever `canPlayCard` accepts it). -/
theorem playCard_accepted_iff_canPlayCard (r : GameRoom) (playerId : String)
    (player : Player) (cardIndex : Nat) (card : Card) (newSuit newValue : Option String)
    (hp : getPlayer r.players playerId = some player)
    (hc : findCard card.id player.hand = some (cardIndex, card)) :
    ((card.value ≠ "J" ∨ includes validValues newValue = true) →
        ((playCard r playerId card.id newSuit newValue).value? = some true ↔
          canPlayCard r playerId card = some true)) ∧
      ((card.value = "J" ∧ truthy newValue = true ∧ includes validValues newValue = false) →
        (playCard r playerId card.id newSuit newValue).value? ≠ some true ∧
          (canPlayCard r playerId card = some true →
            (playCard r playerId card.id newSuit newValue).value? = some false)) := by
  refine ⟨fun hv => ⟨?_, ?_⟩, fun hbad => ⟨?_, ?_⟩⟩
  · exact playCard_true_imp_canPlayCard r playerId player cardIndex card newSuit newValue hp hc
  · intro hlegal
    have hv2 : card.value ≠ "J" ∨ truthy newValue = false ∨
        includes validValues newValue = true := by
      rcases hv with hv | hv
      · exact Or.inl hv
      · exact Or.inr (Or.inr hv)
    obtain ⟨r2, hr2⟩ := playCard_returns_true r playerId player cardIndex card newSuit newValue
      hp hc hlegal hv2
    rw [hr2]
    rfl
  · intro hacc
    have hlegal := playCard_true_imp_canPlayCard r playerId player cardIndex card newSuit
      newValue hp hc hacc
    have htop : ∃ top, r.gameState.playedCards.getLast? = some top := by
      cases hl : r.gameState.playedCards.getLast? with
      | none => exact absurd hlegal (canPlayCard_ne_true_of_empty r playerId card hl)
      | some top => exact ⟨top, rfl⟩
    obtain ⟨top, htop⟩ := htop
    unfold playCard at hacc
    simp only [hp, hc, htop, hlegal,
      applyEffect_none_of_invalid _ _ card newSuit newValue hbad.1 hbad.2.1 hbad.2.2] at hacc
    simp [Outcome.value?] at hacc
  · intro hlegal
    have htop : ∃ top, r.gameState.playedCards.getLast? = some top := by
      cases hl : r.gameState.playedCards.getLast? with
      | none => exact absurd hlegal (canPlayCard_ne_true_of_empty r playerId card hl)
      | some top => exact ⟨top, rfl⟩
    obtain ⟨top, htop⟩ := htop
    unfold playCard
    simp only [hp, hc, htop, hlegal,
      applyEffect_none_of_invalid _ _ card newSuit newValue hbad.1 hbad.2.1 hbad.2.2]
    rfl

/-- C1 (amended), at a concrete input: in `jackRoom` the Jack of clubs played
with the chosen value `K` is accepted exactly as `canPlayCard` says. -/
theorem playCard_accepted_iff_canPlayCard_witness :
    ((playCard jackRoom "a" jackOfClubs.id none (some "K")).value? = some true ↔
        canPlayCard jackRoom "a" jackOfClubs = some true) ∧
      canPlayCard jackRoom "a" jackOfClubs = some true :=
  ⟨(playCard_accepted_iff_canPlayCard jackRoom "a"
      { id := "a", name := "A",
        hand := [jackOfClubs, { suit := "diamonds", value := "9", id := "c2" }],
        connected := true }
      0 jackOfClubs none (some "K") (by decide) (by decide)).1 (Or.inr (by decide)),
    by decide⟩

/-- C2, the code at the failing input: in `openedRoom` the legal Jack of spades
is played by `a` with the chosen value `X`. `playCard` returns `false`, yet the
room has changed: the Jack has left the hand of `a` and lies on the discard
pile. -/
theorem playCard_rejected_jack_changes_state :
    canPlayCard openedRoom "a" jackOfSpades = some true ∧
      (playCard openedRoom "a" "spades-J" none (some "X")).value? = some false ∧
      (playCard openedRoom "a" "spades-J" none (some "X")).room ≠ openedRoom ∧
      (getPlayer openedRoom.players "a").map (fun p => p.hand) =
        some [{ suit := "spades", value := "A", id := "spades-A" },
              { suit := "spades", value := "K", id := "spades-K" },
              { suit := "spades", value := "Q", id := "spades-Q" }, jackOfSpades] ∧
      (getPlayer (playCard openedRoom "a" "spades-J" none (some "X")).room.players "a").map
          (fun p => p.hand) =
        some [{ suit := "spades", value := "A", id := "spades-A" },
              { suit := "spades", value := "K", id := "spades-K" },
              { suit := "spades", value := "Q", id := "spades-Q" }] ∧
      openedRoom.gameState.playedCards = [{ suit := "clubs", value := "K", id := "clubs-K" }] ∧
      (playCard openedRoom "a" "spades-J" none (some "X")).room.gameState.playedCards =
        [{ suit := "clubs", value := "K", id := "clubs-K" }, jackOfSpades] := by
  decide

/-- C3, the code at the failing input: in `openedRoom` the legal Jack of spades
is played by `a` without a chosen value (absent, or the empty string).
`playCard` returns `true`; no value lock is set, the current suit changes from
clubs to the suit of the Jack as for a plain card, and the turn passes to `b`. -/
theorem playCard_jack_without_value_accepted :
    canPlayCard openedRoom "a" jackOfSpades = some true ∧
      openedRoom.gameState.currentSuit = some "clubs" ∧
      (playCard openedRoom "a" "spades-J" none none).value? = some true ∧
      (playCard openedRoom "a" "spades-J" none none).room.gameState.currentValue = none ∧
      (playCard openedRoom "a" "spades-J" none none).room.gameState.currentSuit =
        some "spades" ∧
      (playCard openedRoom "a" "spades-J" none none).room.gameState.currentPlayer = 1 ∧
      (playCard openedRoom "a" "spades-J" none (some "")).value? = some true ∧
      (playCard openedRoom "a" "spades-J" none (some "")).room.gameState.currentValue = none := by
  decide


/-! ## Card conservation -/

/-- C4, the code at the failing input: two players join a fresh room and `a`
starts the first round on the deck in `createDeck` order. Each player is dealt 4
cards, the search for the first discard pops the Ace of clubs and drops it, and
the King of clubs opens the pile: the round is started with 31 cards in hands,
deck and pile together. -/
theorem startGame_drops_skipped_cards :
    unshuffledDeck.length = 32 ∧
      (startGame lobby "a" unshuffledDeck 0).value? = some true ∧
      (startGame lobby "a" unshuffledDeck 0).room.gameState.started = true ∧
      (startGame lobby "a" unshuffledDeck 0).room.gameState.playedCards =
        [{ suit := "clubs", value := "K", id := "clubs-K" }] ∧
      totalCards (startGame lobby "a" unshuffledDeck 0).room = 31 := by
  decide


/-! ## The rules of the validator -/

/-- C5: in a started room with a positive draw stack, for the player at the turn
pointer and any card, `canPlayCard` returns `true` if and only if the top
discard is the King of spades and the card the Seven of spades, or the top
discard is the Seven of spades and the card the King of spades; on any other top
discard it returns `false` for every card. -/
theorem canPlayCard_under_drawStack (r : GameRoom) (playerId : String) (card : Card)
    (hs : r.gameState.started = true)
    (hcur : idAt (playerIds r) r.gameState.currentPlayer = some playerId)
    (hd : r.gameState.drawStack > 0) :
    (canPlayCard r playerId card = some true ↔
        ∃ topCard, r.gameState.playedCards.getLast? = some topCard ∧
          ((topCard.value = "K" ∧ topCard.suit = "spades" ∧
              card.value = "7" ∧ card.suit = "spades") ∨
            (topCard.value = "7" ∧ topCard.suit = "spades" ∧
              card.value = "K" ∧ card.suit = "spades"))) ∧
      (∀ topCard, r.gameState.playedCards.getLast? = some topCard →
        ¬ (topCard.value = "K" ∧ topCard.suit = "spades") →
        ¬ (topCard.value = "7" ∧ topCard.suit = "spades") →
        canPlayCard r playerId card = some false) := by
  constructor
  · cases htop : r.gameState.playedCards.getLast? with
    | none =>
      have := canPlayCard_ne_true_of_empty r playerId card htop
      simp [this]
    | some topCard =>
      unfold canPlayCard
      simp only [hs, hcur, htop, hd]
      by_cases hK : topCard.value = "K" ∧ topCard.suit = "spades"
      · have h7 : ¬ topCard.value = "7" := by rw [hK.1]; decide
        simp [hK, h7]
      · by_cases h7 : topCard.value = "7" ∧ topCard.suit = "spades"
        · have hK2 : ¬ topCard.value = "K" := by rw [h7.1]; decide
          simp [h7, hK2]
        · simp only [Bool.true_eq_false, ↓reduceIte, ne_eq, not_true_eq_false, if_neg hK,
            if_neg h7]
          constructor
          · intro h
            simp at h
          · rintro ⟨top2, htop2, h | h⟩
            · cases htop2
              exact absurd ⟨h.1, h.2.1⟩ hK
            · cases htop2
              exact absurd ⟨h.1, h.2.1⟩ h7
  · intro topCard htop hK h7
    unfold canPlayCard
    simp [hs, hcur, htop, hd, hK, h7]

/-- C5, at a concrete input: in `lockedStackRoom` (draw stack 5, King of spades
on top) the Seven of spades is playable. -/
theorem canPlayCard_under_drawStack_witness :
    lockedStackRoom.gameState.drawStack > 0 ∧
      canPlayCard lockedStackRoom "a" sevenOfSpades = some true :=
  ⟨by decide,
    ((canPlayCard_under_drawStack lockedStackRoom "a" sevenOfSpades (by decide) (by decide)
      (by decide)).1).2
      ⟨{ suit := "spades", value := "K", id := "c0" }, by decide, by decide⟩⟩


/-- The branch of `canPlayCard` for a Queen, in any room: in a started room with
draw stack 0 and a top discard, for a Queen offered by the player at the turn
pointer: if `currentValue` is set to a value other than `Q` the Queen is
illegal; if `currentValue` is `Q` it is legal; and if `currentValue` is unset it
is legal if and only if it is not the case that `lastPlayedWasSpecial` is `true`
and the top discard is an Ace, a Seven or the King of spades. -/
theorem canPlayCard_queen (r : GameRoom) (playerId : String) (card topCard : Card)
    (hs : r.gameState.started = true)
    (hcur : idAt (playerIds r) r.gameState.currentPlayer = some playerId)
    (hd : r.gameState.drawStack = 0)
    (htop : r.gameState.playedCards.getLast? = some topCard)
    (hQ : card.value = "Q") :
    (truthy r.gameState.currentValue = true → r.gameState.currentValue ≠ some "Q" →
        canPlayCard r playerId card = some false) ∧
      (r.gameState.currentValue = some "Q" → canPlayCard r playerId card = some true) ∧
      (truthy r.gameState.currentValue = false →
        (canPlayCard r playerId card = some true ↔
          ¬ (r.gameState.lastPlayedWasSpecial = true ∧
              (topCard.value = "A" ∨ topCard.value = "7" ∨
                (topCard.value = "K" ∧ topCard.suit = "spades"))))) := by
  refine ⟨fun ht hne => ?_, fun hq => ?_, fun hf => ?_⟩
  · unfold canPlayCard
    simp [hs, hcur, hd, htop, hQ, ht, hne]
  · unfold canPlayCard
    simp [hs, hcur, hd, htop, hQ, hq]
  · have hne : r.gameState.currentValue ≠ some "Q" := by
      intro hq
      rw [hq] at hf
      revert hf
      decide
    unfold canPlayCard
    simp only [hs, hcur, hd, htop, hQ, hf, hne]
    by_cases hb : r.gameState.lastPlayedWasSpecial = true ∧
        (topCard.value = "A" ∨ topCard.value = "7" ∨
          (topCard.value = "K" ∧ topCard.suit = "spades"))
    · simp [hb]
    · simp [hb]

/-- C7: in a started room with draw stack 0 and a top discard, for a Jack offered
by the player at the turn pointer, `canPlayCard` returns `true` if and only if
`currentValue` is unset or equals `J`; and the answer is the same in any other
such room with the same `currentValue`, whatever its `lastPlayedWasSpecial`, its
`currentSuit` and its top discard. -/
theorem canPlayCard_jack (r : GameRoom) (playerId : String) (card topCard : Card)
    (hs : r.gameState.started = true)
    (hcur : idAt (playerIds r) r.gameState.currentPlayer = some playerId)
    (hd : r.gameState.drawStack = 0)
    (htop : r.gameState.playedCards.getLast? = some topCard)
    (hJ : card.value = "J") :
    (canPlayCard r playerId card = some true ↔
        (truthy r.gameState.currentValue = false ∨ r.gameState.currentValue = some "J")) ∧
      (∀ (r2 : GameRoom) (playerId2 : String) (card2 topCard2 : Card),
        r2.gameState.started = true →
        idAt (playerIds r2) r2.gameState.currentPlayer = some playerId2 →
        r2.gameState.drawStack = 0 →
        r2.gameState.playedCards.getLast? = some topCard2 →
        card2.value = "J" →
        r2.gameState.currentValue = r.gameState.currentValue →
        canPlayCard r2 playerId2 card2 = canPlayCard r playerId card) := by
  have key : ∀ (r2 : GameRoom) (playerId2 : String) (card2 topCard2 : Card),
      r2.gameState.started = true →
      idAt (playerIds r2) r2.gameState.currentPlayer = some playerId2 →
      r2.gameState.drawStack = 0 →
      r2.gameState.playedCards.getLast? = some topCard2 →
      card2.value = "J" →
      canPlayCard r2 playerId2 card2 =
        some (decide (truthy r2.gameState.currentValue = false ∨
          r2.gameState.currentValue = some "J")) := by
    intro r2 playerId2 card2 topCard2 hs2 hcur2 hd2 htop2 hJ2
    unfold canPlayCard
    simp only [hs2, hcur2, hd2, htop2, hJ2]
    by_cases ht : truthy r2.gameState.currentValue = true
    · by_cases hj : r2.gameState.currentValue = some "J"
      · simp [ht, hj]
      · simp [ht, hj]
    · have hf : truthy r2.gameState.currentValue = false := by simpa using ht
      simp [hf]
  constructor
  · rw [key r playerId card topCard hs hcur hd htop hJ]
    simp
  · intro r2 playerId2 card2 topCard2 hs2 hcur2 hd2 htop2 hJ2 hcv
    rw [key r playerId card topCard hs hcur hd htop hJ,
      key r2 playerId2 card2 topCard2 hs2 hcur2 hd2 htop2 hJ2, hcv]

/-- C7, at a concrete input: in `jackRoom` no value is locked and the Jack of
clubs is legal. -/
theorem canPlayCard_jack_witness :
    jackRoom.gameState.started = true ∧ jackRoom.gameState.drawStack = 0 ∧
      canPlayCard jackRoom "a" jackOfClubs = some true :=
  ⟨by decide, by decide,
    ((canPlayCard_jack jackRoom "a" jackOfClubs { suit := "hearts", value := "8", id := "c0" }
      (by decide) (by decide) (by decide) (by decide) (by decide)).1).2
      (Or.inl (by decide))⟩

/-- C8: in a started room with draw stack 0 and a top discard, for a card that
is neither a Queen nor a Jack offered by the player at the turn pointer,
`canPlayCard` returns `true` if and only if the card is an Ace and the top
discard is an Ace, or `currentValue` is set and the value of the card equals it,
or `currentValue` is unset and the suit of the card equals `currentSuit` or its
value equals the value of the top discard. -/
theorem canPlayCard_plain (r : GameRoom) (playerId : String) (card topCard : Card)
    (hs : r.gameState.started = true)
    (hcur : idAt (playerIds r) r.gameState.currentPlayer = some playerId)
    (hd : r.gameState.drawStack = 0)
    (htop : r.gameState.playedCards.getLast? = some topCard)
    (hQ : card.value ≠ "Q") (hJ : card.value ≠ "J") :
    canPlayCard r playerId card = some true ↔
      ((card.value = "A" ∧ topCard.value = "A") ∨
        (truthy r.gameState.currentValue = true ∧ some card.value = r.gameState.currentValue) ∨
        (truthy r.gameState.currentValue = false ∧
          (some card.suit = r.gameState.currentSuit ∨ card.value = topCard.value))) := by
  unfold canPlayCard
  simp only [hs, hcur, hd, htop, hQ, hJ]
  by_cases hA : card.value = "A" ∧ topCard.value = "A"
  · simp [hA]
  · by_cases ht : truthy r.gameState.currentValue = true
    · simp [hA, ht]
    · have hf : truthy r.gameState.currentValue = false := by simpa using ht
      simp [hA, hf]

/-- C8, at a concrete input: in `jackRoom` (top discard the Eight of hearts,
current suit hearts) the Eight of spades is legal by its value. -/
theorem canPlayCard_plain_witness :
    jackRoom.gameState.started = true ∧ jackRoom.gameState.drawStack = 0 ∧
      canPlayCard jackRoom "a" { suit := "spades", value := "8", id := "x" } = some true :=
  ⟨by decide, by decide,
    (canPlayCard_plain jackRoom "a" { suit := "spades", value := "8", id := "x" }
      { suit := "hearts", value := "8", id := "c0" }
      (by decide) (by decide) (by decide) (by decide) (by decide) (by decide)).2
      (Or.inr (Or.inr ⟨by decide, Or.inr (by decide)⟩))⟩


/-- The value lock of `canPlayCard`, in any room: with draw stack 0 and a top
discard, when `currentValue` is set to a value `v`, `canPlayCard` returns
`false` for every card whose value is neither `v` nor `J`, whatever its suit
(also the current suit), unless the card is an Ace and the top discard is an
Ace. -/
theorem canPlayCard_value_lock (r : GameRoom) (playerId : String) (card topCard : Card)
    (v : String)
    (hd : r.gameState.drawStack = 0)
    (htop : r.gameState.playedCards.getLast? = some topCard)
    (hv : r.gameState.currentValue = some v) (hset : truthy (some v) = true)
    (hne : card.value ≠ v) (hJ : card.value ≠ "J")
    (hA : ¬ (card.value = "A" ∧ topCard.value = "A")) :
    canPlayCard r playerId card = some false := by
  unfold canPlayCard
  by_cases hs : r.gameState.started = false
  · simp [hs]
  · by_cases hcur : idAt (playerIds r) r.gameState.currentPlayer = some playerId
    · simp only [hs, hcur, hd, htop, hv, hset, hJ, hA]
      by_cases hQ : card.value = "Q"
      · have hvQ : v ≠ "Q" := fun h => hne (by rw [hQ, h])
        simp [hQ, hvQ]
      · simp [hQ, hne]
    · simp [hs, hcur]

/-- The guards of `canPlayCard` and `playCard`, in any room. `canPlayCard` returns
`false` for every card when the round is not started or the asking player is
not the one at the turn pointer. `playCard` by a player who is not at the turn
pointer is never accepted and leaves the room as it was, and it returns `false`
whenever the discard pile is not empty (on an empty pile the source raises a
`TypeError` in its log line once the card is found). `playCard` with a card id
that is not in the hand of the player returns `false` and leaves the room as it
was. -/
theorem canPlayCard_playCard_guards (r : GameRoom) (playerId cardId : String) (card : Card)
    (newSuit newValue : Option String) :
    ((r.gameState.started = false ∨
          idAt (playerIds r) r.gameState.currentPlayer ≠ some playerId) →
        canPlayCard r playerId card = some false) ∧
      (idAt (playerIds r) r.gameState.currentPlayer ≠ some playerId →
        (playCard r playerId cardId newSuit newValue).value? ≠ some true ∧
          (playCard r playerId cardId newSuit newValue).room = r ∧
          (r.gameState.playedCards ≠ [] →
            playCard r playerId cardId newSuit newValue = .returned false r)) ∧
      ((∀ player, getPlayer r.players playerId = some player →
          findCard cardId player.hand = none) →
        playCard r playerId cardId newSuit newValue = .returned false r) := by
  have hcan : ∀ c : Card, idAt (playerIds r) r.gameState.currentPlayer ≠ some playerId →
      canPlayCard r playerId c = some false := by
    intro c hcur
    unfold canPlayCard
    by_cases hs : r.gameState.started = false
    · simp [hs]
    · simp [hs, hcur]
  refine ⟨?_, ?_, ?_⟩
  · rintro (hs | hcur)
    · unfold canPlayCard
      simp [hs]
    · exact hcan card hcur
  · intro hcur
    cases hp : getPlayer r.players playerId with
    | none => simp [playCard, hp, Outcome.value?, Outcome.room]
    | some player =>
      cases hc : findCard cardId player.hand with
      | none => simp [playCard, hp, hc, Outcome.value?, Outcome.room]
      | some found =>
        obtain ⟨cardIndex, c⟩ := found
        cases htop : r.gameState.playedCards.getLast? with
        | none =>
          have hnil : r.gameState.playedCards = [] := List.getLast?_eq_none_iff.mp htop
          simp [playCard, hp, hc, htop, Outcome.value?, Outcome.room, hnil]
        | some top =>
          simp [playCard, hp, hc, htop, hcan c hcur, Outcome.value?, Outcome.room]
  · intro hnot
    cases hp : getPlayer r.players playerId with
    | none => simp [playCard, hp]
    | some player => simp [playCard, hp, hnot player hp]

/-- The guards at a concrete input: in `jackRoom`, whose pile is not empty, the
player `b` is not at the turn pointer; `canPlayCard` answers `false` for the
Eight of clubs that `b` holds and `playCard` of it returns `false` on the
unchanged room; so does `playCard` by `a` of a card id that `a` does not hold. -/
theorem canPlayCard_playCard_guards_witness :
    idAt (playerIds jackRoom) jackRoom.gameState.currentPlayer ≠ some "b" ∧
      canPlayCard jackRoom "b" { suit := "clubs", value := "8", id := "c3" } = some false ∧
      playCard jackRoom "b" "c3" none none = .returned false jackRoom ∧
      playCard jackRoom "a" "c3" none none = .returned false jackRoom :=
  ⟨by decide,
    (canPlayCard_playCard_guards jackRoom "b" "c3" { suit := "clubs", value := "8", id := "c3" }
      none none).1 (Or.inr (by decide)),
    ((canPlayCard_playCard_guards jackRoom "b" "c3" { suit := "clubs", value := "8", id := "c3" }
      none none).2.1 (by decide)).2.2 (by decide),
    by decide⟩


/-! ## The shape of a successful play -/

theorem calculateGameResults_frame (r : GameRoom) (winnerId : String) :
    (∀ r1 results, calculateGameResults r winnerId = .ok (r1, results) →
        r1.gameState = r.gameState ∧ r1.players = r.players) ∧
      (∀ r1, calculateGameResults r winnerId = .error r1 →
        r1.gameState = r.gameState ∧ r1.players = r.players) := by
  unfold calculateGameResults
  constructor
  · intro r1 results h
    cases hw : getPlayer r.players winnerId with
    | none => simp [hw] at h
    | some w =>
      simp only [hw] at h
      injection h with h
      injection h with h1 h2
      subst h1
      exact ⟨rfl, rfl⟩
  · intro r1 h
    cases hw : getPlayer r.players winnerId with
    | none =>
      simp only [hw] at h
      injection h with h
      subst h
      exact ⟨rfl, rfl⟩
    | some w => simp [hw] at h

theorem nextPlayer_players (r : GameRoom) : (nextPlayer r).players = r.players := rfl

/-- Every call of `playCard` that returns `true` took one of two ways: the win
by a Queen that empties the hand, or the turn advance. -/
theorem playCard_true_cases (r : GameRoom) (playerId : String) (player : Player)
    (cardIndex : Nat) (card : Card) (newSuit newValue : Option String) (r2 : GameRoom)
    (hp : getPlayer r.players playerId = some player)
    (hc : findCard card.id player.hand = some (cardIndex, card))
    (h : playCard r playerId card.id newSuit newValue = .returned true r2) :
    canPlayCard r playerId card = some true ∧
      ∃ gs2, applyEffect (pushCard r.gameState card) r.players.length card newSuit newValue =
          some gs2 ∧
        (((player.hand.eraseIdx cardIndex).length = 0 ∧ card.value = "Q" ∧
            r2.players = setHand r.players playerId (player.hand.eraseIdx cardIndex) ∧
            ∃ results, r2.gameState =
              { gs2 with winner := some playerId, started := false,
                         gameResults := some results }) ∨
          (¬ ((player.hand.eraseIdx cardIndex).length = 0 ∧ card.value = "Q") ∧
            r2 = nextPlayer
              { r with
                  players := setHand r.players playerId (player.hand.eraseIdx cardIndex)
                  gameState := gs2 })) := by
  have hlegal : canPlayCard r playerId card = some true :=
    playCard_true_imp_canPlayCard r playerId player cardIndex card newSuit newValue hp hc
      (by rw [h]; rfl)
  refine ⟨hlegal, ?_⟩
  have htop : ∃ top, r.gameState.playedCards.getLast? = some top := by
    cases hl : r.gameState.playedCards.getLast? with
    | none => exact absurd hlegal (canPlayCard_ne_true_of_empty r playerId card hl)
    | some top => exact ⟨top, rfl⟩
  obtain ⟨top, htop⟩ := htop
  unfold playCard at h
  simp only [hp, hc, htop, hlegal] at h
  cases he : applyEffect (pushCard r.gameState card) r.players.length card newSuit newValue with
  | none =>
    unfold pushCard at he
    simp only [he] at h
    injection h with hb
    exact absurd hb (by decide)
  | some gs2 =>
    refine ⟨gs2, rfl, ?_⟩
    unfold pushCard at he
    simp only [he] at h
    by_cases hwin : (player.hand.eraseIdx cardIndex).length = 0 ∧ card.value = "Q"
    · left
      simp only [hwin, and_self, ↓reduceIte] at h
      cases hres : calculateGameResults
          { r with
              players := setHand r.players playerId (player.hand.eraseIdx cardIndex)
              gameState := { gs2 with winner := some playerId, started := false } }
          playerId with
      | error r4 => simp [hres] at h
      | ok pr =>
        obtain ⟨r4, results⟩ := pr
        obtain ⟨hgs, hpl⟩ := (calculateGameResults_frame _ playerId).1 r4 results hres
        simp only [hres] at h
        injection h with _ h
        subst h
        refine ⟨hwin.1, hwin.2, hpl, results, ?_⟩
        simp [hgs]
    · right
      refine ⟨hwin, ?_⟩
      rw [if_neg hwin] at h
      injection h with _ h
      exact h.symm


/-- What the chain of special cards leaves alone, and the bounds on what it
changes. -/
theorem applyEffect_frame (gs gs2 : GameState) (playerCount : Nat) (card : Card)
    (newSuit newValue : Option String)
    (h : applyEffect gs playerCount card newSuit newValue = some gs2) :
    gs2.maxDrawStack = gs.maxDrawStack ∧
      (gs2.drawStack = gs.drawStack ∨ gs2.drawStack ≤ gs.maxDrawStack) ∧
      (gs2.direction = gs.direction ∨ gs2.direction = gs.direction * (-1)) ∧
      (card.value ≠ "A" → gs2.skipNext = gs.skipNext) ∧
      gs2.started = gs.started ∧ gs2.winner = gs.winner ∧
      gs2.playedCards = gs.playedCards ∧ gs2.deck = gs.deck ∧
      gs2.currentPlayer = gs.currentPlayer := by
  unfold applyEffect at h
  split_ifs at h with h1 h2 h3 h4 h5 h6 h7
  all_goals
    injection h with h
    subst h
    simp_all

/-- The game state in which any call of `playCard` leaves the room. -/
theorem playCard_gameState_cases (r : GameRoom) (playerId cardId : String)
    (newSuit newValue : Option String) :
    (playCard r playerId cardId newSuit newValue).room.gameState = r.gameState ∨
      (∃ card, (playCard r playerId cardId newSuit newValue).room.gameState =
        pushCard r.gameState card) ∨
      (∃ card gs2, applyEffect (pushCard r.gameState card) r.players.length card newSuit
          newValue = some gs2 ∧
        ((card.value = "Q" ∧ ∃ results,
            (playCard r playerId cardId newSuit newValue).room.gameState =
              { gs2 with winner := some playerId, started := false, gameResults := results }) ∨
          (∃ players, (playCard r playerId cardId newSuit newValue).room.gameState =
            (nextPlayer { r with players := players, gameState := gs2 }).gameState ∧
            players.length = r.players.length))) := by
  unfold playCard
  cases hp : getPlayer r.players playerId with
  | none => left; rfl
  | some player =>
    simp only []
    cases hc : findCard cardId player.hand with
    | none => left; rfl
    | some found =>
      obtain ⟨cardIndex, card⟩ := found
      simp only []
      cases htop : r.gameState.playedCards.getLast? with
      | none => left; rfl
      | some top =>
        simp only []
        cases hlegal : canPlayCard r playerId card with
        | none => left; rfl
        | some b =>
          cases b with
          | false => left; rfl
          | true =>
            simp only []
            cases he : applyEffect (pushCard r.gameState card) r.players.length card newSuit
                newValue with
            | none =>
              right; left
              unfold pushCard at he
              simp only [he]
              exact ⟨card, rfl⟩
            | some gs2 =>
              right; right
              refine ⟨card, gs2, he, ?_⟩
              unfold pushCard at he
              simp only [he]
              by_cases hwin : (player.hand.eraseIdx cardIndex).length = 0 ∧ card.value = "Q"
              · left
                refine ⟨hwin.2, ?_⟩
                rw [if_pos hwin]
                cases hres : calculateGameResults
                    { r with
                        players := setHand r.players playerId (player.hand.eraseIdx cardIndex)
                        gameState := { gs2 with winner := some playerId, started := false } }
                    playerId with
                | error r4 =>
                  have hgs := ((calculateGameResults_frame _ playerId).2 r4 hres).1
                  refine ⟨gs2.gameResults, ?_⟩
                  simp only [Outcome.room]
                  rw [hgs]
                | ok pr =>
                  obtain ⟨r4, results⟩ := pr
                  have hgs := ((calculateGameResults_frame _ playerId).1 r4 results hres).1
                  refine ⟨some results, ?_⟩
                  simp only [Outcome.room]
                  rw [hgs]
              · right
                rw [if_neg hwin]
                exact ⟨_, rfl, by simp [setHand]⟩

/-- The facts about the game state that every call preserves: the cap is 10,
the draw stack is within the cap, no skip is pending between two calls, and the
direction is 1 or -1. -/
theorem nextPlayer_frame (r : GameRoom) :
    (nextPlayer r).gameState.maxDrawStack = r.gameState.maxDrawStack ∧
      (nextPlayer r).gameState.drawStack = r.gameState.drawStack ∧
      (nextPlayer r).gameState.direction = r.gameState.direction ∧
      (nextPlayer r).gameState.skipNext = false ∧
      (nextPlayer r).gameState.started = r.gameState.started ∧
      (nextPlayer r).gameState.winner = r.gameState.winner ∧
      (nextPlayer r).gameState.playedCards = r.gameState.playedCards ∧
      (nextPlayer r).gameState.deck = r.gameState.deck ∧
      (nextPlayer r).gameState.currentSuit = r.gameState.currentSuit ∧
      (nextPlayer r).gameState.currentValue = r.gameState.currentValue := by
  unfold nextPlayer
  by_cases hs : r.gameState.skipNext = true
  · simp [hs]
  · have hf : r.gameState.skipNext = false := by simpa using hs
    simp [hf]


/-! ## Invariants of the reachable rooms -/

theorem calculateEliminationResults_frame (r : GameRoom) (eliminatedPlayerId : String) :
    (∀ r1 results, calculateEliminationResults r eliminatedPlayerId = .ok (r1, results) →
        r1.gameState = r.gameState ∧ r1.players = r.players) ∧
      (∀ r1, calculateEliminationResults r eliminatedPlayerId = .error r1 →
        r1.gameState = r.gameState ∧ r1.players = r.players) := by
  unfold calculateEliminationResults
  constructor
  · intro r1 results h
    dsimp only at h
    split at h
    · injection h with h
      injection h with h1 h2
      subst h1
      exact ⟨rfl, rfl⟩
    · cases h
  · intro r1 h
    dsimp only at h
    split at h
    · cases h
    · injection h with h
      subst h
      exact ⟨rfl, rfl⟩

/-- The per-round fields after any call of `startGame` that got past the
check of the number of players. -/
theorem startGame_gameState (r : GameRoom) (initiatorId : String) (deck : List Card)
    (rnd : Nat) :
    (startGame r initiatorId deck rnd).room = r ∨
      ((startGame r initiatorId deck rnd).room.gameState.maxDrawStack =
          r.gameState.maxDrawStack ∧
        (startGame r initiatorId deck rnd).room.gameState.drawStack = 0 ∧
        (startGame r initiatorId deck rnd).room.gameState.skipNext = false ∧
        (startGame r initiatorId deck rnd).room.gameState.direction = 1 ∧
        (startGame r initiatorId deck rnd).room.gameState.currentValue = none ∧
        (startGame r initiatorId deck rnd).room.gameState.lastPlayedWasSpecial = false) := by
  unfold startGame
  by_cases hn : r.players.length < 2
  · left
    rw [if_pos hn]
    rfl
  · right
    rw [if_neg hn]
    simp only []
    split
    · split
      · rename_i r3 heq
        have hgs := ((calculateEliminationResults_frame _ _).2 r3 heq).1
        simp only [Outcome.room]
        rw [hgs]
        exact ⟨rfl, rfl, rfl, rfl, rfl, rfl⟩
      · rename_i r3 results heq
        have hgs := ((calculateEliminationResults_frame _ _).1 r3 results heq).1
        simp only [Outcome.room]
        rw [hgs]
        exact ⟨rfl, rfl, rfl, rfl, rfl, rfl⟩
    · split
      · exact ⟨rfl, rfl, rfl, rfl, rfl, rfl⟩
      · exact ⟨rfl, rfl, rfl, rfl, rfl, rfl⟩

theorem drawCard_gameState (r : GameRoom) (playerId : String) :
    (drawCard r playerId).2 = r ∨
      ∃ players deck, players.length = r.players.length ∧
        (drawCard r playerId).2 =
          nextPlayer
            { r with
                players := players
                gameState := { r.gameState with deck := deck, drawStack := 0 } } := by
  unfold drawCard
  cases hp : getPlayer r.players playerId with
  | none => left; rfl
  | some player =>
    dsimp only
    by_cases h1 : idAt (playerIds r) r.gameState.currentPlayer ≠ some playerId
    · left
      rw [if_pos h1]
    · rw [if_neg h1]
      by_cases h2 : r.gameState.deck.length <
          (if r.gameState.drawStack > 0 then r.gameState.drawStack else 1)
      · left
        rw [if_pos h2]
      · right
        rw [if_neg h2]
        exact ⟨_, _, by simp [setHand], rfl⟩

theorem reshuffleDiscardPile_gameState (r : GameRoom) :
    (reshuffleDiscardPile r).2.players = r.players ∧
      ∃ deck pile,
        (reshuffleDiscardPile r).2.gameState =
          { r.gameState with deck := deck, playedCards := pile } := by
  unfold reshuffleDiscardPile
  split_ifs with h
  · exact ⟨rfl, _, _, rfl⟩
  · exact ⟨rfl, r.gameState.deck, r.gameState.playedCards, rfl⟩

/-- In every reachable room the cap `maxDrawStack` is 10, the draw stack is
within the cap, no skip is pending, and the direction is 1 or -1. -/
theorem reachable_fields (r : GameRoom) (h : Reachable r) :
    r.gameState.maxDrawStack = 10 ∧ r.gameState.drawStack ≤ 10 ∧
      r.gameState.skipNext = false ∧
      (r.gameState.direction = 1 ∨ r.gameState.direction = -1) := by
  induction h with
  | fresh roomId => exact ⟨rfl, Nat.zero_le 10, rfl, Or.inl rfl⟩
  | step r op _ _ ih =>
    obtain ⟨hmax, hds, hskip, hdir⟩ := ih
    cases op with
    | addPlayer playerId playerName =>
      have : (step r (.addPlayer playerId playerName)).gameState = r.gameState := by
        simp only [step, addPlayer]
        split_ifs <;> rfl
      rw [this]
      exact ⟨hmax, hds, hskip, hdir⟩
    | removePlayer playerId => exact ⟨hmax, hds, hskip, hdir⟩
    | startGame initiatorId deck rnd =>
      simp only [step]
      rcases startGame_gameState r initiatorId deck rnd with h | ⟨h1, h2, h3, h4, _, _⟩
      · rw [h]
        exact ⟨hmax, hds, hskip, hdir⟩
      · rw [h1, h2, h3, h4]
        exact ⟨hmax, by decide, rfl, Or.inl rfl⟩
    | playCard playerId cardId newSuit newValue =>
      simp only [step]
      rcases playCard_gameState_cases r playerId cardId newSuit newValue with
        h | ⟨card, h⟩ | ⟨card, gs2, he, h⟩
      · rw [h]
        exact ⟨hmax, hds, hskip, hdir⟩
      · rw [h]
        exact ⟨hmax, hds, hskip, hdir⟩
      · obtain ⟨e1, e2, e3, e4, _⟩ := applyEffect_frame _ _ _ _ _ _ he
        have e1b : gs2.maxDrawStack = 10 := by rw [e1]; exact hmax
        have e2b : gs2.drawStack ≤ 10 := by
          rcases e2 with e2 | e2
          · rw [e2]; exact hds
          · exact le_trans e2 (le_of_eq hmax)
        have e3b : gs2.direction = 1 ∨ gs2.direction = -1 := by
          have hd : (pushCard r.gameState card).direction = r.gameState.direction := rfl
          rw [hd] at e3
          rcases e3 with e3 | e3 <;> rcases hdir with hdir | hdir <;> rw [e3, hdir] <;> decide
        rcases h with ⟨hQ, results, h⟩ | ⟨players, h, _⟩
        · have hA : card.value ≠ "A" := by rw [hQ]; decide
          rw [h]
          exact ⟨e1b, e2b, (e4 hA).trans hskip, e3b⟩
        · obtain ⟨n1, n2, n3, n4, _⟩ :=
            nextPlayer_frame { r with players := players, gameState := gs2 }
          rw [h, n1, n2, n3, n4]
          exact ⟨e1b, e2b, rfl, e3b⟩
    | drawCard playerId =>
      simp only [step]
      rcases drawCard_gameState r playerId with h | ⟨players, deck, _, h⟩
      · rw [h]
        exact ⟨hmax, hds, hskip, hdir⟩
      · obtain ⟨n1, n2, n3, n4, _⟩ :=
          nextPlayer_frame
            { r with
                players := players
                gameState := { r.gameState with deck := deck, drawStack := 0 } }
        rw [h, n1, n2, n3, n4]
        exact ⟨hmax, Nat.zero_le 10, rfl, hdir⟩
    | reshuffleDiscardPile =>
      simp only [step]
      obtain ⟨_, deck, pile, h⟩ := reshuffleDiscardPile_gameState r
      rw [h]
      exact ⟨hmax, hds, hskip, hdir⟩


/-! ## The turn pointer -/

theorem canPlayCard_true_imp (r : GameRoom) (playerId : String) (card : Card)
    (h : canPlayCard r playerId card = some true) :
    r.gameState.started = true ∧
      idAt (playerIds r) r.gameState.currentPlayer = some playerId := by
  unfold canPlayCard at h
  by_cases hs : r.gameState.started = false
  · simp [hs] at h
  · by_cases hcur : idAt (playerIds r) r.gameState.currentPlayer = some playerId
    · exact ⟨by simpa using hs, hcur⟩
    · simp [hs, hcur] at h

/-- The player at the turn pointer sits at a seat of the room. -/
theorem idAt_bounds (r : GameRoom) (playerId : String)
    (h : idAt (playerIds r) r.gameState.currentPlayer = some playerId) :
    0 ≤ r.gameState.currentPlayer ∧ r.gameState.currentPlayer < (r.players.length : Int) := by
  unfold idAt at h
  split_ifs at h with h0
  refine ⟨h0, ?_⟩
  have hlt : r.gameState.currentPlayer.toNat < (playerIds r).length := by
    rcases List.getElem?_eq_some_iff.mp h with ⟨hlt, _⟩
    exact hlt
  have hlen : (playerIds r).length = r.players.length := by simp [playerIds]
  omega

/-- One seat in the direction of play: the remainder that `nextPlayer` takes is
the mathematical one. -/
theorem tmod_one_seat (i d n : Int) (hi : 0 ≤ i) (hin : i < n) (hd : d = 1 ∨ d = -1) :
    Int.tmod (i + d + n) n = (i + d) % n := by
  have hn : 0 ≤ n := by omega
  have hnonneg : 0 ≤ i + d + n := by rcases hd with hd | hd <;> omega
  rw [Int.tmod_eq_emod hnonneg hn, Int.add_emod_self]

theorem emod_bounds (x n : Int) (hn : 0 < n) : 0 ≤ x % n ∧ x % n < n :=
  ⟨Int.emod_nonneg x (by omega), Int.emod_lt_of_pos x hn⟩

/-- The turn pointer after `nextPlayer` when no skip is pending. -/
theorem nextPlayer_one_seat (r : GameRoom) (hskip : r.gameState.skipNext = false)
    (hi : 0 ≤ r.gameState.currentPlayer)
    (hin : r.gameState.currentPlayer < (r.players.length : Int))
    (hd : r.gameState.direction = 1 ∨ r.gameState.direction = -1) :
    (nextPlayer r).gameState.currentPlayer =
        (r.gameState.currentPlayer + r.gameState.direction) % (r.players.length : Int) ∧
      (nextPlayer r).gameState.lastPlayedWasSpecial = r.gameState.lastPlayedWasSpecial := by
  unfold nextPlayer
  simp only [hskip, Bool.false_eq_true, ↓reduceIte]
  exact ⟨tmod_one_seat _ _ _ hi hin hd, trivial⟩

/-- The turn pointer after `nextPlayer` when a skip is pending. -/
theorem nextPlayer_two_seats (r : GameRoom) (hskip : r.gameState.skipNext = true)
    (hi : 0 ≤ r.gameState.currentPlayer)
    (hin : r.gameState.currentPlayer < (r.players.length : Int))
    (hd : r.gameState.direction = 1 ∨ r.gameState.direction = -1) :
    (nextPlayer r).gameState.currentPlayer =
        (r.gameState.currentPlayer + 2 * r.gameState.direction) % (r.players.length : Int) ∧
      (nextPlayer r).gameState.lastPlayedWasSpecial = false := by
  unfold nextPlayer
  simp only [hskip, ↓reduceIte]
  refine ⟨?_, trivial⟩
  have hn : (0 : Int) < r.players.length := by omega
  rw [tmod_one_seat _ _ _ hi hin hd]
  obtain ⟨b0, b1⟩ := emod_bounds (r.gameState.currentPlayer + r.gameState.direction)
    (r.players.length : Int) hn
  rw [tmod_one_seat _ _ _ b0 b1 hd, Int.emod_add_emod]
  congr 1
  ring

theorem nextPlayer_flag_false (r : GameRoom) (h : r.gameState.lastPlayedWasSpecial = false) :
    (nextPlayer r).gameState.lastPlayedWasSpecial = false := by
  unfold nextPlayer
  by_cases hs : r.gameState.skipNext = true
  · simp [hs]
  · have hf : r.gameState.skipNext = false := by simpa using hs
    simp [hf, h]


/-! ## Concrete reachable rooms -/

theorem openedRoom_reachable : Reachable openedRoom :=
  Reachable.step lobby (.startGame "a" unshuffledDeck 0)
    (Reachable.step _ (.addPlayer "b" "B")
      (Reachable.step _ (.addPlayer "a" "A") (Reachable.fresh "room") rfl) rfl)
    (by decide)

theorem kingRoom_reachable : Reachable kingRoom :=
  Reachable.step openedRoom _ openedRoom_reachable rfl

theorem queenChosenRoom_reachable : Reachable queenChosenRoom :=
  Reachable.step openedRoom _ openedRoom_reachable rfl

theorem aceRoom_reachable : Reachable aceRoom :=
  Reachable.step queenChosenRoom _ queenChosenRoom_reachable rfl

/-! ## Draw stack and turn pointer over a run -/

/-- C11: in every room reachable from a fresh room by any sequence of calls,
`0 <= drawStack <= 10`. -/
theorem drawStack_within_cap (r : GameRoom) (h : Reachable r) :
    0 ≤ r.gameState.drawStack ∧ r.gameState.drawStack ≤ 10 :=
  ⟨Nat.zero_le _, (reachable_fields r h).2.1⟩

/-- C11, at a concrete input: after the King of spades and the Seven of spades
have been chained the draw stack is 7, within the cap. -/
theorem drawStack_within_cap_witness :
    chainedRoom.gameState.drawStack = 7 ∧
      (0 ≤ chainedRoom.gameState.drawStack ∧ chainedRoom.gameState.drawStack ≤ 10) :=
  ⟨by decide,
    drawStack_within_cap chainedRoom (Reachable.step kingRoom _ kingRoom_reachable rfl)⟩

/-- C12, the code at the failing input: `a` and `b` join, `a` starts the round
and draws a card, so the turn pointer is 1 (the seat of `b`); then `b` leaves.
`removePlayer` only deletes the player: one player is seated, the round is
still started, and the turn pointer is still 1, which is no seat of the room,
so that no player is the one at the turn pointer. -/
theorem removePlayer_leaves_pointer_dangling :
    strandedRoom = (removePlayer (drawCard openedRoom "a").2 "b").2 ∧
      (drawCard openedRoom "a").1 = true ∧
      strandedRoom.players.length = 1 ∧
      strandedRoom.gameState.started = true ∧
      strandedRoom.gameState.currentPlayer = 1 ∧
      ¬ (strandedRoom.gameState.currentPlayer < (strandedRoom.players.length : Int)) ∧
      idAt (playerIds strandedRoom) strandedRoom.gameState.currentPlayer = none := by
  decide

/-- C13: for every call of `playCard` that returns `true`, the hand of the actor
afterwards is the old hand without the card, and the round ends (`started`
becomes `false` and `winner` becomes the actor) if and only if that hand is
empty and the card is a Queen; in every other case, also when a card that is not
a Queen empties the hand, `started` stays `true`, `winner` stays as it was, and
the room is the one that `nextPlayer` leaves after the effect of the card. -/
theorem playCard_round_end (r : GameRoom) (playerId : String) (player : Player)
    (cardIndex : Nat) (card : Card) (newSuit newValue : Option String) (r2 : GameRoom)
    (hp : getPlayer r.players playerId = some player)
    (hc : findCard card.id player.hand = some (cardIndex, card))
    (h : playCard r playerId card.id newSuit newValue = .returned true r2) :
    (getPlayer r2.players playerId).map (fun p => p.hand) =
        some (player.hand.eraseIdx cardIndex) ∧
      ((r2.gameState.started = false ∧ r2.gameState.winner = some playerId) ↔
        (player.hand.eraseIdx cardIndex = [] ∧ card.value = "Q")) ∧
      (¬ (player.hand.eraseIdx cardIndex = [] ∧ card.value = "Q") →
        r2.gameState.started = true ∧ r2.gameState.winner = r.gameState.winner ∧
          ∃ gs2, applyEffect (pushCard r.gameState card) r.players.length card newSuit
              newValue = some gs2 ∧
            r2 = nextPlayer
              { r with
                  players := setHand r.players playerId (player.hand.eraseIdx cardIndex)
                  gameState := gs2 }) := by
  obtain ⟨hlegal, gs2, he, hcases⟩ :=
    playCard_true_cases r playerId player cardIndex card newSuit newValue r2 hp hc h
  obtain ⟨hstarted, _⟩ := canPlayCard_true_imp r playerId card hlegal
  obtain ⟨_, _, _, _, es, ew, _⟩ := applyEffect_frame _ _ _ _ _ _ he
  have es2 : gs2.started = true := by rw [es]; exact hstarted
  have ew2 : gs2.winner = r.gameState.winner := by rw [ew]; rfl
  have hhand := getPlayer_setHand r.players playerId (player.hand.eraseIdx cardIndex) player hp
  rcases hcases with ⟨hlen, hQ, hpl, results, hgs⟩ | ⟨hnot, hr2⟩
  · have hnil : player.hand.eraseIdx cardIndex = [] := List.length_eq_zero.mp hlen
    refine ⟨?_, ?_, ?_⟩
    · rw [hpl, hhand]
      rfl
    · rw [hgs]
      exact ⟨fun _ => ⟨hnil, hQ⟩, fun _ => ⟨rfl, rfl⟩⟩
    · intro hno
      exact absurd ⟨hnil, hQ⟩ hno
  · have hnot2 : ¬ (player.hand.eraseIdx cardIndex = [] ∧ card.value = "Q") := by
      intro hh
      exact hnot ⟨List.length_eq_zero.mpr hh.1, hh.2⟩
    obtain ⟨_, _, _, _, ns, nw, _⟩ := nextPlayer_frame
      { r with
          players := setHand r.players playerId (player.hand.eraseIdx cardIndex)
          gameState := gs2 }
    have hs2 : r2.gameState.started = true := by rw [hr2, ns]; exact es2
    have hw2 : r2.gameState.winner = r.gameState.winner := by rw [hr2, nw]; exact ew2
    refine ⟨?_, ?_, ?_⟩
    · rw [hr2, nextPlayer_players]
      show Option.map (fun p => p.hand)
        (getPlayer (setHand r.players playerId (player.hand.eraseIdx cardIndex)) playerId) = _
      rw [hhand]
      rfl
    · constructor
      · intro hh
        rw [hs2] at hh
        exact absurd hh.1 (by decide)
      · intro hh
        exact absurd hh hnot2
    · intro _
      exact ⟨hs2, hw2, gs2, he, hr2⟩

/-- C13, at a concrete input: in `openedRoom` the King of spades played by `a`
does not end the round. -/
theorem playCard_round_end_witness :
    (playCard openedRoom "a" "spades-K" none none).value? = some true ∧
      ((kingRoom.gameState.started = false ∧ kingRoom.gameState.winner = some "a") ↔
        (([{ suit := "spades", value := "A", id := "spades-A" },
            { suit := "spades", value := "K", id := "spades-K" },
            { suit := "spades", value := "Q", id := "spades-Q" },
            jackOfSpades] : List Card).eraseIdx 1 = [] ∧
          ({ suit := "spades", value := "K", id := "spades-K" } : Card).value = "Q")) :=
  ⟨by decide,
    (playCard_round_end openedRoom "a"
      { id := "a", name := "A",
        hand := [{ suit := "spades", value := "A", id := "spades-A" },
                 { suit := "spades", value := "K", id := "spades-K" },
                 { suit := "spades", value := "Q", id := "spades-Q" }, jackOfSpades],
        connected := true }
      1 { suit := "spades", value := "K", id := "spades-K" } none none kingRoom
      (by decide) (by decide) (by decide)).2.1⟩


/-! ## The effect of each kind of card -/

theorem setHand_length (ps : List Player) (playerId : String) (hand : List Card) :
    (setHand ps playerId hand).length = ps.length := by
  simp [setHand]

theorem applyEffect_seven (gs : GameState) (playerCount : Nat) (card : Card)
    (newSuit newValue : Option String) (h : card.value = "7") :
    applyEffect gs playerCount card newSuit newValue =
      some { gs with
              drawStack := min (gs.drawStack + 2) gs.maxDrawStack
              currentSuit := some card.suit
              lastPlayedWasSpecial := true } := by
  simp [applyEffect, h]

theorem applyEffect_kingOfSpades (gs : GameState) (playerCount : Nat) (card : Card)
    (newSuit newValue : Option String) (h : card.value = "K") (hs : card.suit = "spades") :
    applyEffect gs playerCount card newSuit newValue =
      some { gs with
              drawStack := min (gs.drawStack + 5) gs.maxDrawStack
              currentSuit := some card.suit
              lastPlayedWasSpecial := true } := by
  simp [applyEffect, h, hs]

theorem applyEffect_ace (gs : GameState) (playerCount : Nat) (card : Card)
    (newSuit newValue : Option String) (h : card.value = "A") :
    applyEffect gs playerCount card newSuit newValue =
      some { gs with skipNext := true, currentSuit := some card.suit,
                     lastPlayedWasSpecial := true } := by
  simp [applyEffect, h]

theorem applyEffect_ten_reverse (gs : GameState) (playerCount : Nat) (card : Card)
    (newSuit newValue : Option String) (h : card.value = "10") (hn : 3 ≤ playerCount) :
    applyEffect gs playerCount card newSuit newValue =
      some { gs with direction := gs.direction * (-1), currentSuit := some card.suit } := by
  simp [applyEffect, h, hn]

theorem applyEffect_ten_plain (gs : GameState) (playerCount : Nat) (card : Card)
    (newSuit newValue : Option String) (h : card.value = "10") (hn : playerCount < 3) :
    applyEffect gs playerCount card newSuit newValue =
      some { gs with currentSuit := some card.suit } := by
  have hn2 : ¬ 3 ≤ playerCount := by omega
  simp [applyEffect, h, hn2]

theorem applyEffect_queen (gs : GameState) (playerCount : Nat) (card : Card)
    (newSuit newValue : Option String) (h : card.value = "Q") (hs : truthy newSuit = true) :
    applyEffect gs playerCount card newSuit newValue =
      some { gs with currentSuit := newSuit, lastPlayedWasSpecial := false } := by
  simp [applyEffect, h, hs]

theorem applyEffect_currentValue (gs gs2 : GameState) (playerCount : Nat) (card : Card)
    (newSuit newValue : Option String)
    (h : applyEffect gs playerCount card newSuit newValue = some gs2) :
    (card.value ≠ "J" → gs2.currentValue = gs.currentValue) ∧
      (card.value = "J" →
        gs2.currentValue = gs.currentValue ∨
          (gs2.currentValue = newValue ∧ truthy newValue = true)) := by
  unfold applyEffect at h
  split_ifs at h with h1 h2 h3 h4 h5 h6 h7
  all_goals
    injection h with h
    subst h
    simp_all

/-- A successful play of a card that is not a Queen: the player was at the turn
pointer, and the room is what `nextPlayer` leaves after the effect of the card. -/
theorem playCard_true_not_queen (r : GameRoom) (playerId : String) (player : Player)
    (cardIndex : Nat) (card : Card) (newSuit newValue : Option String) (r2 : GameRoom)
    (hp : getPlayer r.players playerId = some player)
    (hc : findCard card.id player.hand = some (cardIndex, card))
    (h : playCard r playerId card.id newSuit newValue = .returned true r2)
    (hQ : card.value ≠ "Q") :
    0 ≤ r.gameState.currentPlayer ∧ r.gameState.currentPlayer < (r.players.length : Int) ∧
      ∃ gs2, applyEffect (pushCard r.gameState card) r.players.length card newSuit newValue =
          some gs2 ∧
        r2 = nextPlayer
          { r with
              players := setHand r.players playerId (player.hand.eraseIdx cardIndex)
              gameState := gs2 } := by
  obtain ⟨hlegal, gs2, he, hcases⟩ :=
    playCard_true_cases r playerId player cardIndex card newSuit newValue r2 hp hc h
  obtain ⟨_, hcur⟩ := canPlayCard_true_imp r playerId card hlegal
  obtain ⟨b0, b1⟩ := idAt_bounds r playerId hcur
  refine ⟨b0, b1, gs2, he, ?_⟩
  rcases hcases with ⟨_, hq, _⟩ | ⟨_, hr2⟩
  · exact absurd hq hQ
  · exact hr2

/-- C14: for every legal play of a Seven (respectively of the King of spades)
in a room with `skipNext` false, cap 10 and direction 1 or -1: afterwards the
draw stack is `min (old + 2) 10` (respectively `min (old + 5) 10`), the current
suit is the suit of the card, `lastPlayedWasSpecial` is `true`, and the turn
pointer is one seat further in the direction of play, modulo the number of
seated players. -/
theorem playCard_draw_card (r : GameRoom) (playerId : String) (player : Player)
    (cardIndex : Nat) (card : Card) (newSuit newValue : Option String) (r2 : GameRoom)
    (hp : getPlayer r.players playerId = some player)
    (hc : findCard card.id player.hand = some (cardIndex, card))
    (h : playCard r playerId card.id newSuit newValue = .returned true r2)
    (hskip : r.gameState.skipNext = false) (hmax : r.gameState.maxDrawStack = 10)
    (hdir : r.gameState.direction = 1 ∨ r.gameState.direction = -1) :
    (card.value = "7" → r2.gameState.drawStack = min (r.gameState.drawStack + 2) 10) ∧
      ((card.value = "K" ∧ card.suit = "spades") →
        r2.gameState.drawStack = min (r.gameState.drawStack + 5) 10) ∧
      ((card.value = "7" ∨ (card.value = "K" ∧ card.suit = "spades")) →
        r2.gameState.currentSuit = some card.suit ∧
          r2.gameState.lastPlayedWasSpecial = true ∧
          r2.gameState.currentPlayer =
            (r.gameState.currentPlayer + r.gameState.direction) % (r.players.length : Int)) := by
  have key : ∀ k : Nat,
      applyEffect (pushCard r.gameState card) r.players.length card newSuit newValue =
        some { pushCard r.gameState card with
                drawStack := min ((pushCard r.gameState card).drawStack + k)
                  (pushCard r.gameState card).maxDrawStack
                currentSuit := some card.suit
                lastPlayedWasSpecial := true } →
      card.value ≠ "Q" →
      r2.gameState.drawStack = min (r.gameState.drawStack + k) 10 ∧
        r2.gameState.currentSuit = some card.suit ∧
        r2.gameState.lastPlayedWasSpecial = true ∧
        r2.gameState.currentPlayer =
          (r.gameState.currentPlayer + r.gameState.direction) % (r.players.length : Int) := by
    intro k hk hQ
    obtain ⟨b0, b1, gs2, he, hr2⟩ :=
      playCard_true_not_queen r playerId player cardIndex card newSuit newValue r2 hp hc h hQ
    rw [hk] at he
    injection he with he
    subst he
    obtain ⟨hptr, hflag⟩ := nextPlayer_one_seat
      { r with
          players := setHand r.players playerId (player.hand.eraseIdx cardIndex)
          gameState :=
            { pushCard r.gameState card with
                drawStack := min ((pushCard r.gameState card).drawStack + k)
                  (pushCard r.gameState card).maxDrawStack
                currentSuit := some card.suit
                lastPlayedWasSpecial := true } }
      hskip b0 (by simpa [setHand_length] using b1) hdir
    obtain ⟨_, n2, _, _, _, _, _, _, n9, _⟩ := nextPlayer_frame
      { r with
          players := setHand r.players playerId (player.hand.eraseIdx cardIndex)
          gameState :=
            { pushCard r.gameState card with
                drawStack := min ((pushCard r.gameState card).drawStack + k)
                  (pushCard r.gameState card).maxDrawStack
                currentSuit := some card.suit
                lastPlayedWasSpecial := true } }
    rw [hr2]
    refine ⟨?_, ?_, ?_, ?_⟩
    · rw [n2]
      show min (r.gameState.drawStack + k) r.gameState.maxDrawStack = _
      rw [hmax]
    · rw [n9]
    · rw [hflag]
    · rw [hptr]
      simp [setHand_length, pushCard]
  refine ⟨fun h7 => ?_, fun hK => ?_, fun hor => ?_⟩
  · exact (key 2 (applyEffect_seven _ _ _ _ _ h7) (by rw [h7]; decide)).1
  · exact (key 5 (applyEffect_kingOfSpades _ _ _ _ _ hK.1 hK.2) (by rw [hK.1]; decide)).1
  · rcases hor with h7 | hK
    · exact (key 2 (applyEffect_seven _ _ _ _ _ h7) (by rw [h7]; decide)).2
    · exact (key 5 (applyEffect_kingOfSpades _ _ _ _ _ hK.1 hK.2) (by rw [hK.1]; decide)).2

/-- C14, at a concrete input: in `openedRoom` (2 players, draw stack 0) the King
of spades played by `a` gives draw stack 5, current suit spades, the flag set,
and the turn passes from seat 0 to seat 1. -/
theorem playCard_draw_card_witness :
    kingRoom.gameState.drawStack = min (openedRoom.gameState.drawStack + 5) 10 ∧
      kingRoom.gameState.drawStack = 5 ∧
      (kingRoom.gameState.currentSuit = some "spades" ∧
        kingRoom.gameState.lastPlayedWasSpecial = true ∧
        kingRoom.gameState.currentPlayer =
          (openedRoom.gameState.currentPlayer + openedRoom.gameState.direction) %
            (openedRoom.players.length : Int)) ∧
      kingRoom.gameState.currentPlayer = 1 :=
  ⟨(playCard_draw_card openedRoom "a"
      { id := "a", name := "A",
        hand := [{ suit := "spades", value := "A", id := "spades-A" },
                 { suit := "spades", value := "K", id := "spades-K" },
                 { suit := "spades", value := "Q", id := "spades-Q" }, jackOfSpades],
        connected := true }
      1 { suit := "spades", value := "K", id := "spades-K" } none none kingRoom
      (by decide) (by decide) (by decide) (by decide) (by decide) (by decide)).2.1
      ⟨by decide, by decide⟩,
    by decide,
    (playCard_draw_card openedRoom "a"
      { id := "a", name := "A",
        hand := [{ suit := "spades", value := "A", id := "spades-A" },
                 { suit := "spades", value := "K", id := "spades-K" },
                 { suit := "spades", value := "Q", id := "spades-Q" }, jackOfSpades],
        connected := true }
      1 { suit := "spades", value := "K", id := "spades-K" } none none kingRoom
      (by decide) (by decide) (by decide) (by decide) (by decide) (by decide)).2.2
      (Or.inr ⟨by decide, by decide⟩),
    by decide⟩


/-- Two seats further is neither the own seat nor the next one, with at least
three seats. -/
theorem two_seats_skip_one (i d n : Int) (hd : d = 1 ∨ d = -1) (hn : 3 ≤ n) : (i + 2 * d) % n ≠ i ∧ (i + 2 * d) % n ≠ (i + d) % n := by
  constructor
  · intro h
    have hdvd : n ∣ i + 2 * d - i := Int.dvd_sub_of_emod_eq h
    have h2 : n ∣ 2 := by
      rcases hd with hd | hd
      · rw [hd] at hdvd
        have e : i + 2 * 1 - i = 2 := by ring
        rwa [e] at hdvd
      · rw [hd] at hdvd
        have e : i + 2 * (-1) - i = -2 := by ring
        rw [e] at hdvd
        exact (Int.dvd_neg).mp hdvd
    have := Int.le_of_dvd (by decide) h2
    omega
  · intro h
    have hdvd : n ∣ (i + d) - (i + 2 * d) := Int.modEq_iff_dvd.mp h
    have h1 : n ∣ 1 := by
      rcases hd with hd | hd
      · rw [hd] at hdvd
        have e : (i + 1) - (i + 2 * 1) = -1 := by ring
        rw [e] at hdvd
        exact (Int.dvd_neg).mp hdvd
      · rw [hd] at hdvd
        have e : (i + -1) - (i + 2 * (-1)) = 1 := by ring
        rwa [e] at hdvd
    have := Int.le_of_dvd (by decide) h1
    omega

/-- C15: for every legal play of an Ace by the player at the turn pointer `i` in
a room of `n` seated players with direction `d` (1 or -1): after `playCard` the
turn pointer is `(i + 2 d) mod n`, the current suit is the suit of the Ace, and
`skipNext` and `lastPlayedWasSpecial` are both `false`; with `n >= 3` the new
pointer is neither the seat of the actor nor the seat next to it, which is the
one skipped. -/
theorem playCard_ace (r : GameRoom) (playerId : String) (player : Player)
    (cardIndex : Nat) (card : Card) (newSuit newValue : Option String) (r2 : GameRoom)
    (hp : getPlayer r.players playerId = some player)
    (hc : findCard card.id player.hand = some (cardIndex, card))
    (h : playCard r playerId card.id newSuit newValue = .returned true r2)
    (hA : card.value = "A")
    (hdir : r.gameState.direction = 1 ∨ r.gameState.direction = -1) :
    r2.gameState.currentPlayer =
        (r.gameState.currentPlayer + 2 * r.gameState.direction) % (r.players.length : Int) ∧
      r2.gameState.currentSuit = some card.suit ∧
      r2.gameState.skipNext = false ∧
      r2.gameState.lastPlayedWasSpecial = false ∧
      (3 ≤ r.players.length →
        r2.gameState.currentPlayer ≠ r.gameState.currentPlayer ∧
          r2.gameState.currentPlayer ≠
            (r.gameState.currentPlayer + r.gameState.direction) % (r.players.length : Int)) := by
  obtain ⟨b0, b1, gs2, he, hr2⟩ :=
    playCard_true_not_queen r playerId player cardIndex card newSuit newValue r2 hp hc h
      (by rw [hA]; decide)
  rw [applyEffect_ace _ _ _ _ _ hA] at he
  injection he with he
  subst he
  obtain ⟨hptr, hflag⟩ := nextPlayer_two_seats
    { r with
        players := setHand r.players playerId (player.hand.eraseIdx cardIndex)
        gameState :=
          { pushCard r.gameState card with
              skipNext := true, currentSuit := some card.suit, lastPlayedWasSpecial := true } }
    rfl b0 (by simpa [setHand_length] using b1) hdir
  obtain ⟨_, _, _, n4, _, _, _, _, n9, _⟩ := nextPlayer_frame
    { r with
        players := setHand r.players playerId (player.hand.eraseIdx cardIndex)
        gameState :=
          { pushCard r.gameState card with
              skipNext := true, currentSuit := some card.suit, lastPlayedWasSpecial := true } }
  have hptr2 : r2.gameState.currentPlayer =
      (r.gameState.currentPlayer + 2 * r.gameState.direction) % (r.players.length : Int) := by
    rw [hr2, hptr]
    simp [setHand_length, pushCard]
  refine ⟨hptr2, ?_, ?_, ?_, ?_⟩
  · rw [hr2, n9]
  · rw [hr2, n4]
  · rw [hr2, hflag]
  · intro hn
    rw [hptr2]
    exact two_seats_skip_one _ _ _ hdir (by exact_mod_cast hn)

/-- C15, at a concrete input: in `aceRoom` (2 players) the Ace of spades played
by `a` at seat 0 brings the turn pointer to `(0 + 2) mod 2 = 0`, with the skip
consumed and the flag cleared. -/
theorem playCard_ace_witness :
    (playCard aceRoom "a" "spades-A" none none).value? = some true ∧
      (playCard aceRoom "a" "spades-A" none none).room.gameState.currentPlayer = 0 ∧
      ((playCard aceRoom "a" "spades-A" none none).room.gameState.currentPlayer =
          (aceRoom.gameState.currentPlayer + 2 * aceRoom.gameState.direction) %
            (aceRoom.players.length : Int) ∧
        (playCard aceRoom "a" "spades-A" none none).room.gameState.currentSuit =
          some "spades" ∧
        (playCard aceRoom "a" "spades-A" none none).room.gameState.skipNext = false ∧
        (playCard aceRoom "a" "spades-A" none none).room.gameState.lastPlayedWasSpecial =
          false) :=
  ⟨by decide, by decide,
    have hw := playCard_ace aceRoom "a"
      { id := "a", name := "A",
        hand := [{ suit := "spades", value := "A", id := "spades-A" },
                 { suit := "spades", value := "K", id := "spades-K" }, jackOfSpades],
        connected := true }
      0 { suit := "spades", value := "A", id := "spades-A" } none none
      (playCard aceRoom "a" "spades-A" none none).room
      (by decide) (by decide) (by decide) (by decide) (by decide)
    ⟨hw.1, hw.2.1, hw.2.2.1, hw.2.2.2.1⟩⟩

/-- C16: for every legal play of a Ten in a reachable room by the player at the
turn pointer `i`, with direction `d` and `n` seated players: if `n >= 3` the
direction becomes `-d` and the turn pointer `(i - d) mod n`; if `n = 2` the
direction is unchanged and the turn passes to the other seat `1 - i`. In both
cases the current suit becomes the suit of the Ten and `lastPlayedWasSpecial`
is `false`. -/
theorem playCard_ten (r : GameRoom) (playerId : String) (player : Player)
    (cardIndex : Nat) (card : Card) (newSuit newValue : Option String) (r2 : GameRoom)
    (hreach : Reachable r)
    (hp : getPlayer r.players playerId = some player)
    (hc : findCard card.id player.hand = some (cardIndex, card))
    (h : playCard r playerId card.id newSuit newValue = .returned true r2)
    (hT : card.value = "10") :
    (3 ≤ r.players.length →
        r2.gameState.direction = - r.gameState.direction ∧
          r2.gameState.currentPlayer =
            (r.gameState.currentPlayer - r.gameState.direction) % (r.players.length : Int)) ∧
      (r.players.length = 2 →
        r2.gameState.direction = r.gameState.direction ∧
          r2.gameState.currentPlayer = 1 - r.gameState.currentPlayer ∧
          r2.gameState.currentPlayer ≠ r.gameState.currentPlayer) ∧
      r2.gameState.currentSuit = some card.suit ∧
      r2.gameState.lastPlayedWasSpecial = false := by
  obtain ⟨_, _, hskip, hdir⟩ := reachable_fields r hreach
  obtain ⟨b0, b1, gs2, he, hr2⟩ :=
    playCard_true_not_queen r playerId player cardIndex card newSuit newValue r2 hp hc h
      (by rw [hT]; decide)
  by_cases hn : 3 ≤ r.players.length
  · rw [applyEffect_ten_reverse _ _ _ _ _ hT hn] at he
    injection he with he
    subst he
    have hdir2 : r.gameState.direction * (-1) = 1 ∨ r.gameState.direction * (-1) = -1 := by
      rcases hdir with hd | hd <;> rw [hd] <;> decide
    obtain ⟨hptr, hflag⟩ := nextPlayer_one_seat
      { r with
          players := setHand r.players playerId (player.hand.eraseIdx cardIndex)
          gameState :=
            { pushCard r.gameState card with
                direction := (pushCard r.gameState card).direction * (-1)
                currentSuit := some card.suit } }
      hskip b0 (by simpa [setHand_length] using b1) hdir2
    obtain ⟨_, _, n3, _, _, _, _, _, n9, _⟩ := nextPlayer_frame
      { r with
          players := setHand r.players playerId (player.hand.eraseIdx cardIndex)
          gameState :=
            { pushCard r.gameState card with
                direction := (pushCard r.gameState card).direction * (-1)
                currentSuit := some card.suit } }
    refine ⟨fun _ => ⟨?_, ?_⟩, fun h2 => ?_, ?_, ?_⟩
    · rw [hr2, n3]
      show r.gameState.direction * (-1) = - r.gameState.direction
      ring
    · rw [hr2, hptr]
      simp only [setHand_length, pushCard]
      congr 1
      ring
    · omega
    · rw [hr2, n9]
    · rw [hr2, hflag]
      rfl
  · rw [applyEffect_ten_plain _ _ _ _ _ hT (by omega)] at he
    injection he with he
    subst he
    obtain ⟨hptr, hflag⟩ := nextPlayer_one_seat
      { r with
          players := setHand r.players playerId (player.hand.eraseIdx cardIndex)
          gameState := { pushCard r.gameState card with currentSuit := some card.suit } }
      hskip b0 (by simpa [setHand_length] using b1) hdir
    obtain ⟨_, _, n3, _, _, _, _, _, n9, _⟩ := nextPlayer_frame
      { r with
          players := setHand r.players playerId (player.hand.eraseIdx cardIndex)
          gameState := { pushCard r.gameState card with currentSuit := some card.suit } }
    have hptr2 : r2.gameState.currentPlayer =
        (r.gameState.currentPlayer + r.gameState.direction) % (r.players.length : Int) := by
      rw [hr2, hptr]
      simp [setHand_length, pushCard]
    refine ⟨fun h3 => absurd h3 hn, fun h2 => ?_, ?_, ?_⟩
    · have hlen : (r.players.length : Int) = 2 := by exact_mod_cast h2
      rw [hlen] at hptr2 b1
      refine ⟨?_, ?_, ?_⟩
      · rw [hr2, n3]
        rfl
      · rcases hdir with hd | hd <;> rw [hd] at hptr2 <;> omega
      · rcases hdir with hd | hd <;> rw [hd] at hptr2 <;> omega
    · rw [hr2, n9]
    · rw [hr2, hflag]
      rfl

/-- C16, at a concrete input: in the reachable `queenChosenRoom` (2 players) the
Ten of spades played by `b` at seat 1 leaves the direction as it was and passes
the turn to seat 0. -/
theorem playCard_ten_witness :
    (playCard queenChosenRoom "b" "spades-10" none none).value? = some true ∧
      queenChosenRoom.players.length = 2 ∧
      ((playCard queenChosenRoom "b" "spades-10" none none).room.gameState.direction =
          queenChosenRoom.gameState.direction ∧
        (playCard queenChosenRoom "b" "spades-10" none none).room.gameState.currentPlayer =
          1 - queenChosenRoom.gameState.currentPlayer ∧
        (playCard queenChosenRoom "b" "spades-10" none none).room.gameState.currentPlayer ≠
          queenChosenRoom.gameState.currentPlayer) :=
  ⟨by decide, by decide,
    (playCard_ten queenChosenRoom "b"
      { id := "b", name := "B",
        hand := [{ suit := "spades", value := "10", id := "spades-10" },
                 { suit := "spades", value := "9", id := "spades-9" },
                 { suit := "spades", value := "8", id := "spades-8" },
                 { suit := "spades", value := "7", id := "spades-7" }],
        connected := true }
      0 { suit := "spades", value := "10", id := "spades-10" } none none
      (playCard queenChosenRoom "b" "spades-10" none none).room
      queenChosenRoom_reachable (by decide) (by decide) (by decide) (by decide)).2.1
      (by decide)⟩


/-- C17: for every legal play of a Queen with a chosen suit `s` (a non-empty
string): afterwards the current suit is `s`, whatever the suit of the Queen,
`lastPlayedWasSpecial` is `false`, and draw stack and direction are as before. -/
theorem playCard_queen (r : GameRoom) (playerId : String) (player : Player)
    (cardIndex : Nat) (card : Card) (newSuit newValue : Option String) (r2 : GameRoom)
    (hp : getPlayer r.players playerId = some player)
    (hc : findCard card.id player.hand = some (cardIndex, card))
    (h : playCard r playerId card.id newSuit newValue = .returned true r2)
    (hQ : card.value = "Q") (hs : truthy newSuit = true) :
    r2.gameState.currentSuit = newSuit ∧
      r2.gameState.lastPlayedWasSpecial = false ∧
      r2.gameState.drawStack = r.gameState.drawStack ∧
      r2.gameState.direction = r.gameState.direction := by
  obtain ⟨_, gs2, he, hcases⟩ :=
    playCard_true_cases r playerId player cardIndex card newSuit newValue r2 hp hc h
  rw [applyEffect_queen _ _ _ _ _ hQ hs] at he
  injection he with he
  subst he
  rcases hcases with ⟨_, _, _, results, hgs⟩ | ⟨_, hr2⟩
  · rw [hgs]
    exact ⟨rfl, rfl, rfl, rfl⟩
  · obtain ⟨_, n2, n3, _, _, _, _, _, n9, _⟩ := nextPlayer_frame
      { r with
          players := setHand r.players playerId (player.hand.eraseIdx cardIndex)
          gameState :=
            { pushCard r.gameState card with
                currentSuit := newSuit, lastPlayedWasSpecial := false } }
    have hflag := nextPlayer_flag_false
      { r with
          players := setHand r.players playerId (player.hand.eraseIdx cardIndex)
          gameState :=
            { pushCard r.gameState card with
                currentSuit := newSuit, lastPlayedWasSpecial := false } }
      rfl
    rw [hr2]
    refine ⟨?_, hflag, ?_, ?_⟩
    · rw [n9]
    · rw [n2]
      rfl
    · rw [n3]
      rfl

/-- C17, at a concrete input: in `openedRoom` the Queen of spades played by `a`
with the chosen suit hearts makes hearts the current suit. -/
theorem playCard_queen_witness :
    (playCard openedRoom "a" "spades-Q" (some "hearts") none).value? = some true ∧
      ((playCard openedRoom "a" "spades-Q" (some "hearts") none).room.gameState.currentSuit =
          some "hearts" ∧
        (playCard openedRoom "a" "spades-Q" (some "hearts")
          none).room.gameState.lastPlayedWasSpecial = false ∧
        (playCard openedRoom "a" "spades-Q" (some "hearts") none).room.gameState.drawStack =
          openedRoom.gameState.drawStack ∧
        (playCard openedRoom "a" "spades-Q" (some "hearts") none).room.gameState.direction =
          openedRoom.gameState.direction) :=
  ⟨by decide,
    playCard_queen openedRoom "a"
      { id := "a", name := "A",
        hand := [{ suit := "spades", value := "A", id := "spades-A" },
                 { suit := "spades", value := "K", id := "spades-K" },
                 { suit := "spades", value := "Q", id := "spades-Q" }, jackOfSpades],
        connected := true }
      2 { suit := "spades", value := "Q", id := "spades-Q" } (some "hearts") none
      (playCard openedRoom "a" "spades-Q" (some "hearts") none).room
      (by decide) (by decide) (by decide) (by decide) (by decide)⟩

/-- C18: after every call of `playCard` that returns `true` for a card that is
not a Jack, `currentValue` is unset; after every such call for a Jack made while
`currentValue` is set, `currentValue` is still set. -/
theorem playCard_currentValue (r : GameRoom) (playerId : String) (player : Player)
    (cardIndex : Nat) (card : Card) (newSuit newValue : Option String) (r2 : GameRoom)
    (hp : getPlayer r.players playerId = some player)
    (hc : findCard card.id player.hand = some (cardIndex, card))
    (h : playCard r playerId card.id newSuit newValue = .returned true r2) :
    (card.value ≠ "J" → r2.gameState.currentValue = none) ∧
      (card.value = "J" → truthy r.gameState.currentValue = true →
        truthy r2.gameState.currentValue = true) := by
  obtain ⟨_, gs2, he, hcases⟩ :=
    playCard_true_cases r playerId player cardIndex card newSuit newValue r2 hp hc h
  obtain ⟨hcv1, hcv2⟩ := applyEffect_currentValue _ _ _ _ _ _ he
  have hr2 : r2.gameState.currentValue = gs2.currentValue := by
    rcases hcases with ⟨_, _, _, results, hgs⟩ | ⟨_, hr2⟩
    · rw [hgs]
    · rw [hr2]
      exact (nextPlayer_frame _).2.2.2.2.2.2.2.2.2
  constructor
  · intro hJ
    rw [hr2, hcv1 hJ]
    simp [pushCard, hJ]
  · intro hJ hset
    rw [hr2]
    rcases hcv2 hJ with hsame | ⟨hnew, ht⟩
    · rw [hsame]
      simpa [pushCard, hJ] using hset
    · rw [hnew]
      exact ht

/-- C18, at a concrete input: in `openedRoom` the King of spades played by `a`
leaves `currentValue` unset. -/
theorem playCard_currentValue_witness :
    (playCard openedRoom "a" "spades-K" none none).value? = some true ∧
      kingRoom.gameState.currentValue = none :=
  ⟨by decide,
    (playCard_currentValue openedRoom "a"
      { id := "a", name := "A",
        hand := [{ suit := "spades", value := "A", id := "spades-A" },
                 { suit := "spades", value := "K", id := "spades-K" },
                 { suit := "spades", value := "Q", id := "spades-Q" }, jackOfSpades],
        connected := true }
      1 { suit := "spades", value := "K", id := "spades-K" } none none kingRoom
      (by decide) (by decide) (by decide)).1 (by decide)⟩


/-! ## Drawing -/

theorem popInto_append (n : Nat) (hand init : List Card) (c : Card) :
    popInto (n + 1) hand (init ++ [c]) = popInto n (hand ++ [c]) init := by
  simp [popInto]

/-- The drawing loop on a deck that holds enough cards: the last `n` cards of
the deck go to the end of the hand, the top card first. -/
theorem popInto_eq (n : Nat) (hand deck : List Card) (hn : n ≤ deck.length) :
    popInto n hand deck = (hand ++ deck.reverse.take n, deck.take (deck.length - n)) := by
  induction n generalizing hand deck with
  | zero => simp [popInto]
  | succ n ih =>
    rcases List.eq_nil_or_concat deck with hnil | ⟨init, c, hconcat⟩
    · subst hnil
      exact absurd hn (by simp)
    · rw [List.concat_eq_append] at hconcat
      subst hconcat
      have hlen : n ≤ init.length := by
        simp only [List.length_append, List.length_singleton] at hn
        omega
      have hle : init.length - n ≤ init.length := Nat.sub_le _ _
      rw [popInto_append, ih (hand ++ [c]) init hlen]
      simp only [List.reverse_append, List.reverse_singleton, List.singleton_append,
        List.take_succ_cons, List.append_assoc, List.length_append, List.length_singleton,
        Nat.add_sub_add_right]
      rw [List.take_append_of_le_length hle]

theorem getElem?_setHand_other (ps : List Player) (playerId : String) (hand : List Card)
    (i : Nat) (q : Player) (hq : ps[i]? = some q) (hne : q.id ≠ playerId) :
    (setHand ps playerId hand)[i]? = some q := by
  simp [setHand, hq, hne]

/-- C19: if `p` is the player at the turn pointer, `skipNext` is false, the
direction is 1 or -1 and the deck holds at least `k` cards, where `k` is the
draw stack if it is positive and 1 otherwise, then `drawCard(p)` returns `true`;
the last `k` cards of the deck are appended to the hand of `p`, the top card
first (the hand grows by `k`, the deck shrinks by `k`), the draw stack becomes
0, the turn pointer moves one seat in the direction of play, and the discard
pile, current suit, current value, direction, `lastPlayedWasSpecial` and every
other player are unchanged. -/
theorem drawCard_succeeds (r : GameRoom) (playerId : String) (player : Player) (k : Nat)
    (hp : getPlayer r.players playerId = some player)
    (hcur : idAt (playerIds r) r.gameState.currentPlayer = some playerId)
    (hskip : r.gameState.skipNext = false)
    (hdir : r.gameState.direction = 1 ∨ r.gameState.direction = -1)
    (hk : k = if r.gameState.drawStack > 0 then r.gameState.drawStack else 1)
    (hdeck : k ≤ r.gameState.deck.length) :
    (drawCard r playerId).1 = true ∧
      (getPlayer (drawCard r playerId).2.players playerId).map (fun p => p.hand) =
        some (player.hand ++ r.gameState.deck.reverse.take k) ∧
      (player.hand ++ r.gameState.deck.reverse.take k).length = player.hand.length + k ∧
      (drawCard r playerId).2.gameState.deck =
        r.gameState.deck.take (r.gameState.deck.length - k) ∧
      (drawCard r playerId).2.gameState.deck.length + k = r.gameState.deck.length ∧
      (drawCard r playerId).2.gameState.deck ++ (r.gameState.deck.reverse.take k).reverse =
        r.gameState.deck ∧
      (drawCard r playerId).2.gameState.drawStack = 0 ∧
      (drawCard r playerId).2.gameState.currentPlayer =
        (r.gameState.currentPlayer + r.gameState.direction) % (r.players.length : Int) ∧
      (drawCard r playerId).2.gameState.playedCards = r.gameState.playedCards ∧
      (drawCard r playerId).2.gameState.currentSuit = r.gameState.currentSuit ∧
      (drawCard r playerId).2.gameState.currentValue = r.gameState.currentValue ∧
      (drawCard r playerId).2.gameState.direction = r.gameState.direction ∧
      (drawCard r playerId).2.gameState.lastPlayedWasSpecial =
        r.gameState.lastPlayedWasSpecial ∧
      (∀ (i : Nat) (q : Player), r.players[i]? = some q → q.id ≠ playerId →
        (drawCard r playerId).2.players[i]? = some q) := by
  obtain ⟨b0, b1⟩ := idAt_bounds r playerId hcur
  have hpop : (if r.gameState.drawStack > 0 then
        popInto r.gameState.drawStack player.hand r.gameState.deck
      else popInto 1 player.hand r.gameState.deck) =
      (player.hand ++ r.gameState.deck.reverse.take k,
        r.gameState.deck.take (r.gameState.deck.length - k)) := by
    by_cases hds : r.gameState.drawStack > 0
    · rw [if_pos hds] at hk
      rw [if_pos hds, ← hk]
      exact popInto_eq k _ _ hdeck
    · rw [if_neg hds] at hk
      rw [if_neg hds, ← hk]
      exact popInto_eq k _ _ hdeck
  have hnot : ¬ r.gameState.deck.length <
      (if r.gameState.drawStack > 0 then r.gameState.drawStack else 1) := by
    rw [← hk]
    omega
  have hdraw : drawCard r playerId =
      (true, nextPlayer
        { r with
            players := setHand r.players playerId
              (player.hand ++ r.gameState.deck.reverse.take k)
            gameState :=
              { r.gameState with
                  deck := r.gameState.deck.take (r.gameState.deck.length - k)
                  drawStack := 0 } }) := by
    unfold drawCard
    simp only [hp]
    rw [if_neg (not_not.mpr hcur), if_neg hnot, hpop]
  obtain ⟨hptr, hflag⟩ := nextPlayer_one_seat
    { r with
        players := setHand r.players playerId (player.hand ++ r.gameState.deck.reverse.take k)
        gameState :=
          { r.gameState with
              deck := r.gameState.deck.take (r.gameState.deck.length - k)
              drawStack := 0 } }
    hskip b0 (by simpa [setHand_length] using b1) hdir
  obtain ⟨_, n2, n3, _, _, _, n7, n8, n9, n10⟩ := nextPlayer_frame
    { r with
        players := setHand r.players playerId (player.hand ++ r.gameState.deck.reverse.take k)
        gameState :=
          { r.gameState with
              deck := r.gameState.deck.take (r.gameState.deck.length - k)
              drawStack := 0 } }
  have htake : (r.gameState.deck.reverse.take k).length = k := by
    rw [List.length_take, List.length_reverse]
    omega
  rw [hdraw]
  refine ⟨rfl, ?_, ?_, ?_, ?_, ?_, ?_, ?_, ?_, ?_, ?_, ?_, ?_, ?_⟩
  · show Option.map (fun p => p.hand) (getPlayer (setHand r.players playerId _) playerId) = _
    rw [getPlayer_setHand r.players playerId _ player hp]
    rfl
  · rw [List.length_append, htake]
  · exact n8
  · rw [n8]
    show (r.gameState.deck.take (r.gameState.deck.length - k)).length + k = _
    rw [List.length_take]
    omega
  · rw [n8]
    show r.gameState.deck.take (r.gameState.deck.length - k) ++ _ = _
    rw [List.reverse_take]
    simp
  · exact n2
  · rw [hptr]
    simp [setHand_length]
  · exact n7
  · exact n9
  · exact n10
  · exact n3
  · exact hflag
  · intro i q hq hne
    exact getElem?_setHand_other r.players playerId _ i q hq hne


/-- C19, at a concrete input: in `kingRoom` the player `b` at the turn pointer
faces a draw stack of 5 and the deck holds 22 cards; `drawCard` succeeds, the
hand of `b` grows from 4 to 9 cards, the draw stack becomes 0 and the turn
passes back to seat 0. -/
theorem drawCard_succeeds_witness :
    kingRoom.gameState.drawStack = 5 ∧ kingRoom.gameState.deck.length = 22 ∧
      (drawCard kingRoom "b").1 = true ∧
      (drawCard kingRoom "b").2.gameState.deck.length + 5 = kingRoom.gameState.deck.length ∧
      (drawCard kingRoom "b").2.gameState.drawStack = 0 ∧
      (drawCard kingRoom "b").2.gameState.currentPlayer = 0 ∧
      ((getPlayer (drawCard kingRoom "b").2.players "b").map (fun p => p.hand.length)) =
        some 9 :=
  have hw := drawCard_succeeds kingRoom "b"
    { id := "b", name := "B",
      hand := [{ suit := "spades", value := "10", id := "spades-10" },
               { suit := "spades", value := "9", id := "spades-9" },
               { suit := "spades", value := "8", id := "spades-8" },
               { suit := "spades", value := "7", id := "spades-7" }],
      connected := true }
    5 (by decide) (by decide) (by decide) (by decide) (by decide) (by decide)
  ⟨by decide, by decide, hw.1, hw.2.2.2.2.1, hw.2.2.2.2.2.2.1, by decide, by decide⟩

/-- C20: `drawCard(p)` returns `false` if and only if `p` is not seated, or `p`
is not the player at the turn pointer, or the deck holds fewer cards than
required (the draw stack if it is positive, else 1); and when it returns
`false` the room is unchanged. -/
theorem drawCard_rejected_iff (r : GameRoom) (playerId : String) :
    ((drawCard r playerId).1 = false ↔
        (getPlayer r.players playerId = none ∨
          idAt (playerIds r) r.gameState.currentPlayer ≠ some playerId ∨
          r.gameState.deck.length <
            (if r.gameState.drawStack > 0 then r.gameState.drawStack else 1))) ∧
      ((drawCard r playerId).1 = false → (drawCard r playerId).2 = r) := by
  unfold drawCard
  cases hp : getPlayer r.players playerId with
  | none => simp
  | some player =>
    simp only []
    by_cases h1 : idAt (playerIds r) r.gameState.currentPlayer ≠ some playerId
    · rw [if_pos h1]
      simp [h1]
    · rw [if_neg h1]
      by_cases h2 : r.gameState.deck.length <
          (if r.gameState.drawStack > 0 then r.gameState.drawStack else 1)
      · rw [if_pos h2]
        simp [h2]
      · rw [if_neg h2]
        simp [h1, h2]

/-- C20, at a concrete input: in `kingRoom` the player `a` is not at the turn
pointer, `drawCard` by `a` returns `false` and the room is unchanged; and a
player who is not seated is rejected as well. -/
theorem drawCard_rejected_iff_witness :
    idAt (playerIds kingRoom) kingRoom.gameState.currentPlayer ≠ some "a" ∧
      (drawCard kingRoom "a").1 = false ∧ (drawCard kingRoom "a").2 = kingRoom ∧
      (drawCard kingRoom "c").1 = false :=
  ⟨by decide,
    (drawCard_rejected_iff kingRoom "a").1.2 (Or.inr (Or.inl (by decide))),
    (drawCard_rejected_iff kingRoom "a").2
      ((drawCard_rejected_iff kingRoom "a").1.2 (Or.inr (Or.inl (by decide)))),
    (drawCard_rejected_iff kingRoom "c").1.2 (Or.inl (by decide))⟩


/-! ## Recycling the discard pile -/

/-- C21: `reshuffleDiscardPile` on a discard pile `rest ++ [top]` with `rest`
non-empty returns `true`, the deck becomes `deck ++ reverse rest` and the pile
`[top]` (so the deck has `|deck| + |pile| - 1` cards, the pile one card, and the
top card is the same); on a pile of at most one card it returns `false` and the
room is unchanged. In both cases players and hands, turn pointer, current suit,
current value, draw stack, direction and flags are unchanged. -/
theorem reshuffleDiscardPile_spec (r : GameRoom) :
    (∀ (rest : List Card) (top : Card), r.gameState.playedCards = rest ++ [top] → rest ≠ [] →
        (reshuffleDiscardPile r).1 = true ∧
          (reshuffleDiscardPile r).2.gameState.deck = r.gameState.deck ++ rest.reverse ∧
          (reshuffleDiscardPile r).2.gameState.playedCards = [top] ∧
          (reshuffleDiscardPile r).2.gameState.deck.length =
            r.gameState.deck.length + r.gameState.playedCards.length - 1 ∧
          (reshuffleDiscardPile r).2.gameState.playedCards.length = 1 ∧
          (reshuffleDiscardPile r).2.gameState.playedCards.getLast? =
            r.gameState.playedCards.getLast?) ∧
      (r.gameState.playedCards.length ≤ 1 → reshuffleDiscardPile r = (false, r)) ∧
      ((reshuffleDiscardPile r).2.players = r.players ∧
        (reshuffleDiscardPile r).2.gameState.currentPlayer = r.gameState.currentPlayer ∧
        (reshuffleDiscardPile r).2.gameState.currentSuit = r.gameState.currentSuit ∧
        (reshuffleDiscardPile r).2.gameState.currentValue = r.gameState.currentValue ∧
        (reshuffleDiscardPile r).2.gameState.drawStack = r.gameState.drawStack ∧
        (reshuffleDiscardPile r).2.gameState.direction = r.gameState.direction ∧
        (reshuffleDiscardPile r).2.gameState.skipNext = r.gameState.skipNext ∧
        (reshuffleDiscardPile r).2.gameState.lastPlayedWasSpecial =
          r.gameState.lastPlayedWasSpecial ∧
        (reshuffleDiscardPile r).2.gameState.started = r.gameState.started) := by
  refine ⟨?_, ?_, ?_⟩
  · intro rest top hpile hrest
    have hlen : r.gameState.playedCards.length > 1 := by
      rw [hpile, List.length_append, List.length_singleton]
      have : 0 < rest.length := List.length_pos.mpr hrest
      omega
    have hlast : r.gameState.playedCards.getLast (List.ne_nil_of_length_pos (by omega)) = top := by
      simp [hpile]
    have hdrop : r.gameState.playedCards.dropLast = rest := by
      rw [hpile, List.dropLast_concat]
    unfold reshuffleDiscardPile
    rw [dif_pos hlen]
    simp only [hlast, hdrop]
    refine ⟨trivial, trivial, trivial, ?_, ?_, ?_⟩
    · rw [hpile]
      simp only [List.length_append, List.length_reverse, List.length_singleton]
      omega
    · rfl
    · rw [hpile]
      simp
  · intro hle
    unfold reshuffleDiscardPile
    rw [dif_neg (by omega)]
  · unfold reshuffleDiscardPile
    by_cases hlen : r.gameState.playedCards.length > 1
    · rw [dif_pos hlen]
      exact ⟨rfl, rfl, rfl, rfl, rfl, rfl, rfl, rfl, rfl⟩
    · rw [dif_neg hlen]
      exact ⟨rfl, rfl, rfl, rfl, rfl, rfl, rfl, rfl, rfl⟩

/-- C21, at a concrete input: in `kingRoom` the pile is the King of clubs under
the King of spades; recycling it puts the King of clubs at the end of the deck
and leaves the King of spades as the pile. -/
theorem reshuffleDiscardPile_spec_witness :
    kingRoom.gameState.playedCards =
        [{ suit := "clubs", value := "K", id := "clubs-K" }] ++
          [{ suit := "spades", value := "K", id := "spades-K" }] ∧
      (reshuffleDiscardPile kingRoom).1 = true ∧
      (reshuffleDiscardPile kingRoom).2.gameState.deck =
        kingRoom.gameState.deck ++
          [{ suit := "clubs", value := "K", id := "clubs-K" }].reverse ∧
      (reshuffleDiscardPile kingRoom).2.gameState.playedCards =
        [{ suit := "spades", value := "K", id := "spades-K" }] ∧
      reshuffleDiscardPile openedRoom = (false, openedRoom) :=
  have hw := (reshuffleDiscardPile_spec kingRoom).1
    [{ suit := "clubs", value := "K", id := "clubs-K" }]
    { suit := "spades", value := "K", id := "spades-K" } (by decide) (by decide)
  ⟨by decide, hw.1, hw.2.1, hw.2.2.1, (reshuffleDiscardPile_spec openedRoom).2.1 (by decide)⟩

/-! ## Round start -/

theorem startGame_eq (r : GameRoom) (initiatorId : String) (deck : List Card) (rnd : Nat)
    (hn : 2 ≤ r.players.length) :
    startGame r initiatorId deck rnd =
      match (dealLoop r (playerIds r) r.players deck).2.2 with
      | some eliminatedPlayer =>
        match calculateEliminationResults
            { dealtRoom r initiatorId deck rnd with
                gameState :=
                  { (dealtRoom r initiatorId deck rnd).gameState with
                      winner := some eliminatedPlayer, started := false } }
            eliminatedPlayer with
        | .error r3 => .threw r3
        | .ok (r3, results) =>
          .returned true { r3 with gameState := { r3.gameState with gameResults := some results } }
      | none =>
        match popFirstCard (dealtRoom r initiatorId deck rnd).gameState.deck.reverse with
        | none =>
          .threw
            { dealtRoom r initiatorId deck rnd with
                gameState := { (dealtRoom r initiatorId deck rnd).gameState with deck := [] } }
        | some (firstCard, below) =>
          .returned true
            { dealtRoom r initiatorId deck rnd with
                gameState :=
                  { (dealtRoom r initiatorId deck rnd).gameState with
                      deck := below.reverse
                      playedCards := [firstCard]
                      currentSuit := some firstCard.suit
                      started := true } } := by
  unfold startGame
  rw [if_neg (by omega)]
  rfl

theorem popFirstCard_neutral (cards : List Card) (firstCard : Card) (below : List Card)
    (h : popFirstCard cards = some (firstCard, below)) : notNeutral firstCard = false := by
  induction cards with
  | nil => simp [popFirstCard] at h
  | cons c cs ih =>
    unfold popFirstCard at h
    by_cases hc : notNeutral c = true
    · rw [if_pos hc] at h
      exact ih h
    · rw [if_neg hc] at h
      injection h with h
      injection h with h1 h2
      subst h1
      simpa using hc

/-- A call of `startGame` that returns `true` with the round started went
through the dealing loop without elimination and found a first card. -/
theorem startGame_started (r : GameRoom) (initiatorId : String) (deck : List Card) (rnd : Nat)
    (r2 : GameRoom)
    (h : startGame r initiatorId deck rnd = .returned true r2)
    (hs : r2.gameState.started = true) :
    2 ≤ r.players.length ∧
      (dealLoop r (playerIds r) r.players deck).2.2 = none ∧
      ∃ firstCard below,
        popFirstCard (dealLoop r (playerIds r) r.players deck).2.1.reverse =
          some (firstCard, below) ∧
        r2 =
          { dealtRoom r initiatorId deck rnd with
              gameState :=
                { (dealtRoom r initiatorId deck rnd).gameState with
                    deck := below.reverse
                    playedCards := [firstCard]
                    currentSuit := some firstCard.suit
                    started := true } } := by
  have hn : 2 ≤ r.players.length := by
    by_contra hlt
    unfold startGame at h
    rw [if_pos (by omega)] at h
    injection h with hb
    exact absurd hb (by decide)
  refine ⟨hn, ?_⟩
  rw [startGame_eq r initiatorId deck rnd hn] at h
  cases he : (dealLoop r (playerIds r) r.players deck).2.2 with
  | some e =>
    rw [he] at h
    dsimp only at h
    cases hres : calculateEliminationResults
        { dealtRoom r initiatorId deck rnd with
            gameState :=
              { (dealtRoom r initiatorId deck rnd).gameState with
                  winner := some e, started := false } } e with
    | error r3 =>
      rw [hres] at h
      cases h
    | ok pr =>
      obtain ⟨r3, results⟩ := pr
      rw [hres] at h
      have hgs := ((calculateEliminationResults_frame _ e).1 r3 results hres).1
      injection h with _ h
      rw [← h] at hs
      dsimp only at hs
      rw [hgs] at hs
      exact absurd hs (by simp)
  | none =>
    refine ⟨rfl, ?_⟩
    rw [he] at h
    dsimp only at h
    cases hpop : popFirstCard (dealtRoom r initiatorId deck rnd).gameState.deck.reverse with
    | none =>
      rw [hpop] at h
      cases h
    | some pr =>
      obtain ⟨firstCard, below⟩ := pr
      rw [hpop] at h
      injection h with _ h
      exact ⟨firstCard, below, hpop, h.symm⟩

/-- C30: after every call of `startGame` that returns `true` with
`started = true`, the discard pile holds exactly one card, that card is neutral
(not an Ace, Seven, Queen, Jack or the King of spades), the current suit is the
suit of that card, and `direction = 1`, `drawStack = 0`, `currentValue` is
unset, `skipNext` and `lastPlayedWasSpecial` are `false` and `winner` is unset. -/
theorem startGame_first_discard (r : GameRoom) (initiatorId : String) (deck : List Card)
    (rnd : Nat) (r2 : GameRoom)
    (h : startGame r initiatorId deck rnd = .returned true r2)
    (hs : r2.gameState.started = true) :
    ∃ firstCard, r2.gameState.playedCards = [firstCard] ∧
      firstCard.value ≠ "A" ∧ firstCard.value ≠ "7" ∧ firstCard.value ≠ "Q" ∧
      firstCard.value ≠ "J" ∧ ¬ (firstCard.value = "K" ∧ firstCard.suit = "spades") ∧
      r2.gameState.currentSuit = some firstCard.suit ∧
      r2.gameState.direction = 1 ∧ r2.gameState.drawStack = 0 ∧
      r2.gameState.currentValue = none ∧ r2.gameState.skipNext = false ∧
      r2.gameState.lastPlayedWasSpecial = false ∧ r2.gameState.winner = none := by
  obtain ⟨_, _, firstCard, below, hpop, hr2⟩ := startGame_started r initiatorId deck rnd r2 h hs
  have hneutral := popFirstCard_neutral _ _ _ hpop
  simp only [notNeutral, decide_eq_false_iff_not, not_or] at hneutral
  subst hr2
  exact ⟨firstCard, rfl, hneutral.1, hneutral.2.1, hneutral.2.2.1, hneutral.2.2.2.1,
    hneutral.2.2.2.2, rfl, rfl, rfl, rfl, rfl, rfl, rfl⟩


/-- C30, at a concrete input: the first round of `lobby` on `unshuffledDeck`
opens with the King of clubs alone on the pile. -/
theorem startGame_first_discard_witness :
    startGame lobby "a" unshuffledDeck 0 = .returned true openedRoom ∧
      ∃ firstCard, openedRoom.gameState.playedCards = [firstCard] ∧
        firstCard.value ≠ "A" ∧ firstCard.value ≠ "7" ∧ firstCard.value ≠ "Q" ∧
        firstCard.value ≠ "J" ∧ ¬ (firstCard.value = "K" ∧ firstCard.suit = "spades") ∧
        openedRoom.gameState.currentSuit = some firstCard.suit ∧
        openedRoom.gameState.direction = 1 ∧ openedRoom.gameState.drawStack = 0 ∧
        openedRoom.gameState.currentValue = none ∧ openedRoom.gameState.skipNext = false ∧
        openedRoom.gameState.lastPlayedWasSpecial = false ∧
        openedRoom.gameState.winner = none :=
  ⟨by decide,
    startGame_first_discard lobby "a" unshuffledDeck 0 openedRoom (by decide) (by decide)⟩

/-! ## The starting player -/

theorem playerIds_setHand (ps : List Player) (playerId : String) (hand : List Card) :
    (setHand ps playerId hand).map (fun p => p.id) = ps.map (fun p => p.id) := by
  induction ps with
  | nil => rfl
  | cons q qs ih =>
    simp only [setHand, List.map_cons, List.map_map] at ih ⊢
    by_cases hq : q.id = playerId
    · simp [hq, ih]
    · simp [hq, ih]

theorem dealLoop_ids (r : GameRoom) (ids : List String) (players : List Player)
    (deck : List Card) :
    (dealLoop r ids players deck).1.map (fun p => p.id) = players.map (fun p => p.id) := by
  induction ids generalizing players deck with
  | nil => rfl
  | cons playerId rest ih =>
    unfold dealLoop
    by_cases h0 : cardsToGet r playerId = 0
    · rw [if_pos h0]
      exact playerIds_setHand players playerId []
    · rw [if_neg h0]
      dsimp only
      rw [ih]
      exact playerIds_setHand players playerId _

theorem calculateEliminationResults_room (r : GameRoom) (eliminatedPlayerId : String) :
    (∀ r1 results, calculateEliminationResults r eliminatedPlayerId = .ok (r1, results) →
        r1 = { r with previousLosers := [] }) ∧
      (∀ r1, calculateEliminationResults r eliminatedPlayerId = .error r1 →
        r1 = { r with previousLosers := [] }) := by
  unfold calculateEliminationResults
  constructor
  · intro r1 results h
    dsimp only at h
    split at h
    · injection h with h
      injection h with h1 h2
      exact h1.symm
    · cases h
  · intro r1 h
    dsimp only at h
    split at h
    · cases h
    · injection h with h
      exact h.symm

/-- The room in which any call of `startGame` with at least two seated players
leaves the fields that the dealing loop has set. -/
theorem startGame_room (r : GameRoom) (initiatorId : String) (deck : List Card) (rnd : Nat)
    (hn : 2 ≤ r.players.length) :
    (startGame r initiatorId deck rnd).room.players = (dealtRoom r initiatorId deck rnd).players ∧
      (startGame r initiatorId deck rnd).room.gameStarter =
        (dealtRoom r initiatorId deck rnd).gameStarter ∧
      (startGame r initiatorId deck rnd).room.gameState.currentPlayer =
        startSeat r initiatorId rnd ∧
      (startGame r initiatorId deck rnd).room.gameHistory = r.gameHistory := by
  rw [startGame_eq r initiatorId deck rnd hn]
  cases he : (dealLoop r (playerIds r) r.players deck).2.2 with
  | some e =>
    dsimp only
    cases hres : calculateEliminationResults
        { dealtRoom r initiatorId deck rnd with
            gameState :=
              { (dealtRoom r initiatorId deck rnd).gameState with
                  winner := some e, started := false } } e with
    | error r3 =>
      have hr3 := (calculateEliminationResults_room _ e).2 r3 hres
      subst hr3
      exact ⟨rfl, rfl, rfl, rfl⟩
    | ok pr =>
      obtain ⟨r3, results⟩ := pr
      have hr3 := (calculateEliminationResults_room _ e).1 r3 results hres
      subst hr3
      exact ⟨rfl, rfl, rfl, rfl⟩
  | none =>
    dsimp only
    cases hpop : popFirstCard (dealtRoom r initiatorId deck rnd).gameState.deck.reverse with
    | none => exact ⟨rfl, rfl, rfl, rfl⟩
    | some pr => exact ⟨rfl, rfl, rfl, rfl⟩

theorem idAt_indexOf (ids : List String) (f : String) (h : f ∈ ids) :
    idAt ids ((ids.indexOf f : Nat) : Int) = some f := by
  unfold idAt
  rw [if_pos (Int.ofNat_nonneg _)]
  simp only [Int.toNat_ofNat]
  have hlt : ids.indexOf f < ids.length := List.indexOf_lt_length.mpr h
  rw [List.getElem?_eq_getElem hlt]
  simp

theorem getPlayer_isSome_iff (ps : List Player) (playerId : String) :
    (getPlayer ps playerId).isSome = true ↔ playerId ∈ ps.map (fun p => p.id) := by
  unfold getPlayer
  rw [List.find?_isSome]
  simp


theorem calculateGameResults_room (r : GameRoom) (winnerId : String) :
    (∀ r1 results, calculateGameResults r winnerId = .ok (r1, results) →
        r1 = { r with gameHistory := r1.gameHistory, previousLosers := r1.previousLosers }) ∧
      (∀ r1, calculateGameResults r winnerId = .error r1 →
        r1 = { r with gameHistory := r1.gameHistory, previousLosers := r1.previousLosers }) := by
  unfold calculateGameResults
  constructor
  · intro r1 results h
    cases hw : getPlayer r.players winnerId with
    | none => simp [hw] at h
    | some w =>
      simp only [hw] at h
      injection h with h
      injection h with h1 h2
      subst h1
      rfl
  · intro r1 h
    cases hw : getPlayer r.players winnerId with
    | none =>
      simp only [hw] at h
      injection h with h
      subst h
      rfl
    | some w => simp [hw] at h

theorem playCard_gameStarter (r : GameRoom) (playerId cardId : String)
    (newSuit newValue : Option String) :
    (playCard r playerId cardId newSuit newValue).room.gameStarter = r.gameStarter := by
  unfold playCard
  cases hp : getPlayer r.players playerId with
  | none => rfl
  | some player =>
    simp only []
    cases hc : findCard cardId player.hand with
    | none => rfl
    | some found =>
      obtain ⟨cardIndex, card⟩ := found
      simp only []
      cases htop : r.gameState.playedCards.getLast? with
      | none => rfl
      | some top =>
        simp only []
        cases hlegal : canPlayCard r playerId card with
        | none => rfl
        | some b =>
          cases b with
          | false => rfl
          | true =>
            simp only []
            split
            · rfl
            · split
              · split
                · rename_i r4 hres
                  rw [(calculateGameResults_room _ playerId).2 r4 hres]
                  rfl
                · rename_i r4 results hres
                  simp only [Outcome.room]
                  rw [(calculateGameResults_room _ playerId).1 r4 results hres]
              · rfl

/-- Once a starter is remembered, no call changes it. -/
theorem step_gameStarter (r : GameRoom) (op : Op) (h : truthy r.gameStarter = true) :
    (step r op).gameStarter = r.gameStarter := by
  cases op with
  | addPlayer playerId playerName =>
    simp only [step, addPlayer]
    split_ifs <;> rfl
  | removePlayer playerId => rfl
  | startGame initiatorId deck rnd =>
    simp only [step]
    by_cases hn : 2 ≤ r.players.length
    · rw [(startGame_room r initiatorId deck rnd hn).2.1]
      have hne : ¬ truthy r.gameStarter = false := by rw [h]; decide
      simp only [dealtRoom, if_neg hne]
    · unfold startGame
      rw [if_pos (by omega)]
      rfl
  | playCard playerId cardId newSuit newValue =>
    exact playCard_gameStarter r playerId cardId newSuit newValue
  | drawCard playerId =>
    simp only [step]
    rcases drawCard_gameState r playerId with h | ⟨players, deck, _, h⟩
    · rw [h]
    · rw [h]
      rfl
  | reshuffleDiscardPile =>
    simp only [step, reshuffleDiscardPile]
    split_ifs <;> rfl

/-- C29: for every call of `startGame` with at least two seated players, every
deck and every outcome `rnd` of the random choice, the seats are as before and
the turn pointer is set as follows. When no starter is remembered yet (first
round), the initiator is remembered as `gameStarter` and, being seated, is the
player at the turn pointer. When a starter is remembered it is kept, and if some
player of `previousLosers` is still seated the player at the turn pointer is
such a still-seated loser; if none is, the turn pointer is seat 0. And no call
of any operation changes a remembered starter. -/
theorem startGame_starting_player (r : GameRoom) (initiatorId : String) (deck : List Card)
    (rnd : Nat) (hn : 2 ≤ r.players.length) :
    playerIds (startGame r initiatorId deck rnd).room = playerIds r ∧
      (truthy r.gameStarter = false →
        (startGame r initiatorId deck rnd).room.gameStarter = some initiatorId ∧
          (initiatorId ∈ playerIds r →
            idAt (playerIds (startGame r initiatorId deck rnd).room)
              (startGame r initiatorId deck rnd).room.gameState.currentPlayer =
                some initiatorId)) ∧
      (truthy r.gameStarter = true →
        (startGame r initiatorId deck rnd).room.gameStarter = r.gameStarter ∧
          ((∃ l ∈ r.previousLosers, l ∈ playerIds r) →
            ∃ l ∈ r.previousLosers, l ∈ playerIds r ∧
              idAt (playerIds (startGame r initiatorId deck rnd).room)
                (startGame r initiatorId deck rnd).room.gameState.currentPlayer = some l) ∧
          ((∀ l ∈ r.previousLosers, l ∉ playerIds r) →
            (startGame r initiatorId deck rnd).room.gameState.currentPlayer = 0)) ∧
      (∀ (r3 : GameRoom) (op : Op), truthy r3.gameStarter = true →
        (step r3 op).gameStarter = r3.gameStarter) := by
  obtain ⟨hpl, hst, hcur, _⟩ := startGame_room r initiatorId deck rnd hn
  have hids : playerIds (startGame r initiatorId deck rnd).room = playerIds r := by
    unfold playerIds
    rw [hpl]
    exact dealLoop_ids r (playerIds r) r.players deck
  refine ⟨hids, ?_, ?_, step_gameStarter⟩
  · intro hf
    refine ⟨?_, ?_⟩
    · rw [hst]
      simp only [dealtRoom, if_pos hf]
    · intro hseated
      rw [hids, hcur]
      unfold startSeat
      simp only [if_pos hf, if_pos hseated]
      exact idAt_indexOf _ _ hseated
  · intro ht
    have hne : ¬ truthy r.gameStarter = false := by rw [ht]; decide
    refine ⟨?_, ?_, ?_⟩
    · rw [hst]
      simp only [dealtRoom, if_neg hne]
    · rintro ⟨l, hl, hlseated⟩
      have hvalid : l ∈ r.previousLosers.filter
          (fun loserId => (getPlayer r.players loserId).isSome) := by
        rw [List.mem_filter]
        exact ⟨hl, (getPlayer_isSome_iff r.players l).mpr hlseated⟩
      have hpos : 0 < (r.previousLosers.filter
          (fun loserId => (getPlayer r.players loserId).isSome)).length :=
        List.length_pos_of_mem hvalid
      have hlen : r.previousLosers.length > 0 := List.length_pos_of_mem hl
      have hlt : rnd % (r.previousLosers.filter
          (fun loserId => (getPlayer r.players loserId).isSome)).length <
          (r.previousLosers.filter
            (fun loserId => (getPlayer r.players loserId).isSome)).length :=
        Nat.mod_lt _ hpos
      have hget : (r.previousLosers.filter
          (fun loserId => (getPlayer r.players loserId).isSome))[rnd %
            (r.previousLosers.filter
              (fun loserId => (getPlayer r.players loserId).isSome)).length]? =
          some ((r.previousLosers.filter
            (fun loserId => (getPlayer r.players loserId).isSome))[rnd %
              (r.previousLosers.filter
                (fun loserId => (getPlayer r.players loserId).isSome)).length]) :=
        List.getElem?_eq_getElem hlt
      have hmem := List.getElem_mem hlt
      generalize (r.previousLosers.filter
          (fun loserId => (getPlayer r.players loserId).isSome))[rnd %
            (r.previousLosers.filter
              (fun loserId => (getPlayer r.players loserId).isSome)).length] = l2 at hget hmem
      rw [List.mem_filter] at hmem
      have hseated2 : l2 ∈ playerIds r := (getPlayer_isSome_iff r.players l2).mp hmem.2
      refine ⟨l2, hmem.1, hseated2, ?_⟩
      rw [hids, hcur]
      unfold startSeat
      simp only [if_neg hne, if_pos hlen, if_pos hpos, hget]
      rw [if_pos hseated2]
      exact idAt_indexOf _ _ hseated2
    · intro hnone
      rw [hcur]
      have hvalid : (r.previousLosers.filter
          (fun loserId => (getPlayer r.players loserId).isSome)) = [] := by
        rw [List.filter_eq_nil_iff]
        intro l hl hsome
        exact hnone l hl ((getPlayer_isSome_iff r.players l).mp hsome)
      unfold startSeat
      cases hl : playerIds r with
      | nil =>
        have : r.players.length = 0 := by
          have := congrArg List.length hl
          simpa [playerIds] using this
        omega
      | cons a as =>
        simp [hne, hvalid, hl]


/-- C29, at a concrete input: the first round of `lobby`, started by `a`, stores
`a` as the starter and puts `a` at the turn pointer. -/
theorem startGame_starting_player_witness :
    truthy lobby.gameStarter = false ∧
      (startGame lobby "a" unshuffledDeck 0).room.gameStarter = some "a" ∧
      idAt (playerIds (startGame lobby "a" unshuffledDeck 0).room)
        (startGame lobby "a" unshuffledDeck 0).room.gameState.currentPlayer = some "a" :=
  have hw := (startGame_starting_player lobby "a" unshuffledDeck 0 (by decide)).2.1 (by decide)
  ⟨by decide, hw.1, hw.2 (by decide)⟩

/-! ## Dealing -/

theorem reachable_foldl (ops : List Op) (r : GameRoom) (hr : Reachable r)
    (hv : ∀ op ∈ ops, op.valid = true) : Reachable (ops.foldl step r) := by
  induction ops generalizing r with
  | nil => exact hr
  | cons op rest ih =>
    exact ih (step r op) (Reachable.step r op hr (hv op (List.mem_cons_self _ _)))
      (fun o ho => hv o (List.mem_cons_of_mem _ ho))

theorem finishedRoom_reachable : Reachable finishedRoom :=
  reachable_foldl quickOps lobby
    (Reachable.step _ (.addPlayer "b" "B")
      (Reachable.step _ (.addPlayer "a" "A") (Reachable.fresh "room") rfl) rfl)
    (by decide)

theorem cardsToGet_le (r : GameRoom) (playerId : String) : cardsToGet r playerId ≤ 5 := by
  unfold cardsToGet
  split
  · split_ifs
    · omega
    · decide
  · decide

theorem mem_setHand (ps : List Player) (playerId : String) (hand : List Card) (p : Player)
    (h : p ∈ setHand ps playerId hand) :
    (p.id = playerId ∧ p.hand = hand) ∨ (p.id ≠ playerId ∧ p ∈ ps) := by
  unfold setHand at h
  rw [List.mem_map] at h
  obtain ⟨q, hq, hqp⟩ := h
  by_cases hid : q.id = playerId
  · rw [if_pos hid] at hqp
    subst hqp
    exact Or.inl ⟨hid, rfl⟩
  · rw [if_neg hid] at hqp
    subst hqp
    exact Or.inr ⟨hid, hq⟩

/-- The dealing loop that runs to its end on a deck with five cards per seat
still to serve: every player of a seat served holds `cardsToGet` cards, and the
other players are as they were. -/
theorem dealLoop_hands (r : GameRoom) (ids : List String) (players : List Player)
    (deck : List Card) (hnodup : ids.Nodup) (hdeck : 5 * ids.length ≤ deck.length)
    (hend : (dealLoop r ids players deck).2.2 = none) :
    ∀ p ∈ (dealLoop r ids players deck).1,
      (p.id ∈ ids → p.hand.length = cardsToGet r p.id ∧ cardsToGet r p.id ≠ 0) ∧
        (p.id ∉ ids → p ∈ players) := by
  induction ids generalizing players deck with
  | nil =>
    intro p hp
    exact ⟨fun h => absurd h (List.not_mem_nil _), fun _ => hp⟩
  | cons playerId rest ih =>
    unfold dealLoop at hend ⊢
    by_cases h0 : cardsToGet r playerId = 0
    · rw [if_pos h0] at hend
      cases hend
    · rw [if_neg h0] at hend ⊢
      dsimp only at hend ⊢
      have hc5 := cardsToGet_le r playerId
      have hlen : deck.length ≥ 5 * rest.length + 5 := by
        simp only [List.length_cons] at hdeck
        omega
      have hpop := popInto_eq (cardsToGet r playerId) [] deck (by omega)
      have hdeck2 : 5 * rest.length ≤ (popInto (cardsToGet r playerId) [] deck).2.length := by
        rw [hpop]
        simp only [List.length_take]
        omega
      have hhand : (popInto (cardsToGet r playerId) [] deck).1.length =
          cardsToGet r playerId := by
        rw [hpop]
        simp only [List.nil_append, List.length_take, List.length_reverse]
        omega
      have hnd := List.nodup_cons.mp hnodup
      intro p hp
      obtain ⟨ih1, ih2⟩ := ih _ _ hnd.2 hdeck2 hend p hp
      constructor
      · intro hmem
        rcases List.mem_cons.mp hmem with hhead | htail
        · have hnotrest : p.id ∉ rest := by rw [hhead]; exact hnd.1
          rcases mem_setHand _ _ _ _ (ih2 hnotrest) with ⟨_, hh⟩ | ⟨hne, _⟩
          · rw [hh, hhand, hhead]
            exact ⟨rfl, h0⟩
          · exact absurd hhead hne
        · exact ih1 htail
      · intro hnot
        have hnotrest : p.id ∉ rest := fun h => hnot (List.mem_cons_of_mem _ h)
        have hnothead : p.id ≠ playerId := fun h => hnot (by rw [h]; exact List.mem_cons_self _ _)
        rcases mem_setHand _ _ _ _ (ih2 hnotrest) with ⟨hid, _⟩ | ⟨_, hin⟩
        · exact absurd hid hnothead
        · exact hin

/-- C24: after a call of `startGame` on a deck of 32 cards, in a room of at most
4 seated players with distinct ids, that returns `true` with the round started
(so without elimination), every seated player holds exactly `cardsToGet` cards:
4 cards, except a player who is in `previousLosers` with `lastGamePoints > 0`,
who holds exactly `max(0, 5 - floor(lastGamePoints / 50))` cards. -/
theorem startGame_hand_sizes (r : GameRoom) (initiatorId : String) (deck : List Card)
    (rnd : Nat) (r2 : GameRoom)
    (h : startGame r initiatorId deck rnd = .returned true r2)
    (hs : r2.gameState.started = true)
    (hnodup : (playerIds r).Nodup) (hseats : r.players.length ≤ 4)
    (hdeck : deck.length = 32) :
    ∀ p ∈ r2.players,
      p.hand.length = cardsToGet r p.id ∧
        (∀ history, getHistory r.gameHistory p.id = some history →
          history.lastGamePoints > 0 → p.id ∈ r.previousLosers →
          (p.hand.length : Int) = max 0 (5 - ((history.lastGamePoints / 50 : Nat) : Int))) ∧
        (¬ (∃ history, getHistory r.gameHistory p.id = some history ∧
              history.lastGamePoints > 0 ∧ p.id ∈ r.previousLosers) →
          p.hand.length = 4) := by
  obtain ⟨_, hend, firstCard, below, _, hr2⟩ :=
    startGame_started r initiatorId deck rnd r2 h hs
  have hlen : (playerIds r).length = r.players.length := by simp [playerIds]
  have hall := dealLoop_hands r (playerIds r) r.players deck hnodup (by omega) hend
  intro p hp
  have hp2 : p ∈ (dealLoop r (playerIds r) r.players deck).1 := by
    rw [hr2] at hp
    exact hp
  have hid : p.id ∈ playerIds r := by
    have hm : p.id ∈ (dealLoop r (playerIds r) r.players deck).1.map (fun q => q.id) :=
      List.mem_map_of_mem _ hp2
    rw [dealLoop_ids] at hm
    exact hm
  obtain ⟨hcount, _⟩ := (hall p hp2).1 hid
  refine ⟨hcount, ?_, ?_⟩
  · intro history hh hpos hloser
    rw [hcount]
    unfold cardsToGet
    simp only [hh, if_pos (And.intro hpos hloser)]
    omega
  · intro hno
    rw [hcount]
    unfold cardsToGet
    cases hh : getHistory r.gameHistory p.id with
    | none => rfl
    | some history =>
      have hcond : ¬ (history.lastGamePoints > 0 ∧ p.id ∈ r.previousLosers) :=
        fun hc => hno ⟨history, hh, hc.1, hc.2⟩
      simp only [if_neg hcond]

/-- C24, at a concrete input: after the first round of `lobby` is started on
`unshuffledDeck`, both players hold 4 cards. -/
theorem startGame_hand_sizes_witness :
    startGame lobby "a" unshuffledDeck 0 = .returned true openedRoom ∧
      ∀ p ∈ openedRoom.players, p.hand.length = 4 :=
  ⟨by decide, fun p hp =>
    (startGame_hand_sizes lobby "a" unshuffledDeck 0 openedRoom (by decide) (by decide)
      (by decide) (by decide) (by decide) p hp).2.2 (by
        have hall : ∀ q ∈ openedRoom.players,
            ¬ (∃ history, getHistory lobby.gameHistory q.id = some history ∧
              history.lastGamePoints > 0 ∧ q.id ∈ lobby.previousLosers) := by decide
        exact hall p hp)⟩

/-- C25, the code at the failing input: `a` and `b` play a round that `a` wins
with the Queen of diamonds while `b` is left with 15 points, so that `b` is in
`previousLosers` with `lastGamePoints = 15`. In the next `startGame` the penalty
is `floor(15 / 50) = 0` cards off 5: `b` is dealt 5 cards, one more than the 4
cards of `a`. -/
theorem startGame_deals_five_to_loser :
    finishedRoom.previousLosers = ["b"] ∧
      (getHistory finishedRoom.gameHistory "b").map (fun history => history.lastGamePoints) =
        some 15 ∧
      cardsToGet finishedRoom "b" = 5 ∧
      (startGame finishedRoom "a" unshuffledDeck 0).value? = some true ∧
      (startGame finishedRoom "a" unshuffledDeck 0).room.gameState.started = true ∧
      (startGame finishedRoom "a" unshuffledDeck 0).room.players.map
          (fun p => (p.id, p.hand.length)) = [("a", 4), ("b", 5)] := by
  decide

/-! ## Elimination -/

theorem penalizedRoom_reachable : Reachable penalizedRoom :=
  reachable_foldl redOps lobby
    (Reachable.step _ (.addPlayer "b" "B")
      (Reachable.step _ (.addPlayer "a" "A") (Reachable.fresh "room") rfl) rfl)
    (by decide)

theorem elimStep_eq (gh : List (String × History)) (e : String) (acc : ElimAcc)
    (player : Player) :
    elimStep gh e acc player =
      if player.id ≠ e ∧ belowMin (totalPointsOf gh player.id) acc.minTotalPoints = true then
        { playerResults := acc.playerResults ++ [elimResultOf gh e player]
          minTotalPoints := some (totalPointsOf gh player.id)
          winnerId := some player.id }
      else
        { playerResults := acc.playerResults ++ [elimResultOf gh e player]
          minTotalPoints := acc.minTotalPoints
          winnerId := acc.winnerId } := rfl

/-- What the loop of `calculateEliminationResults` has computed at its end: one
entry per player, and the first player, other than the eliminated one, whose
total is the least. -/
theorem elimFold_spec (gh : List (String × History)) (e : String) (l : List Player) :
    (l.foldl (elimStep gh e)
        { playerResults := [], minTotalPoints := none, winnerId := none }).playerResults =
        l.map (elimResultOf gh e) ∧
      (((l.foldl (elimStep gh e)
            { playerResults := [], minTotalPoints := none, winnerId := none }).winnerId = none ∧
          (l.foldl (elimStep gh e)
            { playerResults := [], minTotalPoints := none, winnerId := none }).minTotalPoints =
              none ∧
          ∀ p ∈ l, p.id = e) ∨
        ∃ before p after, l = before ++ p :: after ∧ p.id ≠ e ∧
          (l.foldl (elimStep gh e)
            { playerResults := [], minTotalPoints := none, winnerId := none }).winnerId =
              some p.id ∧
          (l.foldl (elimStep gh e)
            { playerResults := [], minTotalPoints := none, winnerId := none }).minTotalPoints =
              some (totalPointsOf gh p.id) ∧
          (∀ q ∈ before, q.id ≠ e → totalPointsOf gh p.id < totalPointsOf gh q.id) ∧
          (∀ q ∈ after, q.id ≠ e → totalPointsOf gh p.id ≤ totalPointsOf gh q.id)) := by
  induction l using List.reverseRecOn with
  | nil => exact ⟨rfl, Or.inl ⟨rfl, rfl, fun p hp => absurd hp (List.not_mem_nil _)⟩⟩
  | append_singleton l x ih =>
    obtain ⟨ihres, ihmin⟩ := ih
    rw [List.foldl_append, List.foldl_cons, List.foldl_nil, elimStep_eq]
    by_cases hcond : x.id ≠ e ∧ belowMin (totalPointsOf gh x.id)
        (l.foldl (elimStep gh e)
          { playerResults := [], minTotalPoints := none, winnerId := none }).minTotalPoints = true
    · rw [if_pos hcond]
      refine ⟨by simp [ihres], Or.inr ⟨l, x, [], rfl, hcond.1, rfl, rfl, ?_, ?_⟩⟩
      · intro q hq hqe
        rcases ihmin with ⟨_, _, hall⟩ | ⟨before, p, after, hl, hpe, _, hmin, hb, ha⟩
        · exact absurd (hall q hq) hqe
        · have hlt : totalPointsOf gh x.id < totalPointsOf gh p.id := by
            have := hcond.2
            rw [hmin] at this
            simpa [belowMin] using this
          rw [hl] at hq
          rcases List.mem_append.mp hq with hq1 | hq2
          · exact lt_trans hlt (hb q hq1 hqe)
          · rcases List.mem_cons.mp hq2 with hq3 | hq4
            · rw [hq3]; exact hlt
            · exact lt_of_lt_of_le hlt (ha q hq4 hqe)
      · intro q hq
        exact absurd hq (List.not_mem_nil _)
    · rw [if_neg hcond]
      refine ⟨by simp [ihres], ?_⟩
      rcases ihmin with ⟨hw, hm, hall⟩ | ⟨before, p, after, hl, hpe, hw, hmin, hb, ha⟩
      · left
        refine ⟨hw, hm, ?_⟩
        intro q hq
        rcases List.mem_append.mp hq with hq1 | hq2
        · exact hall q hq1
        · have hqx : q = x := by simpa using hq2
          rw [hqx]
          by_contra hxe
          apply hcond
          refine ⟨hxe, ?_⟩
          rw [hm]
          rfl
      · right
        refine ⟨before, p, after ++ [x], by rw [hl]; simp, hpe, hw, hmin, hb, ?_⟩
        intro q hq hqe
        rcases List.mem_append.mp hq with hq1 | hq2
        · exact ha q hq1 hqe
        · have hqx : q = x := by simpa using hq2
          rw [hqx] at hqe ⊢
          by_contra hlt
          apply hcond
          refine ⟨hqe, ?_⟩
          rw [hmin]
          simp only [belowMin, decide_eq_true_eq]
          omega

theorem flagWinner_split (f : Player → PlayerResult) (hf : ∀ q, (f q).id = q.id)
    (before : List Player) (p : Player) (after : List Player)
    (hnot : ∀ q ∈ before, q.id ≠ p.id) :
    flagWinner p.id ((before ++ p :: after).map f) =
      before.map f ++ { f p with isWinner := true } :: after.map f := by
  induction before with
  | nil => simp [flagWinner, hf]
  | cons b bs ih =>
    have hb : (f b).id ≠ p.id := by rw [hf]; exact hnot b (List.mem_cons_self _ _)
    have ih2 := ih (fun q hq => hnot q (List.mem_cons_of_mem _ hq))
    show flagWinner p.id (f b :: (bs ++ p :: after).map f) = _
    unfold flagWinner
    rw [if_neg hb, ih2]
    rfl

theorem getPlayer_split (before : List Player) (p : Player) (after : List Player)
    (hnot : ∀ q ∈ before, q.id ≠ p.id) :
    getPlayer (before ++ p :: after) p.id = some p := by
  induction before with
  | nil => simp [getPlayer]
  | cons b bs ih =>
    have hb : b.id ≠ p.id := hnot b (List.mem_cons_self _ _)
    have := ih (fun q hq => hnot q (List.mem_cons_of_mem _ hq))
    simpa [getPlayer, hb] using this

theorem nodup_split (before : List Player) (p : Player) (after : List Player)
    (h : ((before ++ p :: after).map (fun q => q.id)).Nodup) :
    (∀ q ∈ before, q.id ≠ p.id) ∧ (∀ q ∈ after, q.id ≠ p.id) := by
  rw [List.map_append, List.map_cons, List.nodup_append] at h
  obtain ⟨_, h2, h3⟩ := h
  have h2' := List.nodup_cons.mp h2
  constructor
  · intro q hq heq
    exact h3 (List.mem_map_of_mem _ hq) (by rw [heq]; exact List.mem_cons_self _ _)
  · intro q hq heq
    exact h2'.1 (by rw [← heq]; exact List.mem_map_of_mem _ hq)


/-- The payload of `calculateEliminationResults`, field by field, in terms of
what its loop computed. -/
theorem calculateEliminationResults_ok (r : GameRoom) (e : String) (r1 : GameRoom)
    (res : GameResults) (h : calculateEliminationResults r e = .ok (r1, res)) :
    res.players =
        (match (r.players.foldl (elimStep r.gameHistory e)
            { playerResults := [], minTotalPoints := none, winnerId := none }).winnerId with
          | some w =>
            if truthy (some w) = true then
              flagWinner w (r.players.foldl (elimStep r.gameHistory e)
                { playerResults := [], minTotalPoints := none, winnerId := none }).playerResults
            else (r.players.foldl (elimStep r.gameHistory e)
                { playerResults := [], minTotalPoints := none, winnerId := none }).playerResults
          | none => (r.players.foldl (elimStep r.gameHistory e)
              { playerResults := [], minTotalPoints := none, winnerId := none }).playerResults) ∧
      (match (r.players.foldl (elimStep r.gameHistory e)
            { playerResults := [], minTotalPoints := none, winnerId := none }).winnerId with
          | some w =>
            if truthy (some w) = true then (getPlayer r.players w).map (fun p => p.name)
            else some "Neznámý"
          | none => some "Neznámý") = some res.winner ∧
      (∃ eliminated, getPlayer r.players e = some eliminated ∧
        res.eliminatedPlayer = some eliminated.name) ∧
      res.elimination = true ∧ r1.previousLosers = [] := by
  unfold calculateEliminationResults at h
  dsimp only at h
  split at h
  · rename_i winner eliminated hw he
    injection h with h
    injection h with h1 h2
    subst h1 h2
    exact ⟨rfl, hw, ⟨eliminated, he, rfl⟩, rfl, rfl⟩
  · cases h

theorem filter_isWinner_map (gh : List (String × History)) (e : String) (l : List Player) :
    (l.map (elimResultOf gh e)).filter (fun pr => pr.isWinner) = [] := by
  rw [List.filter_eq_nil_iff]
  intro pr hpr
  rw [List.mem_map] at hpr
  obtain ⟨q, _, hq⟩ := hpr
  rw [← hq]
  simp [elimResultOf]

/-- C27: in the payload of `calculateEliminationResults`, for seated players with
distinct non-empty ids: when some seated player is not the eliminated one, the
seats split as `before ++ p :: after` where `p` is not the eliminated player,
every non-eliminated player before `p` has a strictly greater cumulative total
and every non-eliminated player after `p` has a total at least as great; the
entries of the payload are those of the players in seat order, all with
`isWinner = false` except the entry of `p`, and the payload names `p` as winner.
So exactly one entry is flagged winner, and never the eliminated player. When
every seated player is the eliminated one, no entry is flagged. -/
theorem calculateEliminationResults_winner (r : GameRoom) (e : String) (r1 : GameRoom)
    (res : GameResults) (h : calculateEliminationResults r e = .ok (r1, res))
    (hnodup : (playerIds r).Nodup) (hids : ∀ p ∈ r.players, p.id ≠ "") :
    ((∀ p ∈ r.players, p.id = e) → ∀ pr ∈ res.players, pr.isWinner = false) ∧
      ((∃ p ∈ r.players, p.id ≠ e) →
        ∃ before p after, r.players = before ++ p :: after ∧ p.id ≠ e ∧
          (∀ q ∈ before, q.id ≠ e →
            totalPointsOf r.gameHistory p.id < totalPointsOf r.gameHistory q.id) ∧
          (∀ q ∈ after, q.id ≠ e →
            totalPointsOf r.gameHistory p.id ≤ totalPointsOf r.gameHistory q.id) ∧
          res.players =
            before.map (elimResultOf r.gameHistory e) ++
              { elimResultOf r.gameHistory e p with isWinner := true } ::
                after.map (elimResultOf r.gameHistory e) ∧
          res.winner = p.name ∧
          (res.players.filter (fun pr => pr.isWinner)).map (fun pr => pr.id) = [p.id]) ∧
      (∀ pr ∈ res.players, pr.isWinner = true → pr.id ≠ e) := by
  obtain ⟨hplayers, hwinner, _, _, _⟩ := calculateEliminationResults_ok r e r1 res h
  obtain ⟨hres, hmin⟩ := elimFold_spec r.gameHistory e r.players
  have key : (∃ p ∈ r.players, p.id ≠ e) →
      ∃ before p after, r.players = before ++ p :: after ∧ p.id ≠ e ∧
        (∀ q ∈ before, q.id ≠ e →
          totalPointsOf r.gameHistory p.id < totalPointsOf r.gameHistory q.id) ∧
        (∀ q ∈ after, q.id ≠ e →
          totalPointsOf r.gameHistory p.id ≤ totalPointsOf r.gameHistory q.id) ∧
        res.players =
          before.map (elimResultOf r.gameHistory e) ++
            { elimResultOf r.gameHistory e p with isWinner := true } ::
              after.map (elimResultOf r.gameHistory e) ∧
        res.winner = p.name := by
    rintro ⟨p0, hp0, hp0e⟩
    rcases hmin with ⟨_, _, hall⟩ | ⟨before, p, after, hl, hpe, hw, _, hb, ha⟩
    · exact absurd (hall p0 hp0) hp0e
    · refine ⟨before, p, after, hl, hpe, hb, ha, ?_, ?_⟩
      · have hsplit := nodup_split before p after (by
          have := hnodup
          unfold playerIds at this
          rwa [hl] at this)
        have hpmem : p ∈ r.players := by rw [hl]; simp
        have htr : truthy (some p.id) = true := by
          simp only [truthy, decide_eq_true_eq]
          exact hids p hpmem
        rw [hplayers, hw]
        simp only [htr, if_true]
        rw [hres, hl]
        exact flagWinner_split (elimResultOf r.gameHistory e) (fun q => rfl) before p after
          hsplit.1
      · have hsplit := nodup_split before p after (by
          have := hnodup
          unfold playerIds at this
          rwa [hl] at this)
        have hpmem : p ∈ r.players := by rw [hl]; simp
        have htr : truthy (some p.id) = true := by
          simp only [truthy, decide_eq_true_eq]
          exact hids p hpmem
        rw [hw] at hwinner
        simp only [htr, if_true] at hwinner
        have hget : getPlayer r.players p.id = some p := by
          rw [hl]
          exact getPlayer_split before p after hsplit.1
        rw [hget] at hwinner
        simpa using hwinner.symm
  refine ⟨?_, ?_, ?_⟩
  · intro hall pr hpr
    rcases hmin with ⟨hw, _, _⟩ | ⟨before, p, after, hl, hpe, _⟩
    · rw [hplayers, hw] at hpr
      dsimp only at hpr
      rw [hres, List.mem_map] at hpr
      obtain ⟨q, _, hq⟩ := hpr
      rw [← hq]
      rfl
    · have hpmem : p ∈ r.players := by rw [hl]; simp
      exact absurd (hall p hpmem) hpe
  · intro hex
    obtain ⟨before, p, after, hl, hpe, hb, ha, hpl, hname⟩ := key hex
    refine ⟨before, p, after, hl, hpe, hb, ha, hpl, hname, ?_⟩
    rw [hpl, List.filter_append, filter_isWinner_map, List.filter_cons, filter_isWinner_map]
    rfl
  · intro pr hpr hflag
    by_cases hex : ∃ p ∈ r.players, p.id ≠ e
    · obtain ⟨before, p, after, hl, hpe, _, _, hpl, _⟩ := key hex
      rw [hpl] at hpr
      rcases List.mem_append.mp hpr with h1 | h2
      · rw [List.mem_map] at h1
        obtain ⟨q, _, hq⟩ := h1
        rw [← hq] at hflag
        exact absurd hflag (by simp [elimResultOf])
      · rcases List.mem_cons.mp h2 with h3 | h4
        · rw [h3]
          exact hpe
        · rw [List.mem_map] at h4
          obtain ⟨q, _, hq⟩ := h4
          rw [← hq] at hflag
          exact absurd hflag (by simp [elimResultOf])
    · rcases hmin with ⟨hw, _, _⟩ | ⟨before, p, after, hl, hpe, _⟩
      · rw [hplayers, hw] at hpr
        dsimp only at hpr
        rw [hres, List.mem_map] at hpr
        obtain ⟨q, _, hq⟩ := hpr
        rw [← hq] at hflag
        exact absurd hflag (by simp [elimResultOf])
      · have hpmem : p ∈ r.players := by rw [hl]; simp
        exact absurd ⟨p, hpmem, hpe⟩ hex


theorem cardsToGet_eq_zero_iff (r : GameRoom) (playerId : String) :
    cardsToGet r playerId = 0 ↔
      ∃ history, getHistory r.gameHistory playerId = some history ∧
        playerId ∈ r.previousLosers ∧ 5 ≤ history.lastGamePoints / 50 := by
  unfold cardsToGet
  cases hh : getHistory r.gameHistory playerId with
  | none => simp
  | some history =>
    simp only [Option.some.injEq, exists_eq_left']
    by_cases hcond : history.lastGamePoints > 0 ∧ playerId ∈ r.previousLosers
    · rw [if_pos hcond]
      constructor
      · intro h0
        exact ⟨hcond.2, by omega⟩
      · intro h5
        omega
    · rw [if_neg hcond]
      constructor
      · intro h4
        exact absurd h4 (by decide)
      · rintro ⟨hl, h5⟩
        exact absurd ⟨by omega, hl⟩ hcond

/-- The player at whom the dealing loop breaks off is the first in the order of
the seats who is to get no card; the deck plays no part in it. -/
theorem dealLoop_eliminated (r : GameRoom) (ids : List String) (players : List Player)
    (deck : List Card) :
    (dealLoop r ids players deck).2.2 =
      ids.find? (fun playerId => decide (cardsToGet r playerId = 0)) := by
  induction ids generalizing players deck with
  | nil => rfl
  | cons playerId rest ih =>
    unfold dealLoop
    by_cases h0 : cardsToGet r playerId = 0
    · rw [if_pos h0, List.find?_cons_of_pos _ (by simpa using h0)]
    · rw [if_neg h0, List.find?_cons_of_neg _ (by simpa using h0)]
      exact ih _ _

theorem getPlayer_setHand_ne (ps : List Player) (playerId : String) (hand : List Card)
    (e : String) (hne : playerId ≠ e) :
    getPlayer (setHand ps playerId hand) e = getPlayer ps e := by
  induction ps with
  | nil => rfl
  | cons q qs ih =>
    unfold getPlayer setHand at ih ⊢
    rw [List.map_cons]
    by_cases hq : q.id = playerId
    · have hqe : ¬ q.id = e := fun h => hne (hq.symm.trans h)
      rw [if_pos hq, List.find?_cons_of_neg _ (by simpa using hqe),
        List.find?_cons_of_neg _ (by simpa using hqe)]
      exact ih
    · rw [if_neg hq]
      by_cases hqe : q.id = e
      · rw [List.find?_cons_of_pos _ (by simpa using hqe),
          List.find?_cons_of_pos _ (by simpa using hqe)]
      · rw [List.find?_cons_of_neg _ (by simpa using hqe),
          List.find?_cons_of_neg _ (by simpa using hqe)]
        exact ih

theorem dealLoop_eliminated_hand (r : GameRoom) (ids : List String) (players : List Player)
    (deck : List Card) (e : String) (player : Player)
    (he : (dealLoop r ids players deck).2.2 = some e)
    (hp : getPlayer players e = some player) :
    (getPlayer (dealLoop r ids players deck).1 e).map (fun p => p.hand) = some [] := by
  induction ids generalizing players deck player with
  | nil => cases he
  | cons playerId rest ih =>
    unfold dealLoop at he ⊢
    by_cases h0 : cardsToGet r playerId = 0
    · rw [if_pos h0] at he ⊢
      injection he with he
      subst he
      rw [getPlayer_setHand players playerId [] player hp]
      rfl
    · rw [if_neg h0] at he ⊢
      dsimp only at he ⊢
      by_cases hid : playerId = e
      · subst hid
        exact ih _ _ _ he (getPlayer_setHand players playerId _ player hp)
      · have hkeep : getPlayer (setHand players playerId
            (popInto (cardsToGet r playerId) [] deck).1) e = some player := by
          rw [getPlayer_setHand_ne players playerId _ e hid]
          exact hp
        exact ih _ _ _ he hkeep

/-- `calculateEliminationResults` returns its payload whenever the eliminated
player is seated. -/
theorem calculateEliminationResults_succeeds (r : GameRoom) (e : String) (eliminated : Player)
    (he : getPlayer r.players e = some eliminated) :
    ∃ r1 results, calculateEliminationResults r e = .ok (r1, results) := by
  obtain ⟨_, hmin⟩ := elimFold_spec r.gameHistory e r.players
  have hname : ∃ winner,
      (match (r.players.foldl (elimStep r.gameHistory e)
            { playerResults := [], minTotalPoints := none, winnerId := none }).winnerId with
        | some w =>
          if truthy (some w) = true then (getPlayer r.players w).map (fun p => p.name)
          else some "Neznámý"
        | none => some "Neznámý") = some winner := by
    rcases hmin with ⟨hw, _, _⟩ | ⟨before, p, after, hl, _, hw, _⟩
    · rw [hw]
      exact ⟨_, rfl⟩
    · rw [hw]
      dsimp only
      by_cases htr : truthy (some p.id) = true
      · rw [if_pos htr]
        have hsome : (getPlayer r.players p.id).isSome = true := by
          rw [getPlayer_isSome_iff, hl]
          simp
        obtain ⟨w, hwp⟩ := Option.isSome_iff_exists.mp hsome
        rw [hwp]
        exact ⟨_, rfl⟩
      · rw [if_neg htr]
        exact ⟨_, rfl⟩
  obtain ⟨winner, hwinner⟩ := hname
  cases hres : calculateEliminationResults r e with
  | ok pr => exact ⟨pr.1, pr.2, rfl⟩
  | error r1 =>
    unfold calculateEliminationResults at hres
    dsimp only at hres
    split at hres
    · cases hres
    · rename_i hno
      exact absurd he (hno winner eliminated hwinner)

theorem mem_flagWinner (w : String) (l : List PlayerResult) (pr : PlayerResult)
    (h : pr ∈ flagWinner w l) :
    ∃ pr0 ∈ l, pr.id = pr0.id ∧ pr.eliminated = pr0.eliminated := by
  induction l with
  | nil => simp [flagWinner] at h
  | cons a as ih =>
    unfold flagWinner at h
    by_cases ha : a.id = w
    · rw [if_pos ha] at h
      rcases List.mem_cons.mp h with h1 | h2
      · exact ⟨a, List.mem_cons_self _ _, by rw [h1], by rw [h1]⟩
      · exact ⟨pr, List.mem_cons_of_mem _ h2, rfl, rfl⟩
    · rw [if_neg ha] at h
      rcases List.mem_cons.mp h with h1 | h2
      · exact ⟨a, List.mem_cons_self _ _, by rw [h1], by rw [h1]⟩
      · obtain ⟨pr0, hpr0, h3⟩ := ih h2
        exact ⟨pr0, List.mem_cons_of_mem _ hpr0, h3⟩

theorem calculateEliminationResults_flags (r : GameRoom) (e : String) (r1 : GameRoom)
    (res : GameResults) (h : calculateEliminationResults r e = .ok (r1, res)) :
    ∀ pr ∈ res.players, pr.eliminated = some (decide (pr.id = e)) := by
  obtain ⟨hplayers, _⟩ := calculateEliminationResults_ok r e r1 res h
  obtain ⟨hres, _⟩ := elimFold_spec r.gameHistory e r.players
  have hbase : ∀ pr ∈ (r.players.foldl (elimStep r.gameHistory e)
      { playerResults := [], minTotalPoints := none, winnerId := none }).playerResults,
      pr.eliminated = some (decide (pr.id = e)) := by
    intro pr hpr
    rw [hres, List.mem_map] at hpr
    obtain ⟨q, _, hq⟩ := hpr
    rw [← hq]
    rfl
  intro pr hpr
  rw [hplayers] at hpr
  split at hpr
  · split at hpr
    · obtain ⟨pr0, hpr0, hid, hel⟩ := mem_flagWinner _ _ _ hpr
      rw [hel, hid]
      exact hbase pr0 hpr0
    · exact hbase pr hpr
  · exact hbase pr hpr


/-! ## The entries of the elimination payload -/

theorem flagWinner_flags (w : String) (l : List PlayerResult) :
    (flagWinner w l).map (fun pr => (pr.id, pr.eliminated)) =
      l.map (fun pr => (pr.id, pr.eliminated)) := by
  induction l with
  | nil => rfl
  | cons a as ih =>
    unfold flagWinner
    by_cases ha : a.id = w
    · rw [if_pos ha]
      rfl
    · rw [if_neg ha]
      simp only [List.map_cons, ih]

/-- The payload of `calculateEliminationResults` has one entry for each seated
player, in seat order, flagged as eliminated exactly when its id is the id of
the eliminated player. -/
theorem calculateEliminationResults_flag_list (r : GameRoom) (e : String) (r1 : GameRoom)
    (res : GameResults) (h : calculateEliminationResults r e = .ok (r1, res)) :
    res.players.map (fun pr => (pr.id, pr.eliminated)) =
      (playerIds r).map (fun id => (id, some (decide (id = e)))) := by
  obtain ⟨hplayers, _⟩ := calculateEliminationResults_ok r e r1 res h
  obtain ⟨hres, _⟩ := elimFold_spec r.gameHistory e r.players
  have hbase : (r.players.foldl (elimStep r.gameHistory e)
      { playerResults := [], minTotalPoints := none, winnerId := none }).playerResults.map
        (fun pr => (pr.id, pr.eliminated)) =
      (playerIds r).map (fun id => (id, some (decide (id = e)))) := by
    rw [hres]
    unfold playerIds
    simp only [List.map_map]
    rfl
  rw [hplayers]
  split
  · split
    · rw [flagWinner_flags]
      exact hbase
    · exact hbase
  · exact hbase

/-- C26: with at least 2 seated players, `startGame` ends in elimination (leaves
a result payload with `elimination = true`) if and only if some seated player is
in `previousLosers` with `floor(lastGamePoints / 50) >= 5`. When `e` is the
first such player in the order of the seats, `startGame` returns `true` with
`started = false` and an empty discard pile, the hand of `e` is empty, the
payload has `elimination = true`, names `e` as the eliminated player, holds one
entry for each seated player, in seat order, flagged as eliminated exactly when
its id is `e` (so the entry of `e` is there and is flagged), and
`previousLosers` is emptied. -/
theorem startGame_elimination (r : GameRoom) (initiatorId : String) (deck : List Card)
    (rnd : Nat) (hn : 2 ≤ r.players.length) :
    ((∃ results, (startGame r initiatorId deck rnd).room.gameState.gameResults = some results ∧
          results.elimination = true) ↔
        ∃ playerId ∈ playerIds r, ∃ history,
          getHistory r.gameHistory playerId = some history ∧
            playerId ∈ r.previousLosers ∧ 5 ≤ history.lastGamePoints / 50) ∧
      (∀ (before : List String) (e : String) (after : List String),
        playerIds r = before ++ e :: after →
        (∃ history, getHistory r.gameHistory e = some history ∧
          e ∈ r.previousLosers ∧ 5 ≤ history.lastGamePoints / 50) →
        (∀ q ∈ before, ¬ ∃ history, getHistory r.gameHistory q = some history ∧
          q ∈ r.previousLosers ∧ 5 ≤ history.lastGamePoints / 50) →
        ∃ r2 results, startGame r initiatorId deck rnd = .returned true r2 ∧
          r2.gameState.started = false ∧ r2.gameState.playedCards = [] ∧
          (getPlayer r2.players e).map (fun p => p.hand) = some [] ∧
          r2.gameState.gameResults = some results ∧ results.elimination = true ∧
          results.eliminatedPlayer = (getPlayer r.players e).map (fun p => p.name) ∧
          (∀ pr ∈ results.players, pr.eliminated = some (decide (pr.id = e))) ∧
          results.players.map (fun pr => (pr.id, pr.eliminated)) =
            (playerIds r).map (fun id => (id, some (decide (id = e)))) ∧
          (∃ pr ∈ results.players, pr.id = e ∧ pr.eliminated = some true) ∧
          r2.previousLosers = []) := by
  have hsecond : ∀ e, (dealLoop r (playerIds r) r.players deck).2.2 = some e →
      ∃ r2 results, startGame r initiatorId deck rnd = .returned true r2 ∧
        r2.gameState.started = false ∧ r2.gameState.playedCards = [] ∧
        (getPlayer r2.players e).map (fun p => p.hand) = some [] ∧
        r2.gameState.gameResults = some results ∧ results.elimination = true ∧
        results.eliminatedPlayer = (getPlayer r.players e).map (fun p => p.name) ∧
        (∀ pr ∈ results.players, pr.eliminated = some (decide (pr.id = e))) ∧
        results.players.map (fun pr => (pr.id, pr.eliminated)) =
          (playerIds r).map (fun id => (id, some (decide (id = e)))) ∧
        (∃ pr ∈ results.players, pr.id = e ∧ pr.eliminated = some true) ∧
        r2.previousLosers = [] := by
    intro e he
    have hemem : e ∈ playerIds r := by
      rw [dealLoop_eliminated] at he
      exact List.mem_of_find?_eq_some he
    obtain ⟨player, hplayer⟩ :=
      Option.isSome_iff_exists.mp ((getPlayer_isSome_iff r.players e).mpr hemem)
    have hhand := dealLoop_eliminated_hand r (playerIds r) r.players deck e player he hplayer
    have hseated : ∃ el, getPlayer (dealLoop r (playerIds r) r.players deck).1 e = some el ∧
        el.hand = [] := by
      cases hg : getPlayer (dealLoop r (playerIds r) r.players deck).1 e with
      | none => rw [hg] at hhand; cases hhand
      | some el =>
        rw [hg] at hhand
        exact ⟨el, rfl, by simpa using hhand⟩
    obtain ⟨el, hel, _⟩ := hseated
    have hname : el.name = player.name := by
      have hkeep : ∀ (ids : List String) (players : List Player) (dk : List Card) (p q : Player),
          getPlayer players e = some p → getPlayer (dealLoop r ids players dk).1 e = some q →
          q.name = p.name := by
        intro ids
        induction ids with
        | nil =>
          intro players dk p q hp hq
          rw [show (dealLoop r [] players dk).1 = players from rfl, hp] at hq
          injection hq with hq
          rw [hq]
        | cons playerId rest ih =>
          intro players dk p q hp hq
          unfold dealLoop at hq
          by_cases h0 : cardsToGet r playerId = 0
          · rw [if_pos h0] at hq
            by_cases hid : playerId = e
            · subst hid
              rw [getPlayer_setHand players playerId [] p hp] at hq
              injection hq with hq
              rw [← hq]
            · rw [getPlayer_setHand_ne players playerId [] e hid, hp] at hq
              injection hq with hq
              rw [hq]
          · rw [if_neg h0] at hq
            dsimp only at hq
            by_cases hid : playerId = e
            · subst hid
              exact ih _ _ { p with hand := (popInto (cardsToGet r playerId) [] dk).1 } q
                (getPlayer_setHand players playerId _ p hp) hq
            · exact ih _ _ p q (by rw [getPlayer_setHand_ne players playerId _ e hid]; exact hp) hq
      exact hkeep _ _ _ _ _ hplayer hel
    obtain ⟨r3, results, hres⟩ := calculateEliminationResults_succeeds
      { dealtRoom r initiatorId deck rnd with
          gameState :=
            { (dealtRoom r initiatorId deck rnd).gameState with
                winner := some e, started := false } } e el hel
    have hr3 := (calculateEliminationResults_room _ e).1 r3 results hres
    obtain ⟨_, _, ⟨el2, hel2, hnamed⟩, helim, _⟩ :=
      calculateEliminationResults_ok _ e r3 results hres
    have hflags := calculateEliminationResults_flags _ e r3 results hres
    have hlist : results.players.map (fun pr => (pr.id, pr.eliminated)) =
        (playerIds r).map (fun id => (id, some (decide (id = e)))) := by
      rw [calculateEliminationResults_flag_list _ e r3 results hres]
      unfold playerIds
      show ((dealLoop r (playerIds r) r.players deck).1.map (fun p => p.id)).map _ = _
      rw [dealLoop_ids]
    have hflagged : ∃ pr ∈ results.players, pr.id = e ∧ pr.eliminated = some true := by
      have hin : (e, some true) ∈ results.players.map (fun pr => (pr.id, pr.eliminated)) := by
        rw [hlist, List.mem_map]
        exact ⟨e, hemem, by simp⟩
      rw [List.mem_map] at hin
      obtain ⟨pr, hpr, heq⟩ := hin
      injection heq with h1 h2
      exact ⟨pr, hpr, h1, h2⟩
    have hel2' : getPlayer (dealLoop r (playerIds r) r.players deck).1 e = some el2 := hel2
    rw [hel] at hel2'
    injection hel2' with hel2'
    refine ⟨{ r3 with gameState := { r3.gameState with gameResults := some results } },
      results, ?_, ?_, ?_, ?_, rfl, helim, ?_, hflags, hlist, hflagged, ?_⟩
    · rw [startGame_eq r initiatorId deck rnd hn, he]
      dsimp only
      rw [hres]
    · rw [hr3]
    · rw [hr3]
      rfl
    · rw [hr3]
      exact hhand
    · rw [hnamed, hplayer, ← hel2', hname]
      rfl
    · rw [hr3]
  constructor
  · constructor
    · rintro ⟨results, hres, helim⟩
      cases he : (dealLoop r (playerIds r) r.players deck).2.2 with
      | none =>
        rw [startGame_eq r initiatorId deck rnd hn, he] at hres
        dsimp only at hres
        cases hpop : popFirstCard (dealtRoom r initiatorId deck rnd).gameState.deck.reverse with
        | none =>
          rw [hpop] at hres
          cases hres
        | some pr =>
          rw [hpop] at hres
          cases hres
      | some e =>
        have hfind := he
        rw [dealLoop_eliminated] at hfind
        have hmem := List.mem_of_find?_eq_some hfind
        have hzero : cardsToGet r e = 0 := by
          have := List.find?_some hfind
          simpa using this
        obtain ⟨history, hh, hl, h5⟩ := (cardsToGet_eq_zero_iff r e).mp hzero
        exact ⟨e, hmem, history, hh, hl, h5⟩
    · rintro ⟨playerId, hmem, history, hh, hl, h5⟩
      have hzero : cardsToGet r playerId = 0 :=
        (cardsToGet_eq_zero_iff r playerId).mpr ⟨history, hh, hl, h5⟩
      have hsome : ((playerIds r).find?
          (fun playerId => decide (cardsToGet r playerId = 0))).isSome = true := by
        rw [List.find?_isSome]
        exact ⟨playerId, hmem, by simpa using hzero⟩
      obtain ⟨e, he⟩ := Option.isSome_iff_exists.mp hsome
      rw [← dealLoop_eliminated r (playerIds r) r.players deck] at he
      obtain ⟨r2, results, hstart, _, _, _, hgr, helim, _⟩ := hsecond e he
      rw [hstart]
      exact ⟨results, hgr, helim⟩
  · intro before e after hsplit hcond hfirst
    apply hsecond
    rw [dealLoop_eliminated, hsplit, List.find?_eq_some]
    refine ⟨by simpa using (cardsToGet_eq_zero_iff r e).mpr hcond, before, after, rfl, ?_⟩
    intro q hq
    have hnz : ¬ cardsToGet r q = 0 := fun h0 => hfirst q hq ((cardsToGet_eq_zero_iff r q).mp h0)
    simpa using hnz

/-- C26, at a concrete input: `penalizedRoom` is the room after a round that `a`
has won with the Queen of hearts and `b` has lost with 286 points. The next
`startGame` ends in elimination: it returns `true` with the round not started,
no discard pile, an empty hand for `b`, a payload with one entry for `a` and one
for `b` of which that of `b` is flagged as eliminated, and `previousLosers`
emptied. -/
theorem startGame_elimination_witness :
    (getHistory penalizedRoom.gameHistory "b").map (fun history => history.lastGamePoints) =
        some 286 ∧
      ∃ r2 results, startGame penalizedRoom "a" unshuffledDeck 0 = .returned true r2 ∧
        r2.gameState.started = false ∧ r2.gameState.playedCards = [] ∧
        (getPlayer r2.players "b").map (fun p => p.hand) = some [] ∧
        r2.gameState.gameResults = some results ∧ results.elimination = true ∧
        results.eliminatedPlayer = (getPlayer penalizedRoom.players "b").map (fun p => p.name) ∧
        (∀ pr ∈ results.players, pr.eliminated = some (decide (pr.id = "b"))) ∧
        results.players.map (fun pr => (pr.id, pr.eliminated)) =
          (playerIds penalizedRoom).map (fun id => (id, some (decide (id = "b")))) ∧
        (∃ pr ∈ results.players, pr.id = "b" ∧ pr.eliminated = some true) ∧
        r2.previousLosers = [] :=
  ⟨by decide,
    (startGame_elimination penalizedRoom "a" unshuffledDeck 0 (by decide)).2 ["a"] "b" []
      (by decide)
      ⟨{ totalPoints := 286, gamesPlayed := 1, lastGamePoints := 286, name := "B" },
        by decide, by decide, by decide⟩
      (by
        intro q hq
        have hqa : q = "a" := by simpa using hq
        subst hqa
        rintro ⟨history, hh, hl, _⟩
        exact absurd hl (by decide))⟩

/-- C28, the code at the failing input: `a` and `b` play a round that `a` wins
with the Queen of hearts, leaving `b` with 286 points; the next `startGame`
eliminates `b`. The payload names `A`, the remaining player, as winner, but the
field `winner` of the game state, the one that the snapshot publishes, holds
`b`, the id of the eliminated player. -/
theorem startGame_elimination_winner_is_eliminated :
    (startGame penalizedRoom "a" unshuffledDeck 0).value? = some true ∧
      (startGame penalizedRoom "a" unshuffledDeck 0).room.gameState.started = false ∧
      (startGame penalizedRoom "a" unshuffledDeck 0).room.gameState.winner = some "b" ∧
      (startGame penalizedRoom "a" unshuffledDeck 0).room.gameState.gameResults.map
          (fun results => (results.elimination, results.eliminatedPlayer, results.winner)) =
        some (true, some "B", "A") ∧
      (startGame penalizedRoom "a" unshuffledDeck 0).room.gameState.gameResults.map
          (fun results => results.players.map (fun pr => (pr.id, pr.isWinner, pr.eliminated))) =
        some [("a", true, some false), ("b", false, some true)] := by
  decide


/-- C27, at a concrete input: in `penalizedRoom` with `b` eliminated, the
payload flags exactly `a`, the only other seated player, as winner. -/
theorem calculateEliminationResults_winner_witness :
    ∃ r1 res, calculateEliminationResults penalizedRoom "b" = .ok (r1, res) ∧
      res.winner = "A" ∧
      (res.players.filter (fun pr => pr.isWinner)).map (fun pr => pr.id) = ["a"] ∧
      ∀ pr ∈ res.players, pr.isWinner = true → pr.id ≠ "b" :=
  have hok : calculateEliminationResults penalizedRoom "b" =
      .ok ({ penalizedRoom with previousLosers := [] },
        { winner := "A", winnerPoints := 0, elimination := true, eliminatedPlayer := some "B",
          redQueenWin := false,
          players :=
            [{ id := "a", name := "A", points := 0, totalPoints := some 0, cards := 0,
               isWinner := true, eliminated := some false, redQueenPenalty := false },
             { id := "b", name := "B", points := 0, totalPoints := some 286, cards := 7,
               isWinner := false, eliminated := some true, redQueenPenalty := false }],
          losers := ["B"], maxPoints := 0 }) := by rfl
  have hw := calculateEliminationResults_winner penalizedRoom "b" _ _ hok (by decide) (by decide)
  ⟨_, _, hok, by decide, by decide, hw.2.2⟩

/-! ## Scoring a round -/

theorem scoreStep_eq (w : String) (rq : Bool) (acc : ScoreAcc) (player : Player) :
    scoreStep w rq acc player =
      if roundPoints w rq player > acc.maxPoints then
        { playerResults := acc.playerResults ++ [scoreResultOf w rq player]
          maxPoints := roundPoints w rq player
          losers := [player.id]
          gameHistory := recordPoints acc.gameHistory player.id (roundPoints w rq player) }
      else if roundPoints w rq player = acc.maxPoints ∧ roundPoints w rq player > 0 then
        { playerResults := acc.playerResults ++ [scoreResultOf w rq player]
          maxPoints := acc.maxPoints
          losers := acc.losers ++ [player.id]
          gameHistory := recordPoints acc.gameHistory player.id (roundPoints w rq player) }
      else
        { playerResults := acc.playerResults ++ [scoreResultOf w rq player]
          maxPoints := acc.maxPoints
          losers := acc.losers
          gameHistory := recordPoints acc.gameHistory player.id (roundPoints w rq player) } := rfl

theorem calculatePlayerScore_eq_sum (hand : List Card) :
    calculatePlayerScore hand = (hand.map getCardPoints).sum := by
  unfold calculatePlayerScore
  have key : ∀ (l : List Card) (n : Nat),
      l.foldl (fun total card => total + getCardPoints card) n =
        n + (l.map getCardPoints).sum := by
    intro l
    induction l with
    | nil => intro n; simp
    | cons c cs ih =>
      intro n
      rw [List.foldl_cons, ih, List.map_cons, List.sum_cons]
      omega
  rw [key hand 0]
  omega


/-- What the loop of `calculateGameResults` has computed at its end: one entry
per player, the histories with the points of every player recorded, the greatest
of the points, and as losers the players at that greatest value, if positive. -/
theorem scoreFold_spec (w : String) (rq : Bool) (gh : List (String × History))
    (l : List Player) :
    (l.foldl (scoreStep w rq)
        { playerResults := [], maxPoints := 0, losers := [], gameHistory := gh }).playerResults =
        l.map (scoreResultOf w rq) ∧
      (l.foldl (scoreStep w rq)
        { playerResults := [], maxPoints := 0, losers := [], gameHistory := gh }).gameHistory =
        l.foldl (fun h p => recordPoints h p.id (roundPoints w rq p)) gh ∧
      (∀ p ∈ l, roundPoints w rq p ≤
        (l.foldl (scoreStep w rq)
          { playerResults := [], maxPoints := 0, losers := [], gameHistory := gh }).maxPoints) ∧
      (0 < (l.foldl (scoreStep w rq)
            { playerResults := [], maxPoints := 0, losers := [], gameHistory := gh }).maxPoints →
        ∃ p ∈ l, roundPoints w rq p =
          (l.foldl (scoreStep w rq)
            { playerResults := [], maxPoints := 0, losers := [], gameHistory := gh }).maxPoints) ∧
      (l.foldl (scoreStep w rq)
        { playerResults := [], maxPoints := 0, losers := [], gameHistory := gh }).losers =
        (l.filter (fun p => decide (roundPoints w rq p =
            (l.foldl (scoreStep w rq)
              { playerResults := [], maxPoints := 0, losers := [],
                gameHistory := gh }).maxPoints ∧
            0 < roundPoints w rq p))).map (fun p => p.id) := by
  induction l using List.reverseRecOn with
  | nil =>
    refine ⟨rfl, rfl, fun p hp => absurd hp (List.not_mem_nil _), ?_, rfl⟩
    intro h
    exact absurd h (Nat.lt_irrefl 0)
  | append_singleton l x ih =>
    obtain ⟨ih1, ih2, ih3, ih4, ih5⟩ := ih
    rw [List.foldl_append, List.foldl_cons, List.foldl_nil, scoreStep_eq]
    generalize hacc : l.foldl (scoreStep w rq)
      { playerResults := [], maxPoints := 0, losers := [], gameHistory := gh } = acc
      at ih1 ih2 ih3 ih4 ih5 ⊢
    have hhist : (l ++ [x]).foldl (fun h p => recordPoints h p.id (roundPoints w rq p)) gh =
        recordPoints acc.gameHistory x.id (roundPoints w rq x) := by
      rw [List.foldl_append, List.foldl_cons, List.foldl_nil, ih2]
    by_cases h1 : roundPoints w rq x > acc.maxPoints
    · rw [if_pos h1]
      refine ⟨by simp [ih1], hhist.symm, ?_, ?_, ?_⟩
      · intro p hp
        rcases List.mem_append.mp hp with hp1 | hp2
        · exact le_of_lt (lt_of_le_of_lt (ih3 p hp1) h1)
        · have hpx : p = x := by simpa using hp2
          rw [hpx]
      · intro _
        exact ⟨x, by simp, rfl⟩
      · show [x.id] = _
        rw [List.filter_append]
        have hnone : l.filter (fun p => decide (roundPoints w rq p = roundPoints w rq x ∧
            0 < roundPoints w rq p)) = [] := by
          rw [List.filter_eq_nil_iff]
          intro p hp
          have := ih3 p hp
          simp only [decide_eq_true_eq, not_and]
          intro heq
          omega
        have hpos : 0 < roundPoints w rq x := by omega
        rw [hnone]
        simp [hpos]
    · rw [if_neg h1]
      by_cases h2 : roundPoints w rq x = acc.maxPoints ∧ roundPoints w rq x > 0
      · rw [if_pos h2]
        refine ⟨by simp [ih1], hhist.symm, ?_, ?_, ?_⟩
        · intro p hp
          rcases List.mem_append.mp hp with hp1 | hp2
          · exact ih3 p hp1
          · have hpx : p = x := by simpa using hp2
            rw [hpx]
            exact le_of_eq h2.1
        · intro _
          exact ⟨x, by simp, h2.1⟩
        · show acc.losers ++ [x.id] =
            ((l ++ [x]).filter (fun p => decide (roundPoints w rq p = acc.maxPoints ∧
              0 < roundPoints w rq p))).map (fun p => p.id)
          rw [List.filter_append, List.map_append, ← ih5,
            List.filter_cons_of_pos (by simpa using h2)]
          rfl
      · rw [if_neg h2]
        refine ⟨by simp [ih1], hhist.symm, ?_, ?_, ?_⟩
        · intro p hp
          rcases List.mem_append.mp hp with hp1 | hp2
          · exact ih3 p hp1
          · have hpx : p = x := by simpa using hp2
            rw [hpx]
            show roundPoints w rq x ≤ acc.maxPoints
            omega
        · intro hpos
          obtain ⟨p, hp, hpe⟩ := ih4 hpos
          exact ⟨p, List.mem_append_left _ hp, hpe⟩
        · show acc.losers =
            ((l ++ [x]).filter (fun p => decide (roundPoints w rq p = acc.maxPoints ∧
              0 < roundPoints w rq p))).map (fun p => p.id)
          rw [List.filter_append, List.map_append, ← ih5,
            List.filter_cons_of_neg (by simpa using h2)]
          simp

theorem getHistory_recordPoints_same (gh : List (String × History)) (playerId : String)
    (points : Nat) (history : History) (h : getHistory gh playerId = some history) :
    getHistory (recordPoints gh playerId points) playerId =
      some { history with
              totalPoints := history.totalPoints + points
              gamesPlayed := history.gamesPlayed + 1
              lastGamePoints := points } := by
  induction gh with
  | nil => simp [getHistory] at h
  | cons entry rest ih =>
    unfold getHistory recordPoints at ih ⊢
    unfold getHistory at h
    rw [List.map_cons]
    by_cases he : entry.1 = playerId
    · rw [List.find?_cons_of_pos _ (by simpa using he)] at h
      rw [if_pos he, List.find?_cons_of_pos _ (by simpa using he)]
      simp only [Option.map_some'] at h ⊢
      injection h with h
      rw [h]
    · rw [List.find?_cons_of_neg _ (by simpa using he)] at h
      rw [if_neg he, List.find?_cons_of_neg _ (by simpa using he)]
      exact ih h

theorem getHistory_recordPoints_ne (gh : List (String × History)) (playerId other : String)
    (points : Nat) (hne : playerId ≠ other) :
    getHistory (recordPoints gh playerId points) other = getHistory gh other := by
  induction gh with
  | nil => rfl
  | cons entry rest ih =>
    unfold getHistory recordPoints at ih ⊢
    rw [List.map_cons]
    by_cases he : entry.1 = playerId
    · have heo : ¬ entry.1 = other := fun h => hne (he.symm.trans h)
      rw [if_pos he, List.find?_cons_of_neg _ (by simpa using heo),
        List.find?_cons_of_neg _ (by simpa using heo)]
      exact ih
    · rw [if_neg he]
      by_cases heo : entry.1 = other
      · rw [List.find?_cons_of_pos _ (by simpa using heo),
          List.find?_cons_of_pos _ (by simpa using heo)]
      · rw [List.find?_cons_of_neg _ (by simpa using heo),
          List.find?_cons_of_neg _ (by simpa using heo)]
        exact ih

theorem recordFold_other (pts : Player → Nat) (l : List Player) (gh : List (String × History))
    (other : String) (hne : ∀ q ∈ l, q.id ≠ other) :
    getHistory (l.foldl (fun h p => recordPoints h p.id (pts p)) gh) other =
      getHistory gh other := by
  induction l generalizing gh with
  | nil => rfl
  | cons q qs ih =>
    rw [List.foldl_cons, ih _ (fun p hp => hne p (List.mem_cons_of_mem _ hp)),
      getHistory_recordPoints_ne _ _ _ _ (hne q (List.mem_cons_self _ _))]

/-- With distinct ids, the history of every player is updated by the points of
that player, once. -/
theorem recordFold_player (pts : Player → Nat) (l : List Player)
    (gh : List (String × History)) (hnodup : (l.map (fun p => p.id)).Nodup)
    (p : Player) (hp : p ∈ l) (history : History)
    (hh : getHistory gh p.id = some history) :
    getHistory (l.foldl (fun h q => recordPoints h q.id (pts q)) gh) p.id =
      some { history with
              totalPoints := history.totalPoints + pts p
              gamesPlayed := history.gamesPlayed + 1
              lastGamePoints := pts p } := by
  induction l generalizing gh with
  | nil => exact absurd hp (List.not_mem_nil _)
  | cons q qs ih =>
    rw [List.map_cons, List.nodup_cons] at hnodup
    rw [List.foldl_cons]
    rcases List.mem_cons.mp hp with hpq | hpqs
    · subst hpq
      rw [recordFold_other pts qs _ p.id (by
        intro x hx heq
        exact hnodup.1 (by rw [← heq]; exact List.mem_map_of_mem _ hx))]
      exact getHistory_recordPoints_same gh p.id (pts p) history hh
    · have hne : q.id ≠ p.id := by
        intro heq
        exact hnodup.1 (by rw [heq]; exact List.mem_map_of_mem _ hpqs)
      exact ih _ hnodup.2 hpqs (by rw [getHistory_recordPoints_ne _ _ _ _ hne]; exact hh)

/-- The payload and the room of `calculateGameResults`, field by field, in terms
of what its loop computed. -/
theorem calculateGameResults_fields (r : GameRoom) (w : String) (r1 : GameRoom)
    (res : GameResults) (h : calculateGameResults r w = .ok (r1, res)) :
    r1.gameHistory =
        (r.players.foldl (scoreStep w (redQueenWinOf r))
          { playerResults := [], maxPoints := 0, losers := [],
            gameHistory := r.gameHistory }).gameHistory ∧
      r1.previousLosers =
        (r.players.foldl (scoreStep w (redQueenWinOf r))
          { playerResults := [], maxPoints := 0, losers := [],
            gameHistory := r.gameHistory }).losers ∧
      res.players =
        (r.players.foldl (scoreStep w (redQueenWinOf r))
          { playerResults := [], maxPoints := 0, losers := [],
            gameHistory := r.gameHistory }).playerResults ∧
      res.maxPoints =
        (r.players.foldl (scoreStep w (redQueenWinOf r))
          { playerResults := [], maxPoints := 0, losers := [],
            gameHistory := r.gameHistory }).maxPoints ∧
      res.redQueenWin = redQueenWinOf r := by
  unfold calculateGameResults at h
  cases hw : getPlayer r.players w with
  | none => simp [hw] at h
  | some winner =>
    simp only [hw] at h
    injection h with h
    injection h with h1 h2
    subst h1 h2
    exact ⟨rfl, rfl, rfl, rfl, rfl⟩


/-- C22: `calculateGameResults(winner)` on seated players with distinct ids. The
entries of the payload are those of the players in seat order, each with the
round points of that player: the sum of `getCardPoints` over the hand, doubled
exactly when the last card played is the Queen of hearts and the player is not
the winner; a winner with an empty hand has 0. And the history of every seated
player is updated by exactly those points: `totalPoints` grows by them,
`gamesPlayed` by 1, and `lastGamePoints` is set to them. -/
theorem calculateGameResults_points (r : GameRoom) (w : String) (r1 : GameRoom)
    (res : GameResults) (h : calculateGameResults r w = .ok (r1, res))
    (hnodup : (playerIds r).Nodup) :
    (redQueenWinOf r = true ↔
        ∃ top, r.gameState.playedCards.getLast? = some top ∧
          top.value = "Q" ∧ top.suit = "hearts") ∧
      res.players.map (fun pr => (pr.id, pr.points)) =
        r.players.map (fun p => (p.id, roundPoints w (redQueenWinOf r) p)) ∧
      (∀ p ∈ r.players,
        roundPoints w (redQueenWinOf r) p =
          if redQueenWinOf r = true ∧ p.id ≠ w then 2 * (p.hand.map getCardPoints).sum
          else (p.hand.map getCardPoints).sum) ∧
      (∀ p ∈ r.players, p.id = w → p.hand = [] → roundPoints w (redQueenWinOf r) p = 0) ∧
      (∀ p ∈ r.players, ∀ history, getHistory r.gameHistory p.id = some history →
        getHistory r1.gameHistory p.id =
          some { history with
                  totalPoints := history.totalPoints + roundPoints w (redQueenWinOf r) p
                  gamesPlayed := history.gamesPlayed + 1
                  lastGamePoints := roundPoints w (redQueenWinOf r) p }) := by
  obtain ⟨hgh, _, hpl, _, _⟩ := calculateGameResults_fields r w r1 res h
  obtain ⟨f1, f2, _, _, _⟩ := scoreFold_spec w (redQueenWinOf r) r.gameHistory r.players
  refine ⟨?_, ?_, ?_, ?_, ?_⟩
  · unfold redQueenWinOf
    cases htop : r.gameState.playedCards.getLast? with
    | none => simp
    | some top => simp
  · rw [hpl, f1, List.map_map]
    rfl
  · intro p _
    unfold roundPoints
    rw [calculatePlayerScore_eq_sum]
    by_cases hc : redQueenWinOf r = true ∧ p.id ≠ w
    · rw [if_pos hc, if_pos hc]
      omega
    · rw [if_neg hc, if_neg hc]
  · intro p _ hpw hempty
    unfold roundPoints
    have hc : ¬ (redQueenWinOf r = true ∧ p.id ≠ w) := fun hc => hc.2 hpw
    rw [if_neg hc, hempty]
    rfl
  · intro p hp history hh
    rw [hgh, f2]
    exact recordFold_player (roundPoints w (redQueenWinOf r)) r.players r.gameHistory hnodup
      p hp history hh

/-- C22, at a concrete input: in `penalizedRoom` the last card played is the
Queen of hearts, `a` holds no card and `b` holds 143 points; scoring with winner
`a` gives `a` 0 points and `b` the doubled 286. -/
theorem calculateGameResults_points_witness :
    redQueenWinOf penalizedRoom = true ∧
      (getPlayer penalizedRoom.players "b").map
          (fun p => (p.hand.map getCardPoints).sum) = some 143 ∧
      ∃ r1 res, calculateGameResults penalizedRoom "a" = .ok (r1, res) ∧
        res.players.map (fun pr => (pr.id, pr.points)) = [("a", 0), ("b", 286)] ∧
        res.players.map (fun pr => (pr.id, pr.points)) =
          penalizedRoom.players.map
            (fun p => (p.id, roundPoints "a" (redQueenWinOf penalizedRoom) p)) :=
  have hok : calculateGameResults penalizedRoom "a" =
      .ok ({ penalizedRoom with
              gameHistory :=
                [("a", { totalPoints := 0, gamesPlayed := 2, lastGamePoints := 0, name := "A" }),
                 ("b", { totalPoints := 572, gamesPlayed := 2, lastGamePoints := 286,
                         name := "B" })]
              previousLosers := ["b"] },
        { winner := "A", winnerPoints := 0, elimination := false, eliminatedPlayer := none,
          redQueenWin := true,
          players :=
            [{ id := "a", name := "A", points := 0, totalPoints := none, cards := 0,
               isWinner := true, eliminated := none, redQueenPenalty := false },
             { id := "b", name := "B", points := 286, totalPoints := none, cards := 7,
               isWinner := false, eliminated := none, redQueenPenalty := true }],
          losers := ["B"], maxPoints := 286 }) := by rfl
  ⟨by decide, by decide, _, _, hok, by decide,
    (calculateGameResults_points penalizedRoom "a" _ _ hok (by decide)).2.1⟩

/-- C23: after `calculateGameResults`, with `M` the greatest of the round points
of the seated players (every player has at most `M`, and `M`, if positive, is
the points of some player): `previousLosers` lists, in seat order, exactly the
seated players whose round points equal `M`, provided `M > 0`, and is empty when
every player has 0 points; and a winner whose hand is empty is not among them. -/
theorem calculateGameResults_losers (r : GameRoom) (w : String) (r1 : GameRoom)
    (res : GameResults) (h : calculateGameResults r w = .ok (r1, res)) :
    (∀ p ∈ r.players, roundPoints w (redQueenWinOf r) p ≤ res.maxPoints) ∧
      (0 < res.maxPoints →
        ∃ p ∈ r.players, roundPoints w (redQueenWinOf r) p = res.maxPoints) ∧
      r1.previousLosers =
        (r.players.filter (fun p => decide (roundPoints w (redQueenWinOf r) p = res.maxPoints ∧
          0 < roundPoints w (redQueenWinOf r) p))).map (fun p => p.id) ∧
      (∀ playerId, playerId ∈ r1.previousLosers ↔
        ∃ p ∈ r.players, p.id = playerId ∧
          roundPoints w (redQueenWinOf r) p = res.maxPoints ∧ 0 < res.maxPoints) ∧
      ((∀ p ∈ r.players, roundPoints w (redQueenWinOf r) p = 0) → r1.previousLosers = []) ∧
      ((∀ p ∈ r.players, p.id = w → p.hand = []) → w ∉ r1.previousLosers) := by
  obtain ⟨_, hlosers, _, hmax, _⟩ := calculateGameResults_fields r w r1 res h
  obtain ⟨_, _, f3, f4, f5⟩ := scoreFold_spec w (redQueenWinOf r) r.gameHistory r.players
  rw [← hmax] at f3 f4 f5
  rw [← hlosers] at f5
  have hmem : ∀ playerId, playerId ∈ r1.previousLosers ↔
      ∃ p ∈ r.players, p.id = playerId ∧
        roundPoints w (redQueenWinOf r) p = res.maxPoints ∧ 0 < res.maxPoints := by
    intro playerId
    rw [f5, List.mem_map]
    constructor
    · rintro ⟨p, hp, hid⟩
      rw [List.mem_filter] at hp
      have hc : roundPoints w (redQueenWinOf r) p = res.maxPoints ∧
          0 < roundPoints w (redQueenWinOf r) p := by simpa using hp.2
      exact ⟨p, hp.1, hid, hc.1, by rw [← hc.1]; exact hc.2⟩
    · rintro ⟨p, hp, hid, heq, hpos⟩
      refine ⟨p, ?_, hid⟩
      rw [List.mem_filter]
      exact ⟨hp, by simpa using ⟨heq, by rw [heq]; exact hpos⟩⟩
  refine ⟨f3, f4, f5, hmem, ?_, ?_⟩
  · intro hzero
    rw [List.eq_nil_iff_forall_not_mem]
    intro playerId hin
    obtain ⟨p, hp, _, heq, hpos⟩ := (hmem playerId).mp hin
    rw [hzero p hp] at heq
    omega
  · intro hempty hin
    obtain ⟨p, hp, hid, heq, hpos⟩ := (hmem w).mp hin
    have hz : roundPoints w (redQueenWinOf r) p = 0 := by
      unfold roundPoints
      have hc : ¬ (redQueenWinOf r = true ∧ p.id ≠ w) := fun hc => hc.2 hid
      rw [if_neg hc, hempty p hp hid]
      rfl
    omega

/-- C23, at a concrete input: in `finishedRoom` the winner `a` holds no card and
`b` holds 15 points; after scoring, `previousLosers` is `b` alone. -/
theorem calculateGameResults_losers_witness :
    ∃ r1 res, calculateGameResults finishedRoom "a" = .ok (r1, res) ∧
      res.maxPoints = 15 ∧ r1.previousLosers = ["b"] ∧
      r1.previousLosers =
        (finishedRoom.players.filter
          (fun p => decide (roundPoints "a" (redQueenWinOf finishedRoom) p = res.maxPoints ∧
            0 < roundPoints "a" (redQueenWinOf finishedRoom) p))).map (fun p => p.id) :=
  have hok : calculateGameResults finishedRoom "a" =
      .ok ({ finishedRoom with
              gameHistory :=
                [("a", { totalPoints := 0, gamesPlayed := 2, lastGamePoints := 0, name := "A" }),
                 ("b", { totalPoints := 30, gamesPlayed := 2, lastGamePoints := 15,
                         name := "B" })]
              previousLosers := ["b"] },
        { winner := "A", winnerPoints := 0, elimination := false, eliminatedPlayer := none,
          redQueenWin := false,
          players :=
            [{ id := "a", name := "A", points := 0, totalPoints := none, cards := 0,
               isWinner := true, eliminated := none, redQueenPenalty := false },
             { id := "b", name := "B", points := 15, totalPoints := none, cards := 7,
               isWinner := false, eliminated := none, redQueenPenalty := false }],
          losers := ["B"], maxPoints := 15 }) := by rfl
  ⟨_, _, hok, rfl, rfl, (calculateGameResults_losers finishedRoom "a" _ _ hok).2.2.1⟩

/-! ## Card points -/

/-- C32: `getCardPoints` is the reference table. The King of spades is worth 50
and the Queen of hearts 40; every other card is worth what its value says,
whatever its suit: 7, 8, 9 and 10 for the cards of those values, 1 for a Jack,
2 for a King, 20 for a Queen and 11 for an Ace. The 32 cards of the deck are
listed with their points. And `calculatePlayerScore` of a hand is the sum of
`getCardPoints` over its cards, 0 for the empty hand. -/
theorem getCardPoints_table (card : Card) (hand : List Card) :
    (card.value = "K" ∧ card.suit = "spades" → getCardPoints card = 50) ∧
      (card.value = "Q" ∧ card.suit = "hearts" → getCardPoints card = 40) ∧
      (¬ (card.value = "K" ∧ card.suit = "spades") →
        ¬ (card.value = "Q" ∧ card.suit = "hearts") →
        (card.value = "7" → getCardPoints card = 7) ∧
          (card.value = "8" → getCardPoints card = 8) ∧
          (card.value = "9" → getCardPoints card = 9) ∧
          (card.value = "10" → getCardPoints card = 10) ∧
          (card.value = "J" → getCardPoints card = 1) ∧
          (card.value = "K" → getCardPoints card = 2) ∧
          (card.value = "Q" → getCardPoints card = 20) ∧
          (card.value = "A" → getCardPoints card = 11)) ∧
      unshuffledDeck.map (fun c => (c.suit, c.value, getCardPoints c)) =
        [("hearts", "7", 7), ("hearts", "8", 8), ("hearts", "9", 9), ("hearts", "10", 10),
         ("hearts", "J", 1), ("hearts", "Q", 40), ("hearts", "K", 2), ("hearts", "A", 11),
         ("diamonds", "7", 7), ("diamonds", "8", 8), ("diamonds", "9", 9),
         ("diamonds", "10", 10), ("diamonds", "J", 1), ("diamonds", "Q", 20),
         ("diamonds", "K", 2), ("diamonds", "A", 11),
         ("clubs", "7", 7), ("clubs", "8", 8), ("clubs", "9", 9), ("clubs", "10", 10),
         ("clubs", "J", 1), ("clubs", "Q", 20), ("clubs", "K", 2), ("clubs", "A", 11),
         ("spades", "7", 7), ("spades", "8", 8), ("spades", "9", 9), ("spades", "10", 10),
         ("spades", "J", 1), ("spades", "Q", 20), ("spades", "K", 50), ("spades", "A", 11)] ∧
      calculatePlayerScore hand = (hand.map getCardPoints).sum ∧
      calculatePlayerScore [] = 0 := by
  refine ⟨?_, ?_, ?_, by decide, calculatePlayerScore_eq_sum hand, rfl⟩
  · intro h
    unfold getCardPoints
    rw [if_pos h]
  · intro h
    have hk : ¬ (card.value = "K" ∧ card.suit = "spades") := by
      rintro ⟨hv, _⟩
      rw [h.1] at hv
      exact absurd hv (by decide)
    unfold getCardPoints
    rw [if_neg hk, if_pos h]
  · intro hk hq
    unfold getCardPoints
    rw [if_neg hk, if_neg hq]
    refine ⟨?_, ?_, ?_, ?_, ?_, ?_, ?_, ?_⟩ <;> intro hv <;> rw [hv] <;> rfl

/-- C32, at a concrete input: the King of hearts is neither the King of spades
nor the Queen of hearts and is worth 2. -/
theorem getCardPoints_table_witness :
    getCardPoints (cardOf "hearts" "K") = 2 :=
  ((getCardPoints_table (cardOf "hearts" "K") []).2.2.1 (by decide)
    (by decide)).2.2.2.2.2.1 (by decide)


/-! ## Shuffling -/

theorem swapAt_perm (shuffled : List Card) (i j : Nat) :
    (swapAt shuffled i j).Perm shuffled := by
  unfold swapAt
  cases hi : shuffled[i]? with
  | none => exact List.Perm.refl _
  | some atI =>
    cases hj : shuffled[j]? with
    | none => exact List.Perm.refl _
    | some atJ =>
      obtain ⟨hil, hie⟩ := List.getElem?_eq_some_iff.mp hi
      obtain ⟨hjl, hje⟩ := List.getElem?_eq_some_iff.mp hj
      rw [List.perm_iff_count]
      intro c
      have hjl2 : j < (shuffled.set i atJ).length := by simpa using hjl
      have hget : (shuffled.set i atJ)[j] = atJ := by
        rw [List.getElem_set]
        split
        · rfl
        · exact hje
      have hmem : atI ∈ shuffled := by
        rw [← hie]
        exact List.getElem_mem hil
      have hpos : atI = c → 0 < List.count c shuffled := by
        intro hc
        rw [← hc]
        exact List.count_pos_iff.mpr hmem
      show List.count c ((shuffled.set i atJ).set j atI) = List.count c shuffled
      rw [List.count_set _ _ _ _ hjl2, List.count_set _ _ _ _ hil, hget, hie]
      by_cases h1 : atI = c <;> by_cases h2 : atJ = c <;> simp [h1, h2]
      · have := hpos h1
        omega
      · have := hpos h1
        omega

theorem shuffleLoop_perm (choice : Nat → Nat) (n : Nat) (shuffled : List Card) :
    (shuffleLoop choice n shuffled).Perm shuffled := by
  induction n generalizing shuffled with
  | zero => exact List.Perm.refl _
  | succ i ih =>
    unfold shuffleLoop
    exact (ih _).trans (swapAt_perm _ _ _)

theorem isDeck_of_perm (deck1 deck2 : List Card) (h : deck1.Perm deck2)
    (hd : isDeck deck2 = true) : isDeck deck1 = true := by
  unfold isDeck at hd ⊢
  rw [h.length_eq]
  have hc : ∀ suit value,
      deck1.countP (fun c => decide (c.suit = suit ∧ c.value = value)) =
        deck2.countP (fun c => decide (c.suit = suit ∧ c.value = value)) :=
    fun suit value => h.countP_eq _
  simp only [hc]
  exact hd

theorem isDeck_enumeration (uuid : String → String → String) :
    isDeck (SUITS.flatMap (fun suit =>
      VALUES.map (fun value => { suit := suit, value := value, id := uuid suit value }))) =
      true := by
  simp [isDeck, SUITS, VALUES, List.flatMap, List.countP_cons]

/-- C33: for every outcome `choice` of the random choices, `shuffleDeck` returns
a permutation of its argument: the same cards with the same multiplicities, so
the same length (the argument itself is never written to: the source shuffles
the copy `[...deck]`). Hence `createDeck`, for every outcome of `uuidv4` as
well, returns exactly 32 cards holding each of the 4 x 8 pairs of a suit and a
value exactly once. -/
theorem shuffleDeck_perm (deck : List Card) (choice : Nat → Nat)
    (uuid : String → String → String) :
    (shuffleDeck deck choice).Perm deck ∧
      (∀ c, (shuffleDeck deck choice).count c = deck.count c) ∧
      (shuffleDeck deck choice).length = deck.length ∧
      (createDeck uuid choice).length = 32 ∧
      (∀ suit ∈ SUITS, ∀ value ∈ VALUES,
        (createDeck uuid choice).countP (fun c => decide (c.suit = suit ∧ c.value = value)) =
          1) ∧
      isDeck (createDeck uuid choice) = true := by
  have hperm : ∀ d, (shuffleDeck d choice).Perm d := fun d => shuffleLoop_perm choice _ d
  have hdeck : isDeck (createDeck uuid choice) = true :=
    isDeck_of_perm _ _ (hperm _) (isDeck_enumeration uuid)
  refine ⟨hperm deck, fun c => (hperm deck).count_eq c, (hperm deck).length_eq, ?_, ?_, hdeck⟩
  · unfold isDeck at hdeck
    simp only [Bool.and_eq_true, decide_eq_true_eq] at hdeck
    exact hdeck.1
  · intro suit hs value hv
    unfold isDeck at hdeck
    simp only [Bool.and_eq_true, decide_eq_true_eq, List.all_eq_true] at hdeck
    exact hdeck.2 suit hs value hv


/-- C33, at a concrete input: when every random choice is 0 the shuffle of three
cards is another order of the same three cards, and the deck created with these
choices is a deck of 32 cards. -/
theorem shuffleDeck_perm_witness :
    shuffleDeck [cardOf "hearts" "7", cardOf "hearts" "8", cardOf "hearts" "9"] (fun _ => 0) =
        [cardOf "hearts" "8", cardOf "hearts" "9", cardOf "hearts" "7"] ∧
      (shuffleDeck [cardOf "hearts" "7", cardOf "hearts" "8", cardOf "hearts" "9"]
        (fun _ => 0)).Perm [cardOf "hearts" "7", cardOf "hearts" "8", cardOf "hearts" "9"] ∧
      (createDeck (fun suit value => suit ++ "-" ++ value) (fun _ => 0)).length = 32 :=
  ⟨by decide,
    (shuffleDeck_perm [cardOf "hearts" "7", cardOf "hearts" "8", cardOf "hearts" "9"]
      (fun _ => 0) (fun suit value => suit ++ "-" ++ value)).1,
    (shuffleDeck_perm [] (fun _ => 0) (fun suit value => suit ++ "-" ++ value)).2.2.2.1⟩

/-! ## What the views show -/

/-- What the snapshot shows of a player. -/
theorem getPlayer_view (ps1 ps2 : List Player) (playerId : String)
    (h : ps1.map (fun p => (p.id, p.name, p.hand.length, p.connected)) =
      ps2.map (fun p => (p.id, p.name, p.hand.length, p.connected))) :
    (getPlayer ps1 playerId).map (fun p => (p.name, p.hand.length, p.connected)) =
      (getPlayer ps2 playerId).map (fun p => (p.name, p.hand.length, p.connected)) := by
  induction ps1 generalizing ps2 with
  | nil =>
    cases ps2 with
    | nil => rfl
    | cons q qs => simp at h
  | cons p ps ih =>
    cases ps2 with
    | nil => simp at h
    | cons q qs =>
      simp only [List.map_cons, List.cons.injEq, Prod.mk.injEq] at h
      obtain ⟨⟨hid, hname, hlen, hconn⟩, htail⟩ := h
      unfold getPlayer
      simp only [List.find?_cons]
      by_cases hp : p.id = playerId
      · have hq : q.id = playerId := by rw [← hid]; exact hp
        simp [hp, hq, hname, hlen, hconn]
      · have hq : ¬ q.id = playerId := by rw [← hid]; exact hp
        simp only [hp, hq, decide_False]
        exact ih qs htail

/-- The players of the snapshot are the seated players, in seat order. -/
theorem getGameState_ids (r : GameRoom) :
    (getGameState r).players.map (fun p => p.id) = playerIds r := by
  have key : ∀ ids : List String, (∀ id ∈ ids, id ∈ playerIds r) →
      (ids.filterMap (fun id =>
        (getPlayer r.players id).map (fun player =>
          ({ id := id, name := player.name, handSize := player.hand.length,
             connected := player.connected } : PlayerView)))).map (fun p => p.id) = ids := by
    intro ids
    induction ids with
    | nil => intro _; rfl
    | cons id rest ih =>
      intro hall
      obtain ⟨player, hplayer⟩ := Option.isSome_iff_exists.mp
        ((getPlayer_isSome_iff r.players id).mpr (hall id (List.mem_cons_self _ _)))
      rw [List.filterMap_cons]
      simp only [hplayer, Option.map_some', List.map_cons]
      rw [ih (fun x hx => hall x (List.mem_cons_of_mem _ hx))]
  exact key (playerIds r) (fun _ h => h)

/-- C34: the snapshot of `getGameState` depends on the hands only through their
sizes: two rooms that differ only in their players, and whose players agree,
seat by seat, on id, name, number of cards in hand and connection flag, have
the same snapshot. And `getPlayerHand(p)` is the hand stored under `p` (empty
when `p` is not seated): two rooms in which that hand is the same give the same
answer, whatever the other hands are. -/
theorem getGameState_hides_hands (r : GameRoom) (players : List Player) (playerId : String) :
    (players.map (fun p => (p.id, p.name, p.hand.length, p.connected)) =
        r.players.map (fun p => (p.id, p.name, p.hand.length, p.connected)) →
      getGameState { r with players := players } = getGameState r) ∧
      getPlayerHand r playerId = ((getPlayer r.players playerId).map (fun p => p.hand)).getD [] ∧
      ((getPlayer players playerId).map (fun p => p.hand) =
          (getPlayer r.players playerId).map (fun p => p.hand) →
        getPlayerHand { r with players := players } playerId = getPlayerHand r playerId) := by
  refine ⟨?_, ?_, ?_⟩
  · intro h
    have hids : players.map (fun p => p.id) = r.players.map (fun p => p.id) := by
      have := congrArg (List.map (fun t : String × String × Nat × Bool => t.1)) h
      simpa [List.map_map, Function.comp] using this
    have hview : ∀ id,
        (getPlayer players id).map (fun player =>
          ({ id := id, name := player.name, handSize := player.hand.length,
             connected := player.connected } : PlayerView)) =
        (getPlayer r.players id).map (fun player =>
          ({ id := id, name := player.name, handSize := player.hand.length,
             connected := player.connected } : PlayerView)) := by
      intro id
      have hv := getPlayer_view players r.players id h
      cases h1 : getPlayer players id with
      | none =>
        cases h2 : getPlayer r.players id with
        | none => rfl
        | some p2 => simp [h1, h2] at hv
      | some p1 =>
        cases h2 : getPlayer r.players id with
        | none => simp [h1, h2] at hv
        | some p2 =>
          simp only [h1, h2, Option.map_some', Option.some.injEq, Prod.mk.injEq] at hv
          simp [hv.1, hv.2.1, hv.2.2]
    unfold getGameState playerIds
    simp only [hids, hview]
  · unfold getPlayerHand
    cases getPlayer r.players playerId <;> rfl
  · intro h
    unfold getPlayerHand
    cases h1 : getPlayer players playerId with
    | none =>
      cases h2 : getPlayer r.players playerId with
      | none => simp [h1]
      | some p2 => simp [h1, h2] at h
    | some p1 =>
      cases h2 : getPlayer r.players playerId with
      | none => simp [h1, h2] at h
      | some p2 =>
        simp only [h1, h2, Option.map_some', Option.some.injEq] at h
        simp [h1, h]

/-- C34, at a concrete input: `openedRoom` with the hands of `a` and `b`
exchanged has the snapshot of `openedRoom`, while `getPlayerHand` tells the two
rooms apart. -/
theorem getGameState_hides_hands_witness :
    getGameState
        { openedRoom with players := setHand (setHand openedRoom.players "a"
            (getPlayerHand openedRoom "b")) "b" (getPlayerHand openedRoom "a") } =
        getGameState openedRoom ∧
      getPlayerHand
        { openedRoom with players := setHand (setHand openedRoom.players "a"
            (getPlayerHand openedRoom "b")) "b" (getPlayerHand openedRoom "a") } "a" ≠
        getPlayerHand openedRoom "a" :=
  ⟨(getGameState_hides_hands openedRoom
      (setHand (setHand openedRoom.players "a" (getPlayerHand openedRoom "b")) "b"
        (getPlayerHand openedRoom "a")) "a").1 (by decide), by decide⟩

/-! ## The hint of the client -/

/-- C40: the hint predicate of the client agrees with the validator of the
server. For every room in which a started round has a non-empty discard pile,
every player id `p` and every card `c`, the server's `canPlayCard(p, c)` returns
(it raises nothing), and what it returns is what `PrsiGame.canPlayCard(c)`
returns on the snapshot `getGameState()` with socket id `p`. -/
theorem client_canPlayCard_agrees (r : GameRoom) (playerId : String) (card : Card)
    (h : r.gameState.started = true → r.gameState.playedCards ≠ []) :
    canPlayCard r playerId card =
      some (PrsiGame.canPlayCard (some (getGameState r)) playerId card) := by
  have hturn : ((if 0 ≤ (getGameState r).currentPlayer then
      (getGameState r).players[(getGameState r).currentPlayer.toNat]? else none).map
        (fun p => p.id)) = idAt (playerIds r) r.gameState.currentPlayer := by
    unfold idAt
    rw [← getGameState_ids r]
    show (if 0 ≤ r.gameState.currentPlayer then
      (getGameState r).players[r.gameState.currentPlayer.toNat]? else none).map
        (fun p => p.id) = _
    split
    · rw [List.getElem?_map]
    · rfl
  unfold PrsiGame.canPlayCard canPlayCard
  simp only [hturn]
  dsimp only [getGameState]
  by_cases hs : r.gameState.started = false
  · simp only [hs, ↓reduceIte]
  · have hst : r.gameState.started = true := by simpa using hs
    simp only [hst, Bool.true_eq_false, ↓reduceIte]
    by_cases hc : idAt (playerIds r) r.gameState.currentPlayer ≠ some playerId
    · rw [if_pos hc, if_pos hc]
    · have hcur : idAt (playerIds r) r.gameState.currentPlayer = some playerId := by
        simpa using hc
      rw [if_neg hc, if_neg hc]
      cases htop : r.gameState.playedCards.getLast? with
      | none => exact absurd (List.getLast?_eq_none_iff.mp htop) (h hst)
      | some topCard =>
        dsimp only
        split_ifs <;> rfl

/-- C40, at a concrete input: in `openedRoom`, where the King of clubs is the top
card and the current suit is clubs, both predicates accept the King of spades
from `a` and both refuse the Jack of spades from `b`, who is not at turn. -/
theorem client_canPlayCard_agrees_witness :
    canPlayCard openedRoom "a" (cardOf "spades" "K") = some true ∧
      PrsiGame.canPlayCard (some (getGameState openedRoom)) "a" (cardOf "spades" "K") = true ∧
      PrsiGame.canPlayCard (some (getGameState openedRoom)) "b" jackOfSpades = false ∧
      canPlayCard openedRoom "b" jackOfSpades =
        some (PrsiGame.canPlayCard (some (getGameState openedRoom)) "b" jackOfSpades) :=
  ⟨by decide, by decide, by decide,
    client_canPlayCard_agrees openedRoom "b" jackOfSpades (fun _ => by decide)⟩


/-! ## A deal that leaves no neutral card -/

theorem fullLobby_reachable : Reachable fullLobby :=
  Reachable.step _ (.addPlayer "d" "D")
    (Reachable.step _ (.addPlayer "c" "C")
      (Reachable.step _ (.addPlayer "b" "B")
        (Reachable.step _ (.addPlayer "a" "A") (Reachable.fresh "room") rfl) rfl) rfl) rfl

/-- C35, the code at the failing input: four players join a fresh room and `a`
starts the first round on `starvedDeck`, a deck of the 32 cards. Nobody is
eliminated: each player is dealt 4 cards, and the 16 cards dealt hold all 15
neutral cards. The 16 cards left in the deck are all special, so the search for
the first discard pops them all and then pops from the empty deck: `startGame`
raises instead of returning, and leaves the room with the round not started,
an empty deck and an empty discard pile. -/
theorem startGame_runs_out_of_deck :
    Reachable fullLobby ∧ fullLobby.players.length = 4 ∧ isDeck starvedDeck = true ∧
      (dealLoop fullLobby (playerIds fullLobby) fullLobby.players starvedDeck).2.2 = none ∧
      (dealLoop fullLobby (playerIds fullLobby) fullLobby.players starvedDeck).1.map
          (fun p => (p.id, p.hand.length)) = [("a", 4), ("b", 4), ("c", 4), ("d", 4)] ∧
      (dealLoop fullLobby (playerIds fullLobby) fullLobby.players starvedDeck).2.1.all
          notNeutral = true ∧
      popFirstCard
          (dealLoop fullLobby (playerIds fullLobby) fullLobby.players starvedDeck).2.1.reverse =
        none ∧
      (startGame fullLobby "a" starvedDeck 0).value? = none ∧
      (startGame fullLobby "a" starvedDeck 0).room.gameState.started = false ∧
      (startGame fullLobby "a" starvedDeck 0).room.gameState.gameResults = none ∧
      (startGame fullLobby "a" starvedDeck 0).room.gameState.deck = [] ∧
      (startGame fullLobby "a" starvedDeck 0).room.gameState.playedCards = [] :=
  ⟨fullLobby_reachable, by decide, by decide, by decide, by decide, by decide, by decide,
    by decide, by decide, by decide, by decide, by decide⟩

/-! ## Every way a call of `playCard` can end -/

/-- The room in which any call of `playCard` leaves: untouched, or with the card
moved from the hand to the pile and then either the rejection of a Jack, the end
of the round, or the turn advance. -/
theorem playCard_room_cases (r : GameRoom) (playerId cardId : String)
    (newSuit newValue : Option String) :
    (playCard r playerId cardId newSuit newValue).room = r ∨
      ∃ player cardIndex card,
        getPlayer r.players playerId = some player ∧
        findCard cardId player.hand = some (cardIndex, card) ∧
        canPlayCard r playerId card = some true ∧
        (playCard r playerId cardId newSuit newValue).room.players =
          setHand r.players playerId (player.hand.eraseIdx cardIndex) ∧
        ((applyEffect (pushCard r.gameState card) r.players.length card newSuit newValue =
              none ∧
            (playCard r playerId cardId newSuit newValue).room.gameState =
              pushCard r.gameState card) ∨
          ∃ gs2, applyEffect (pushCard r.gameState card) r.players.length card newSuit
              newValue = some gs2 ∧
            ((card.value = "Q" ∧ ∃ results,
                (playCard r playerId cardId newSuit newValue).room.gameState =
                  { gs2 with winner := some playerId, started := false,
                             gameResults := results }) ∨
              (playCard r playerId cardId newSuit newValue).room.gameState =
                (nextPlayer
                  { r with
                      players := setHand r.players playerId (player.hand.eraseIdx cardIndex)
                      gameState := gs2 }).gameState)) := by
  unfold playCard
  cases hp : getPlayer r.players playerId with
  | none => left; rfl
  | some player =>
    simp only []
    cases hc : findCard cardId player.hand with
    | none => left; rfl
    | some found =>
      obtain ⟨cardIndex, card⟩ := found
      simp only []
      cases htop : r.gameState.playedCards.getLast? with
      | none => left; rfl
      | some top =>
        simp only []
        cases hlegal : canPlayCard r playerId card with
        | none => left; rfl
        | some b =>
          cases b with
          | false => left; rfl
          | true =>
            right
            refine ⟨player, cardIndex, card, rfl, hc, hlegal, ?_⟩
            simp only []
            cases he : applyEffect (pushCard r.gameState card) r.players.length card newSuit
                newValue with
            | none =>
              unfold pushCard at he
              simp only [he]
              exact ⟨rfl, Or.inl ⟨trivial, rfl⟩⟩
            | some gs2 =>
              unfold pushCard at he
              simp only [he]
              by_cases hwin : (player.hand.eraseIdx cardIndex).length = 0 ∧ card.value = "Q"
              · rw [if_pos hwin]
                cases hres : calculateGameResults
                    { r with
                        players := setHand r.players playerId (player.hand.eraseIdx cardIndex)
                        gameState := { gs2 with winner := some playerId, started := false } }
                    playerId with
                | error r4 =>
                  obtain ⟨hgs, hpl⟩ := (calculateGameResults_frame _ playerId).2 r4 hres
                  simp only [Outcome.room]
                  rw [hgs, hpl]
                  exact ⟨rfl, Or.inr ⟨gs2, rfl, Or.inl ⟨hwin.2, gs2.gameResults, rfl⟩⟩⟩
                | ok pr =>
                  obtain ⟨r4, results⟩ := pr
                  obtain ⟨hgs, hpl⟩ := (calculateGameResults_frame _ playerId).1 r4 results hres
                  simp only [Outcome.room]
                  rw [hgs, hpl]
                  exact ⟨rfl, Or.inr ⟨gs2, rfl, Or.inl ⟨hwin.2, some results, rfl⟩⟩⟩
              · rw [if_neg hwin]
                exact ⟨rfl, Or.inr ⟨gs2, rfl, Or.inr rfl⟩⟩


/-- What a legal card is under a draw stack: the Seven of spades on the King of
spades, or the King of spades on the Seven of spades. -/
theorem canPlayCard_true_stack (r : GameRoom) (playerId : String) (card : Card)
    (h : canPlayCard r playerId card = some true) (hds : 0 < r.gameState.drawStack) :
    ∃ top, r.gameState.playedCards.getLast? = some top ∧
      ((top.value = "K" ∧ top.suit = "spades" ∧ card.value = "7" ∧ card.suit = "spades") ∨
        (top.value = "7" ∧ top.suit = "spades" ∧ card.value = "K" ∧ card.suit = "spades")) := by
  obtain ⟨hs, hcur⟩ := canPlayCard_true_imp r playerId card h
  unfold canPlayCard at h
  rw [if_neg (by rw [hs]; decide), if_neg (by simp [hcur])] at h
  cases htop : r.gameState.playedCards.getLast? with
  | none => simp [htop] at h
  | some top =>
    refine ⟨top, rfl, ?_⟩
    simp only [htop] at h
    rw [if_pos hds] at h
    split_ifs at h with h1 h2
    · left
      have hc : card.value = "7" ∧ card.suit = "spades" := by simpa using h
      exact ⟨h1.1, h1.2, hc.1, hc.2⟩
    · right
      have hc : card.value = "K" ∧ card.suit = "spades" := by simpa using h
      exact ⟨h2.1, h2.2, hc.1, hc.2⟩
    · simp at h

/-- What the chain of special cards makes of the game state in which the card
has just been pushed, by the kind of the card. -/
theorem applyEffect_pushCard (gs gs2 : GameState) (playerCount : Nat) (card : Card)
    (newSuit newValue : Option String)
    (h : applyEffect (pushCard gs card) playerCount card newSuit newValue = some gs2) :
    gs2.playedCards = gs.playedCards ++ [card] ∧ gs2.deck = gs.deck ∧
      gs2.started = gs.started ∧ gs2.maxDrawStack = gs.maxDrawStack ∧
      (card.value = "A" →
        gs2.skipNext = true ∧ gs2.drawStack = gs.drawStack ∧ gs2.currentValue = none) ∧
      (card.value = "7" →
        gs2.drawStack = min (gs.drawStack + 2) gs.maxDrawStack ∧
          gs2.lastPlayedWasSpecial = true ∧ gs2.currentValue = none ∧
          gs2.skipNext = gs.skipNext) ∧
      (card.value = "K" ∧ card.suit = "spades" →
        gs2.drawStack = min (gs.drawStack + 5) gs.maxDrawStack ∧
          gs2.lastPlayedWasSpecial = true ∧ gs2.currentValue = none ∧
          gs2.skipNext = gs.skipNext) ∧
      (card.value ≠ "A" → card.value ≠ "7" → ¬ (card.value = "K" ∧ card.suit = "spades") →
        gs2.drawStack = gs.drawStack ∧ gs2.lastPlayedWasSpecial = false ∧
          gs2.skipNext = gs.skipNext ∧
          (card.value ≠ "J" → gs2.currentValue = none) ∧
          (card.value = "J" →
            gs2.currentValue = gs.currentValue ∨
              (gs2.currentValue = newValue ∧ includes validValues newValue = true))) := by
  unfold applyEffect at h
  by_cases hA : card.value = "A"
  · rw [if_pos hA] at h
    injection h with h
    subst h
    have h7 : card.value ≠ "7" := by rw [hA]; decide
    have hK : card.value ≠ "K" := by rw [hA]; decide
    have hJ : card.value ≠ "J" := by rw [hA]; decide
    simp [pushCard, hA, h7, hK, hJ]
  · rw [if_neg hA] at h
    by_cases h7 : card.value = "7"
    · rw [if_pos h7] at h
      injection h with h
      subst h
      have hK : card.value ≠ "K" := by rw [h7]; decide
      have hJ : card.value ≠ "J" := by rw [h7]; decide
      simp [pushCard, hA, h7, hK, hJ]
    · rw [if_neg h7] at h
      by_cases hK : card.value = "K" ∧ card.suit = "spades"
      · rw [if_pos hK] at h
        injection h with h
        subst h
        have hJ : card.value ≠ "J" := by rw [hK.1]; decide
        simp [pushCard, hA, h7, hK, hJ]
      · rw [if_neg hK] at h
        refine ⟨?_, ?_, ?_, ?_, fun hc => absurd hc hA, fun hc => absurd hc h7,
          fun hc => absurd hc hK, fun _ _ _ => ?_⟩
        · split_ifs at h <;> injection h with h <;> subst h <;> rfl
        · split_ifs at h <;> injection h with h <;> subst h <;> rfl
        · split_ifs at h <;> injection h with h <;> subst h <;> rfl
        · split_ifs at h <;> injection h with h <;> subst h <;> rfl
        · by_cases hJ : card.value = "J"
          · have h10 : card.value ≠ "10" := by rw [hJ]; decide
            have hQ : card.value ≠ "Q" := by rw [hJ]; decide
            rw [if_neg (fun hc => h10 hc.1), if_neg (fun hc => hQ hc.1)] at h
            by_cases hv : truthy newValue = true
            · rw [if_pos ⟨hJ, hv⟩] at h
              by_cases hin : includes validValues newValue = true
              · rw [if_pos hin] at h
                injection h with h
                subst h
                exact ⟨rfl, rfl, rfl, fun hc => absurd hJ hc, fun _ => Or.inr ⟨rfl, hin⟩⟩
              · rw [if_neg hin] at h
                cases h
            · rw [if_neg (fun hc => hv hc.2)] at h
              injection h with h
              subst h
              refine ⟨rfl, rfl, rfl, fun hc => absurd hJ hc, fun _ => Or.inl ?_⟩
              simp [pushCard, hJ]
          · have hJ2 : ¬ (card.value = "J" ∧ truthy newValue = true) := fun hc => hJ hc.1
            simp only [hJ2, ↓reduceIte] at h
            split_ifs at h <;> injection h with h <;> subst h <;>
              exact ⟨rfl, rfl, rfl, fun _ => by simp [pushCard, hJ], fun hc => absurd hc hJ⟩

/-- The flag `lastPlayedWasSpecial` after `nextPlayer`: still up only if it was
up and no skip was pending. -/
theorem nextPlayer_flag (r : GameRoom)
    (h : (nextPlayer r).gameState.lastPlayedWasSpecial = true) :
    r.gameState.lastPlayedWasSpecial = true ∧ r.gameState.skipNext = false := by
  unfold nextPlayer at h
  by_cases hs : r.gameState.skipNext = true
  · simp [hs] at h
  · have hf : r.gameState.skipNext = false := by simpa using hs
    simp [hf] at h
    exact ⟨h, hf⟩


/-! ## Every way a call of `startGame` can end -/

/-- The room in which any call of `startGame` leaves: untouched (fewer than two
players), not started with the per-round fields reset (elimination, or the deck
ran out), or started on a first card. -/
theorem startGame_room_cases (r : GameRoom) (initiatorId : String) (deck : List Card)
    (rnd : Nat) :
    (startGame r initiatorId deck rnd).room = r ∨
      ((startGame r initiatorId deck rnd).room.gameState.started = false ∧
        (startGame r initiatorId deck rnd).room.gameState.drawStack = 0 ∧
        (startGame r initiatorId deck rnd).room.gameState.lastPlayedWasSpecial = false ∧
        (startGame r initiatorId deck rnd).room.gameState.currentValue = none) ∨
      (2 ≤ r.players.length ∧
        (dealLoop r (playerIds r) r.players deck).2.2 = none ∧
        ∃ firstCard below,
          popFirstCard (dealLoop r (playerIds r) r.players deck).2.1.reverse =
            some (firstCard, below) ∧
          (startGame r initiatorId deck rnd).room =
            { dealtRoom r initiatorId deck rnd with
                gameState :=
                  { (dealtRoom r initiatorId deck rnd).gameState with
                      deck := below.reverse
                      playedCards := [firstCard]
                      currentSuit := some firstCard.suit
                      started := true } }) := by
  by_cases hn : r.players.length < 2
  · left
    unfold startGame
    rw [if_pos hn]
    rfl
  · right
    have hn2 : 2 ≤ r.players.length := by omega
    rw [startGame_eq r initiatorId deck rnd hn2]
    cases hd : (dealLoop r (playerIds r) r.players deck).2.2 with
    | some eliminatedPlayer =>
      left
      dsimp only
      cases hres : calculateEliminationResults
          { dealtRoom r initiatorId deck rnd with
              gameState :=
                { (dealtRoom r initiatorId deck rnd).gameState with
                    winner := some eliminatedPlayer, started := false } }
          eliminatedPlayer with
      | error r3 =>
        have hgs := ((calculateEliminationResults_frame _ _).2 r3 hres).1
        simp only [Outcome.room]
        rw [hgs]
        exact ⟨rfl, rfl, rfl, rfl⟩
      | ok pr =>
        obtain ⟨r3, results⟩ := pr
        have hgs := ((calculateEliminationResults_frame _ _).1 r3 results hres).1
        simp only [Outcome.room]
        rw [hgs]
        exact ⟨rfl, rfl, rfl, rfl⟩
    | none =>
      dsimp only
      cases hpop : popFirstCard (dealtRoom r initiatorId deck rnd).gameState.deck.reverse with
      | none =>
        left
        exact ⟨rfl, rfl, rfl, rfl⟩
      | some found =>
        obtain ⟨firstCard, below⟩ := found
        right
        exact ⟨hn2, rfl, firstCard, below, hpop, rfl⟩

theorem reshuffleDiscardPile_fields (r : GameRoom) :
    (reshuffleDiscardPile r).2.players = r.players ∧
      (reshuffleDiscardPile r).2.gameState.playedCards.getLast? =
        r.gameState.playedCards.getLast? ∧
      (reshuffleDiscardPile r).2.gameState.started = r.gameState.started ∧
      (reshuffleDiscardPile r).2.gameState.drawStack = r.gameState.drawStack ∧
      (reshuffleDiscardPile r).2.gameState.lastPlayedWasSpecial =
        r.gameState.lastPlayedWasSpecial ∧
      (reshuffleDiscardPile r).2.gameState.currentValue = r.gameState.currentValue ∧
      ((reshuffleDiscardPile r).2.gameState.deck ++
          (reshuffleDiscardPile r).2.gameState.playedCards).Perm
        (r.gameState.deck ++ r.gameState.playedCards) := by
  unfold reshuffleDiscardPile
  split_ifs with h
  · refine ⟨rfl, ?_, rfl, rfl, rfl, rfl, ?_⟩
    · simp [List.getLast?_eq_getLast _ (List.ne_nil_of_length_pos (by omega :
        0 < r.gameState.playedCards.length))]
    · dsimp only
      have hne : r.gameState.playedCards ≠ [] := List.ne_nil_of_length_pos (by omega)
      rw [List.append_assoc]
      refine List.Perm.append_left _ ?_
      have hsplit := List.dropLast_append_getLast hne
      have h1 : (r.gameState.playedCards.dropLast.reverse ++
          [r.gameState.playedCards.getLast hne]).Perm
          (r.gameState.playedCards.dropLast ++ [r.gameState.playedCards.getLast hne]) :=
        List.Perm.append_right _ (List.reverse_perm _)
      rw [hsplit] at h1
      exact h1
  · exact ⟨rfl, rfl, rfl, rfl, rfl, rfl, List.Perm.refl _⟩

/-! ## The top of the pile between two calls -/

theorem pileInvariant_of_frame (gs gs2 : GameState)
    (htop : gs2.playedCards.getLast? = gs.playedCards.getLast?)
    (hstarted : gs2.started = true → gs.started = true)
    (hds : gs2.drawStack = gs.drawStack ∨ gs2.drawStack = 0)
    (hflag : gs2.lastPlayedWasSpecial = true → gs.lastPlayedWasSpecial = true)
    (hval : gs2.currentValue = gs.currentValue)
    (h : pileInvariant gs) : pileInvariant gs2 := by
  obtain ⟨h1, h2, h3⟩ := h
  refine ⟨?_, ?_, ?_⟩
  · intro hs
    rw [htop]
    exact h1 (hstarted hs)
  · intro hc
    rw [htop]
    apply h2
    rcases hc with hc | hc
    · rcases hds with hds | hds
      · left
        rw [← hds]
        exact hc
      · omega
    · exact Or.inr (hflag hc)
  · intro v hv
    rw [hval] at hv
    obtain ⟨a, b, c⟩ := h3 v hv
    rw [htop]
    refine ⟨a, ?_, c⟩
    rcases hds with hds | hds
    · rw [hds]
      exact b
    · exact hds

theorem pileInvariant_reset (gs : GameState)
    (hstarted : gs.started = true → ∃ top, gs.playedCards.getLast? = some top)
    (hds : gs.drawStack = 0) (hflag : gs.lastPlayedWasSpecial = false)
    (hval : gs.currentValue = none) : pileInvariant gs := by
  refine ⟨hstarted, ?_, ?_⟩
  · rintro (hc | hc)
    · omega
    · rw [hflag] at hc
      cases hc
  · intro v hv
    rw [hval] at hv
    cases hv

/-- The top of the pile after a legal card has gone through the chain of special
cards, in any game state that differs from the result only as the end of the
round or the turn advance make it differ. -/
theorem pileInvariant_effect (r : GameRoom) (playerId : String) (card : Card)
    (newSuit newValue : Option String) (gs2 gs3 : GameState)
    (hinv : pileInvariant r.gameState)
    (hlegal : canPlayCard r playerId card = some true)
    (he : applyEffect (pushCard r.gameState card) r.players.length card newSuit newValue =
      some gs2)
    (hpile : gs3.playedCards = gs2.playedCards) (hds : gs3.drawStack = gs2.drawStack)
    (hval : gs3.currentValue = gs2.currentValue)
    (hflag : gs3.lastPlayedWasSpecial = true →
      gs2.lastPlayedWasSpecial = true ∧ gs2.skipNext = false) :
    pileInvariant gs3 := by
  obtain ⟨e1, _, _, _, eA, e7, eK, eO⟩ := applyEffect_pushCard _ _ _ _ _ _ he
  have htop : gs3.playedCards.getLast? = some card := by
    rw [hpile, e1]
    simp
  have hstack : 0 < r.gameState.drawStack →
      (card.value = "7" ∨ (card.value = "K" ∧ card.suit = "spades")) := by
    intro hpos
    obtain ⟨top, _, hc | hc⟩ := canPlayCard_true_stack r playerId card hlegal hpos
    · exact Or.inl hc.2.2.1
    · exact Or.inr ⟨hc.2.2.1, hc.2.2.2⟩
  refine ⟨fun _ => ⟨card, htop⟩, ?_, ?_⟩
  · intro hc
    refine ⟨card, htop, ?_⟩
    by_cases h7 : card.value = "7"
    · exact Or.inl h7
    · by_cases hK : card.value = "K" ∧ card.suit = "spades"
      · exact Or.inr hK
      · exfalso
        by_cases hA : card.value = "A"
        · obtain ⟨a1, a2, _⟩ := eA hA
          rcases hc with hc | hc
          · rw [hds, a2] at hc
            rcases hstack hc with h | h
            · exact h7 h
            · exact hK h
          · have := (hflag hc).2
            rw [a1] at this
            cases this
        · obtain ⟨o1, o2, _⟩ := eO hA h7 hK
          rcases hc with hc | hc
          · rw [hds, o1] at hc
            rcases hstack hc with h | h
            · exact h7 h
            · exact hK h
          · have := (hflag hc).1
            rw [o2] at this
            cases this
  · intro v hv
    rw [hval] at hv
    by_cases hA : card.value = "A"
    · rw [(eA hA).2.2] at hv
      cases hv
    · by_cases h7 : card.value = "7"
      · rw [(e7 h7).2.2.1] at hv
        cases hv
      · by_cases hK : card.value = "K" ∧ card.suit = "spades"
        · rw [(eK hK).2.2.1] at hv
          cases hv
        · obtain ⟨o1, _, _, o4, o5⟩ := eO hA h7 hK
          by_cases hJ : card.value = "J"
          · have hzero : r.gameState.drawStack = 0 := by
              by_contra hne
              rcases hstack (Nat.pos_of_ne_zero hne) with h | h
              · exact h7 h
              · exact hK h
            have hds0 : gs3.drawStack = 0 := by rw [hds, o1, hzero]
            refine ⟨?_, hds0, card, htop, hJ⟩
            rcases o5 hJ with h | ⟨h, hin⟩
            · rw [h] at hv
              exact (hinv.2.2 v hv).1
            · rw [h] at hv
              rw [hv] at hin
              simpa [includes] using hin
          · rw [o4 hJ] at hv
            cases hv

/-- In every reachable room the facts of `pileInvariant` hold. -/
theorem reachable_pile (r : GameRoom) (h : Reachable r) : pileInvariant r.gameState := by
  induction h with
  | fresh roomId =>
    exact pileInvariant_reset _ (fun hs => by cases hs) rfl rfl rfl
  | step r op hr _ ih =>
    cases op with
    | addPlayer playerId playerName =>
      have : (step r (.addPlayer playerId playerName)).gameState = r.gameState := by
        simp only [step, addPlayer]
        split_ifs <;> rfl
      rw [this]
      exact ih
    | removePlayer playerId => exact ih
    | startGame initiatorId deck rnd =>
      simp only [step]
      rcases startGame_room_cases r initiatorId deck rnd with
        h | ⟨h1, h2, h3, h4⟩ | ⟨_, _, firstCard, below, _, h⟩
      · rw [h]
        exact ih
      · exact pileInvariant_reset _ (fun hs => by rw [h1] at hs; cases hs) h2 h3 h4
      · rw [h]
        exact pileInvariant_reset _ (fun _ => ⟨firstCard, rfl⟩) rfl rfl rfl
    | playCard playerId cardId newSuit newValue =>
      simp only [step]
      rcases playCard_room_cases r playerId cardId newSuit newValue with
        h | ⟨player, cardIndex, card, _, _, hlegal, _, hcase⟩
      · rw [h]
        exact ih
      · rcases hcase with ⟨he, hgs⟩ | ⟨gs2, he, hgs⟩
        · rw [hgs]
          have hJ : card.value = "J" := by
            by_contra hJ
            unfold applyEffect at he
            split_ifs at he with c1 c2 c3 c4 c5 c6 c7
            exact hJ c6.1
          have hzero : r.gameState.drawStack = 0 := by
            by_contra hne
            obtain ⟨top, _, hc | hc⟩ :=
              canPlayCard_true_stack r playerId card hlegal (Nat.pos_of_ne_zero hne)
            · rw [hJ] at hc
              exact absurd hc.2.2.1 (by decide)
            · rw [hJ] at hc
              exact absurd hc.2.2.1 (by decide)
          refine ⟨fun _ => ⟨card, by simp [pushCard]⟩, ?_, ?_⟩
          · rintro (hc | hc)
            · have : (pushCard r.gameState card).drawStack = r.gameState.drawStack := rfl
              omega
            · cases hc
          · intro v hv
            have hpc : (pushCard r.gameState card).currentValue = r.gameState.currentValue := by
              simp [pushCard, hJ]
            rw [hpc] at hv
            exact ⟨(ih.2.2 v hv).1, hzero, card, by simp [pushCard], hJ⟩
        · rcases hgs with ⟨hQ, results, hgs⟩ | hgs
          · rw [hgs]
            have hskip : gs2.skipNext = false := by
              have hA : card.value ≠ "A" := by rw [hQ]; decide
              rw [(applyEffect_frame _ _ _ _ _ _ he).2.2.2.1 hA]
              exact (reachable_fields r hr).2.2.1
            exact pileInvariant_effect r playerId card newSuit newValue gs2 _ ih hlegal he
              rfl rfl rfl (fun hc => ⟨hc, hskip⟩)
          · rw [hgs]
            obtain ⟨_, n2, _, _, _, _, n7, _, _, n10⟩ :=
              nextPlayer_frame
                { r with
                    players := setHand r.players playerId (player.hand.eraseIdx cardIndex)
                    gameState := gs2 }
            exact pileInvariant_effect r playerId card newSuit newValue gs2 _ ih hlegal he
              n7 n2 n10 (nextPlayer_flag _)
    | drawCard playerId =>
      simp only [step]
      rcases drawCard_gameState r playerId with h | ⟨players, deck, _, h⟩
      · rw [h]
        exact ih
      · rw [h]
        obtain ⟨_, n2, _, _, n5, _, n7, _, _, n10⟩ :=
          nextPlayer_frame
            { r with
                players := players
                gameState := { r.gameState with deck := deck, drawStack := 0 } }
        refine pileInvariant_of_frame r.gameState _ ?_ ?_ ?_ ?_ ?_ ih
        · rw [n7]
        · intro hs
          rw [n5] at hs
          exact hs
        · right
          rw [n2]
        · intro hc
          exact (nextPlayer_flag _ hc).1
        · rw [n10]
    | reshuffleDiscardPile =>
      simp only [step]
      obtain ⟨_, f2, f3, f4, f5, f6, _⟩ := reshuffleDiscardPile_fields r
      exact pileInvariant_of_frame r.gameState _ f2 (fun hs => by rw [f3] at hs; exact hs)
        (Or.inl f4) (fun hc => by rw [f5] at hc; exact hc) f6 ih


theorem canPlayCard_isSome (r : GameRoom) (playerId : String) (card top : Card)
    (htop : r.gameState.playedCards.getLast? = some top) :
    (canPlayCard r playerId card).isSome = true := by
  unfold canPlayCard
  simp only [htop]
  split_ifs <;> rfl

theorem jackChosenRoom_reachable : Reachable jackChosenRoom :=
  Reachable.step _ _ openedRoom_reachable rfl

/-- C31: in every room reachable from a fresh room by any sequence of calls, a
started round has a non-empty discard pile: the top card that `getGameState`
publishes is a card, and `canPlayCard` finds the top card it reads, so it
returns for every player and every card. -/
theorem started_pile_nonempty (r : GameRoom) (h : Reachable r)
    (hs : r.gameState.started = true) :
    r.gameState.playedCards ≠ [] ∧
      (∃ top, r.gameState.playedCards.getLast? = some top ∧
        (getGameState r).topCard = some top) ∧
      ∀ playerId card, (canPlayCard r playerId card).isSome = true := by
  obtain ⟨top, htop⟩ := (reachable_pile r h).1 hs
  refine ⟨?_, ⟨top, htop, htop⟩, fun playerId card => canPlayCard_isSome r playerId card top htop⟩
  intro hnil
  rw [hnil] at htop
  cases htop

/-- C31, at a concrete input: `openedRoom` is reachable and started, and its
pile holds the King of clubs. -/
theorem started_pile_nonempty_witness :
    openedRoom.gameState.playedCards = [cardOf "clubs" "K"] ∧
      openedRoom.gameState.playedCards ≠ [] :=
  ⟨by decide, (started_pile_nonempty openedRoom openedRoom_reachable (by decide)).1⟩

/-- C37: in every room reachable from a fresh room, if the draw stack is not 0
or `lastPlayedWasSpecial` is up, the top discard is a Seven or the King of
spades, so not an Ace. Hence the condition of `canPlayCard` that blocks a Queen
on a fresh special card holds exactly when `lastPlayedWasSpecial` is up, its
alternative "the top card is an Ace" never being the one that holds; the flag
is never up under a value lock; and when a Queen is asked for by the player at
turn in a started round without draw stack and without value lock, the answer
is `false` exactly when the flag is up. -/
theorem special_flag_top (r : GameRoom) (h : Reachable r) :
    ((0 < r.gameState.drawStack ∨ r.gameState.lastPlayedWasSpecial = true) →
        ∃ top, r.gameState.playedCards.getLast? = some top ∧
          (top.value = "7" ∨ (top.value = "K" ∧ top.suit = "spades")) ∧ top.value ≠ "A") ∧
      (∀ top, r.gameState.playedCards.getLast? = some top →
        ¬ (r.gameState.lastPlayedWasSpecial = true ∧ top.value = "A") ∧
          ((r.gameState.lastPlayedWasSpecial = true ∧
              (top.value = "A" ∨ top.value = "7" ∨
                (top.value = "K" ∧ top.suit = "spades"))) ↔
            r.gameState.lastPlayedWasSpecial = true)) ∧
      (r.gameState.currentValue ≠ none → r.gameState.lastPlayedWasSpecial = false) ∧
      (∀ playerId card, r.gameState.started = true →
        idAt (playerIds r) r.gameState.currentPlayer = some playerId →
        r.gameState.drawStack = 0 → card.value = "Q" → r.gameState.currentValue = none →
        (canPlayCard r playerId card = some (!r.gameState.lastPlayedWasSpecial) ∧
          (canPlayCard r playerId card = some false ↔
            r.gameState.lastPlayedWasSpecial = true))) := by
  obtain ⟨h1, h2, h3⟩ := reachable_pile r h
  have hnotA : ∀ top : Card, (top.value = "7" ∨ (top.value = "K" ∧ top.suit = "spades")) →
      top.value ≠ "A" := by
    rintro top (hc | hc) hA
    · rw [hA] at hc
      exact absurd hc (by decide)
    · rw [hA] at hc
      exact absurd hc.1 (by decide)
  have hfresh : ∀ top, r.gameState.playedCards.getLast? = some top →
      ((r.gameState.lastPlayedWasSpecial = true ∧
          (top.value = "A" ∨ top.value = "7" ∨ (top.value = "K" ∧ top.suit = "spades"))) ↔
        r.gameState.lastPlayedWasSpecial = true) := by
    intro top htop
    constructor
    · exact fun hc => hc.1
    · intro hf
      obtain ⟨top2, htop2, hk⟩ := h2 (Or.inr hf)
      rw [htop] at htop2
      injection htop2 with htop2
      subst htop2
      exact ⟨hf, Or.inr hk⟩
  refine ⟨?_, ?_, ?_, ?_⟩
  · intro hc
    obtain ⟨top, htop, hk⟩ := h2 hc
    exact ⟨top, htop, hk, hnotA top hk⟩
  · intro top htop
    refine ⟨?_, hfresh top htop⟩
    rintro ⟨hf, hA⟩
    obtain ⟨top2, htop2, hk⟩ := h2 (Or.inr hf)
    rw [htop] at htop2
    injection htop2 with htop2
    subst htop2
    exact hnotA top hk hA
  · intro hne
    cases hv : r.gameState.currentValue with
    | none => exact absurd hv hne
    | some v =>
      obtain ⟨_, _, top, htop, hJ⟩ := h3 v hv
      cases hf : r.gameState.lastPlayedWasSpecial with
      | false => rfl
      | true =>
        obtain ⟨top2, htop2, hk⟩ := h2 (Or.inr hf)
        rw [htop] at htop2
        injection htop2 with htop2
        subst htop2
        rw [hJ] at hk
        rcases hk with hk | hk
        · exact absurd hk (by decide)
        · exact absurd hk.1 (by decide)
  · intro playerId card hs hcur hds hQ hval
    obtain ⟨top, htop⟩ := h1 hs
    have hcan : canPlayCard r playerId card = some (!r.gameState.lastPlayedWasSpecial) := by
      unfold canPlayCard
      rw [if_neg (by rw [hs]; decide), if_neg (by simp [hcur])]
      simp only [htop]
      rw [if_neg (by omega), if_pos hQ, if_neg (by simp [hval, truthy]),
        if_neg (by simp [hval])]
      cases hf : r.gameState.lastPlayedWasSpecial with
      | false => simp
      | true =>
        have := (hfresh top htop).mpr hf
        rw [hf] at this
        rw [if_pos this]
        rfl
    refine ⟨hcan, ?_⟩
    rw [hcan]
    cases r.gameState.lastPlayedWasSpecial <;> simp

/-- C37, at a concrete input: in `kingRoom` the draw stack is 5, the flag is up
and the top discard is the King of spades. -/
theorem special_flag_top_witness :
    kingRoom.gameState.drawStack = 5 ∧ kingRoom.gameState.lastPlayedWasSpecial = true ∧
      ∃ top, kingRoom.gameState.playedCards.getLast? = some top ∧
        (top.value = "7" ∨ (top.value = "K" ∧ top.suit = "spades")) ∧ top.value ≠ "A" :=
  ⟨by decide, by decide,
    (special_flag_top kingRoom kingRoom_reachable).1 (Or.inr (by decide))⟩

/-- C38: in every room reachable from a fresh room, a value lock (`currentValue`
set to `v`) is one of the 8 values of `VALUES`, the top discard is a Jack and
the draw stack is 0. So under a value lock every card whose value is neither
the locked value nor `J` is illegal: `canPlayCard` returns `false` for it,
for every player. -/
theorem value_lock_reachable (r : GameRoom) (h : Reachable r) (v : String)
    (hv : r.gameState.currentValue = some v) :
    v ∈ VALUES ∧
      (∃ top, r.gameState.playedCards.getLast? = some top ∧ top.value = "J") ∧
      r.gameState.drawStack = 0 ∧
      ∀ playerId card, card.value ≠ v → card.value ≠ "J" →
        canPlayCard r playerId card = some false := by
  obtain ⟨hin, hds, top, htop, hJ⟩ := (reachable_pile r h).2.2 v hv
  refine ⟨hin, ⟨top, htop, hJ⟩, hds, ?_⟩
  intro playerId card hne hnJ
  have htruthy : truthy r.gameState.currentValue = true := by
    rw [hv]
    have : v ≠ "" := by
      intro he
      rw [he] at hin
      exact absurd hin (by decide)
    simpa [truthy] using this
  unfold canPlayCard
  by_cases hs : r.gameState.started = false
  · rw [if_pos hs]
  · rw [if_neg hs]
    by_cases hcur : idAt (playerIds r) r.gameState.currentPlayer ≠ some playerId
    · rw [if_pos hcur]
    · rw [if_neg hcur]
      simp only [htop]
      rw [if_neg (by omega)]
      by_cases hQ : card.value = "Q"
      · have hvQ : r.gameState.currentValue ≠ some "Q" := by
          rw [hv]
          intro he
          injection he with he
          exact hne (by rw [hQ, he])
        rw [if_pos hQ, if_pos ⟨htruthy, hvQ⟩]
      · have hA : ¬ (card.value = "A" ∧ top.value = "A") := by
          rintro ⟨_, hc⟩
          rw [hJ] at hc
          exact absurd hc (by decide)
        rw [if_neg hQ, if_neg hnJ, if_neg hA, if_pos htruthy, hv]
        simp [hne]

/-- C38, at a concrete input: in `jackChosenRoom` the value is locked to 9 on
the Jack of spades, and the Ten of spades is illegal for `b`, the player at
turn. -/
theorem value_lock_reachable_witness :
    jackChosenRoom.gameState.currentValue = some "9" ∧
      idAt (playerIds jackChosenRoom) jackChosenRoom.gameState.currentPlayer = some "b" ∧
      canPlayCard jackChosenRoom "b" (cardOf "spades" "10") = some false :=
  ⟨by decide, by decide,
    (value_lock_reachable jackChosenRoom jackChosenRoom_reachable "9" (by decide)).2.2.2
      "b" (cardOf "spades" "10") (by decide) (by decide)⟩

/-! ## Where the cards are -/

theorem totalCards_eq (r : GameRoom) : totalCards r = (allCards r).length := by
  unfold totalCards allCards
  rw [List.length_append, List.length_append, List.length_flatMap]
  rfl

theorem findCard_perm (cardId : String) (hand : List Card) (cardIndex : Nat) (card : Card)
    (h : findCard cardId hand = some (cardIndex, card)) :
    hand.Perm (card :: hand.eraseIdx cardIndex) := by
  induction hand generalizing cardIndex with
  | nil => simp [findCard] at h
  | cons c cs ih =>
    unfold findCard at h
    by_cases hc : c.id = cardId
    · rw [if_pos hc] at h
      injection h with h
      injection h with h1 h2
      subst h1 h2
      exact List.Perm.refl _
    · rw [if_neg hc] at h
      cases hrec : findCard cardId cs with
      | none => simp [hrec] at h
      | some found =>
        obtain ⟨i, c2⟩ := found
        simp only [hrec, Option.map_some', Option.some.injEq, Prod.mk.injEq] at h
        obtain ⟨h1, h2⟩ := h
        subst h1 h2
        have := ih i hrec
        show (c :: cs).Perm (c2 :: c :: cs.eraseIdx i)
        exact (List.Perm.cons c this).trans (List.Perm.swap _ _ _)

theorem setHand_of_not_mem (ps : List Player) (playerId : String) (hand : List Card)
    (h : ∀ q ∈ ps, q.id ≠ playerId) : setHand ps playerId hand = ps := by
  unfold setHand
  conv => rhs; rw [← List.map_id ps]
  exact List.map_congr_left (fun q hq => by rw [if_neg (h q hq)]; rfl)

theorem setHand_split (before : List Player) (p : Player) (after : List Player)
    (hand : List Card)
    (hnodup : ((before ++ p :: after).map (fun q => q.id)).Nodup) :
    setHand (before ++ p :: after) p.id hand =
      before ++ { p with hand := hand } :: after := by
  obtain ⟨hb, ha⟩ := nodup_split before p after hnodup
  have h1 := setHand_of_not_mem before p.id hand hb
  have h2 := setHand_of_not_mem after p.id hand ha
  unfold setHand at h1 h2 ⊢
  rw [List.map_append, List.map_cons, h1, h2, if_pos rfl]

theorem getPlayer_eq_split (ps : List Player) (playerId : String) (player : Player)
    (h : getPlayer ps playerId = some player) :
    player.id = playerId ∧ ∃ before after, ps = before ++ player :: after := by
  unfold getPlayer at h
  obtain ⟨hid, before, after, hsplit, _⟩ := List.find?_eq_some.mp h
  exact ⟨by simpa using hid, before, after, hsplit⟩

/-- The hands of a room in which one hand is replaced: the other hands are the
same cards. -/
theorem hands_setHand_perm (ps : List Player) (playerId : String) (player : Player)
    (hand : List Card) (hnodup : (ps.map (fun q => q.id)).Nodup)
    (hp : getPlayer ps playerId = some player) :
    ∃ others, (ps.flatMap (fun p => p.hand)).Perm (player.hand ++ others) ∧
      ((setHand ps playerId hand).flatMap (fun p => p.hand)).Perm (hand ++ others) := by
  obtain ⟨hid, before, after, hsplit⟩ := getPlayer_eq_split ps playerId player hp
  subst hid
  subst hsplit
  rw [setHand_split before player after hand hnodup]
  refine ⟨before.flatMap (fun p => p.hand) ++ after.flatMap (fun p => p.hand), ?_, ?_⟩
  · rw [List.flatMap_append, List.flatMap_cons, ← List.append_assoc, ← List.append_assoc]
    exact List.Perm.append_right _ List.perm_append_comm
  · rw [List.flatMap_append, List.flatMap_cons, ← List.append_assoc, ← List.append_assoc]
    exact List.Perm.append_right _ List.perm_append_comm

theorem popInto_perm (n : Nat) (hand deck : List Card) :
    ((popInto n hand deck).1 ++ (popInto n hand deck).2).Perm (hand ++ deck) := by
  induction n generalizing hand deck with
  | zero => exact List.Perm.refl _
  | succ n ih =>
    unfold popInto
    cases hl : deck.getLast? with
    | none => exact List.Perm.refl _
    | some c =>
      dsimp only
      have hsplit := List.dropLast_append_getLast? c (by rw [hl]; rfl)
      refine (ih (hand ++ [c]) deck.dropLast).trans ?_
      rw [List.append_assoc]
      refine List.Perm.append_left _ ?_
      conv => rhs; rw [← hsplit]
      exact List.perm_append_comm

/-- The room in which any call of `drawCard` leaves: untouched, or with cards
popped from the deck into the hand of the player, the draw stack reset and the
turn advanced. -/
theorem drawCard_room_cases (r : GameRoom) (playerId : String) :
    (drawCard r playerId).2 = r ∨
      ∃ player n, getPlayer r.players playerId = some player ∧
        (drawCard r playerId).2 =
          nextPlayer
            { r with
                players := setHand r.players playerId
                  (popInto n player.hand r.gameState.deck).1
                gameState :=
                  { r.gameState with
                      deck := (popInto n player.hand r.gameState.deck).2
                      drawStack := 0 } } := by
  unfold drawCard
  cases hp : getPlayer r.players playerId with
  | none => left; rfl
  | some player =>
    dsimp only
    by_cases h1 : idAt (playerIds r) r.gameState.currentPlayer ≠ some playerId
    · left
      rw [if_pos h1]
    · rw [if_neg h1]
      by_cases h2 : r.gameState.deck.length <
          (if r.gameState.drawStack > 0 then r.gameState.drawStack else 1)
      · left
        rw [if_pos h2]
      · right
        rw [if_neg h2]
        by_cases h3 : r.gameState.drawStack > 0
        · exact ⟨player, r.gameState.drawStack, rfl, by simp only [if_pos h3]⟩
        · exact ⟨player, 1, rfl, by simp only [if_neg h3]⟩

theorem playCard_perm (r : GameRoom) (playerId cardId : String)
    (newSuit newValue : Option String) (hnodup : (playerIds r).Nodup) :
    (allCards (playCard r playerId cardId newSuit newValue).room).Perm (allCards r) := by
  rcases playCard_room_cases r playerId cardId newSuit newValue with
    h | ⟨player, cardIndex, card, hp, hc, _, hpl, hcase⟩
  · rw [h]
  · have hgs : (playCard r playerId cardId newSuit newValue).room.gameState.deck =
          r.gameState.deck ∧
        (playCard r playerId cardId newSuit newValue).room.gameState.playedCards =
          r.gameState.playedCards ++ [card] := by
      rcases hcase with ⟨_, hgs⟩ | ⟨gs2, he, hgs⟩
      · rw [hgs]
        exact ⟨rfl, rfl⟩
      · obtain ⟨e1, e2, _⟩ := applyEffect_pushCard _ _ _ _ _ _ he
        rcases hgs with ⟨_, results, hgs⟩ | hgs
        · rw [hgs]
          exact ⟨e2, e1⟩
        · obtain ⟨_, _, _, _, _, _, n7, n8, _⟩ :=
            nextPlayer_frame
              { r with
                  players := setHand r.players playerId (player.hand.eraseIdx cardIndex)
                  gameState := gs2 }
          rw [hgs, n7, n8]
          exact ⟨e2, e1⟩
    obtain ⟨others, h1, h2⟩ :=
      hands_setHand_perm r.players playerId player (player.hand.eraseIdx cardIndex) hnodup hp
    have hhand := findCard_perm cardId player.hand cardIndex card hc
    unfold allCards
    rw [hpl, hgs.1, hgs.2]
    rw [List.perm_iff_count]
    intro c
    have c1 := h1.count_eq c
    have c2 := h2.count_eq c
    have c3 := hhand.count_eq c
    simp only [List.count_append, List.count_cons, List.count_nil] at c1 c2 c3 ⊢
    omega

theorem drawCard_perm (r : GameRoom) (playerId : String) (hnodup : (playerIds r).Nodup) :
    (allCards (drawCard r playerId).2).Perm (allCards r) := by
  rcases drawCard_room_cases r playerId with h | ⟨player, n, hp, h⟩
  · rw [h]
  · obtain ⟨others, h1, h2⟩ :=
      hands_setHand_perm r.players playerId player
        (popInto n player.hand r.gameState.deck).1 hnodup hp
    have hpop := popInto_perm n player.hand r.gameState.deck
    obtain ⟨_, _, _, _, _, _, n7, n8, _⟩ :=
      nextPlayer_frame
        { r with
            players := setHand r.players playerId
              (popInto n player.hand r.gameState.deck).1
            gameState :=
              { r.gameState with
                  deck := (popInto n player.hand r.gameState.deck).2
                  drawStack := 0 } }
    unfold allCards
    rw [h, n7, n8, nextPlayer_players]
    rw [List.perm_iff_count]
    intro c
    have c1 := h1.count_eq c
    have c2 := h2.count_eq c
    have c3 := hpop.count_eq c
    simp only [List.count_append] at c1 c2 c3 ⊢
    omega

theorem reshuffleDiscardPile_perm (r : GameRoom) :
    (allCards (reshuffleDiscardPile r).2).Perm (allCards r) := by
  obtain ⟨f1, _, _, _, _, _, f7⟩ := reshuffleDiscardPile_fields r
  unfold allCards
  rw [f1, List.append_assoc, List.append_assoc]
  exact List.Perm.append_left _ f7

/-- C36: in a room whose seated players have distinct ids (they are the keys of
a map), each call of `playCard`, `drawCard` and `reshuffleDiscardPile`, whatever
it returns or raises, leaves the cards of all hands, the deck and the discard
pile the same multiset, and so the same number of cards. -/
theorem cards_conserved (r : GameRoom) (hnodup : (playerIds r).Nodup)
    (playerId cardId : String) (newSuit newValue : Option String) :
    ((allCards (playCard r playerId cardId newSuit newValue).room).Perm (allCards r) ∧
        totalCards (playCard r playerId cardId newSuit newValue).room = totalCards r) ∧
      ((allCards (drawCard r playerId).2).Perm (allCards r) ∧
        totalCards (drawCard r playerId).2 = totalCards r) ∧
      ((allCards (reshuffleDiscardPile r).2).Perm (allCards r) ∧
        totalCards (reshuffleDiscardPile r).2 = totalCards r) := by
  have h1 := playCard_perm r playerId cardId newSuit newValue hnodup
  have h2 := drawCard_perm r playerId hnodup
  have h3 := reshuffleDiscardPile_perm r
  refine ⟨⟨h1, ?_⟩, ⟨h2, ?_⟩, ⟨h3, ?_⟩⟩
  · rw [totalCards_eq, totalCards_eq, h1.length_eq]
  · rw [totalCards_eq, totalCards_eq, h2.length_eq]
  · rw [totalCards_eq, totalCards_eq, h3.length_eq]

/-- C36, at a concrete input: in `openedRoom`, which holds 31 cards, `a` plays
the King of spades; the room still holds 31 cards. -/
theorem cards_conserved_witness :
    totalCards openedRoom = 31 ∧
      (playCard openedRoom "a" "spades-K" none none).value? = some true ∧
      totalCards (playCard openedRoom "a" "spades-K" none none).room = 31 :=
  ⟨by decide, by decide,
    ((cards_conserved openedRoom (by decide) "a" "spades-K" none none).1.2).trans (by decide)⟩

/-! ## The seats of a reachable room -/

theorem addPlayer_gameState (r : GameRoom) (playerId playerName : String) :
    (addPlayer r playerId playerName).2.gameState = r.gameState := by
  unfold addPlayer
  split_ifs <;> rfl

/-- In every reachable room the ids of the seated players are distinct. -/
theorem reachable_nodup (r : GameRoom) (h : Reachable r) : (playerIds r).Nodup := by
  induction h with
  | fresh roomId => exact List.nodup_nil
  | step r op hr _ ih =>
    cases op with
    | addPlayer playerId playerName =>
      simp only [step, addPlayer]
      by_cases hfull : r.players.length ≥ r.maxPlayers
      · rw [if_pos hfull]
        exact ih
      · rw [if_neg hfull]
        by_cases hin : (getPlayer r.players playerId).isSome = true
        · have hids : playerIds
              { r with
                  players := r.players.map (fun q =>
                    if q.id = playerId then
                      ({ id := playerId, name := playerName, hand := [], connected := true } :
                        Player)
                    else q)
                  gameHistory :=
                    if (getHistory r.gameHistory playerId).isSome = true then r.gameHistory
                    else r.gameHistory ++
                      [(playerId, { totalPoints := 0, gamesPlayed := 0, lastGamePoints := 0,
                                    name := playerName })] } = playerIds r := by
            unfold playerIds
            simp only [List.map_map]
            apply List.map_congr_left
            intro q _
            simp only [Function.comp]
            split_ifs with hq
            · exact hq.symm
            · rfl
          simp only [hin, if_true]
          rw [hids]
          exact ih
        · simp only [hin]
          have hnot : playerId ∉ playerIds r := by
            intro hmem
            exact hin ((getPlayer_isSome_iff r.players playerId).mpr hmem)
          unfold playerIds at hnot ih ⊢
          simp only [Bool.false_eq_true, if_false, List.map_append, List.map_cons, List.map_nil]
          exact List.Nodup.append ih (List.nodup_singleton _)
            (by
              intro x hx hx2
              rw [List.mem_singleton] at hx2
              subst hx2
              exact hnot hx)
    | removePlayer playerId =>
      simp only [step, removePlayer]
      unfold playerIds at ih ⊢
      exact List.Nodup.sublist (List.Sublist.map _ (List.filter_sublist _)) ih
    | startGame initiatorId deck rnd =>
      simp only [step]
      by_cases hn : r.players.length < 2
      · have : (startGame r initiatorId deck rnd).room = r := by
          unfold startGame
          rw [if_pos hn]
          rfl
        rw [this]
        exact ih
      · have hpl := (startGame_room r initiatorId deck rnd (by omega)).1
        unfold playerIds at ih ⊢
        rw [hpl]
        show ((dealLoop r (playerIds r) r.players deck).1.map (fun p => p.id)).Nodup
        rw [dealLoop_ids]
        exact ih
    | playCard playerId cardId newSuit newValue =>
      simp only [step]
      rcases playCard_room_cases r playerId cardId newSuit newValue with
        h | ⟨player, cardIndex, card, _, _, _, hpl, _⟩
      · rw [h]
        exact ih
      · unfold playerIds at ih ⊢
        rw [hpl, playerIds_setHand]
        exact ih
    | drawCard playerId =>
      simp only [step]
      rcases drawCard_room_cases r playerId with h | ⟨player, n, _, h⟩
      · rw [h]
        exact ih
      · unfold playerIds at ih ⊢
        rw [h, nextPlayer_players]
        show ((setHand r.players playerId _).map (fun p => p.id)).Nodup
        rw [playerIds_setHand]
        exact ih
    | reshuffleDiscardPile =>
      simp only [step]
      unfold playerIds at ih ⊢
      rw [(reshuffleDiscardPile_fields r).1]
      exact ih


/-! ## Counting the cards that chain -/

/-- A deck of `createDeck` holds two cards that chain. -/
theorem isDeck_chains (deck : List Card) (h : isDeck deck = true) :
    deck.countP chains = 2 := by
  have hsplit : ∀ l : List Card, l.countP chains =
      l.countP (fun c => decide (c.suit = "spades" ∧ c.value = "K")) +
        l.countP (fun c => decide (c.suit = "spades" ∧ c.value = "7")) := by
    intro l
    induction l with
    | nil => rfl
    | cons c cs ih =>
      simp only [List.countP_cons, ih, chains]
      by_cases hs : c.suit = "spades"
      · by_cases hK : c.value = "K"
        · have h7 : c.value ≠ "7" := by rw [hK]; decide
          simp [hs, hK]
          omega
        · by_cases h7 : c.value = "7"
          · simp [hs, h7]
            omega
          · simp [hs, hK, h7]
      · simp [hs]
  unfold isDeck at h
  simp only [Bool.and_eq_true, decide_eq_true_eq, List.all_eq_true] at h
  have hK := h.2 "spades" (by decide) "K" (by decide)
  have h7 := h.2 "spades" (by decide) "7" (by decide)
  rw [hsplit, hK, h7]

theorem popFirstCard_suffix (cards : List Card) (firstCard : Card) (below : List Card)
    (h : popFirstCard cards = some (firstCard, below)) :
    (firstCard :: below) <:+ cards := by
  induction cards with
  | nil => simp [popFirstCard] at h
  | cons c cs ih =>
    unfold popFirstCard at h
    by_cases hc : notNeutral c = true
    · rw [if_pos hc] at h
      exact (ih h).trans (List.suffix_cons c cs)
    · rw [if_neg hc] at h
      injection h with h
      injection h with h1 h2
      subst h1 h2
      exact List.suffix_refl _

/-- The dealing loop, when it serves every seat, only moves cards of the deck
into the hands it has emptied. -/
theorem dealLoop_count (p : Card → Bool) (r : GameRoom) (todo served : List Player)
    (deck : List Card)
    (hnodup : ((served ++ todo).map (fun q => q.id)).Nodup)
    (hend : (dealLoop r (todo.map (fun q => q.id)) (served ++ todo) deck).2.2 = none) :
    ((dealLoop r (todo.map (fun q => q.id)) (served ++ todo) deck).1.flatMap
        (fun q => q.hand)).countP p +
      (dealLoop r (todo.map (fun q => q.id)) (served ++ todo) deck).2.1.countP p =
      (served.flatMap (fun q => q.hand)).countP p + deck.countP p := by
  induction todo generalizing served deck with
  | nil =>
    simp only [List.map_nil, dealLoop, List.append_nil]
  | cons t rest ih =>
    simp only [List.map_cons] at hend ⊢
    unfold dealLoop at hend ⊢
    by_cases hzero : cardsToGet r t.id = 0
    · rw [if_pos hzero] at hend
      cases hend
    · rw [if_neg hzero] at hend ⊢
      dsimp only at hend ⊢
      have hsplit := setHand_split served t rest
        (popInto (cardsToGet r t.id) [] deck).1 hnodup
      have hassoc :
          served ++ ({ t with hand := (popInto (cardsToGet r t.id) [] deck).1 } : Player) ::
              rest =
            (served ++ [({ t with hand := (popInto (cardsToGet r t.id) [] deck).1 } : Player)]) ++
              rest := by
        simp
      rw [hsplit, hassoc] at hend ⊢
      have hnodup2 : (((served ++
          [({ t with hand := (popInto (cardsToGet r t.id) [] deck).1 } : Player)]) ++ rest).map
            (fun q : Player => q.id)).Nodup := by
        simpa using hnodup
      rw [ih _ _ hnodup2 hend]
      have hpop := (popInto_perm (cardsToGet r t.id) [] deck).countP_eq p
      simp only [List.countP_append, List.flatMap_append, List.flatMap_cons, List.flatMap_nil,
        List.append_nil, List.nil_append, List.countP_nil] at hpop ⊢
      omega

theorem filter_hands_count (p : Card → Bool) (keep : Player → Bool) (ps : List Player) :
    ((ps.filter keep).flatMap (fun q => q.hand)).countP p ≤
      (ps.flatMap (fun q => q.hand)).countP p := by
  induction ps with
  | nil => exact Nat.le_refl _
  | cons q qs ih =>
    by_cases hk : keep q = true
    · rw [List.filter_cons_of_pos hk]
      simp only [List.flatMap_cons, List.countP_append]
      omega
    · rw [List.filter_cons_of_neg hk]
      simp only [List.flatMap_cons, List.countP_append]
      omega

theorem reseat_hands_count (p : Card → Bool) (playerId : String) (player : Player)
    (hempty : player.hand = []) (ps : List Player) :
    ((ps.map (fun q => if q.id = playerId then player else q)).flatMap
        (fun q => q.hand)).countP p ≤
      (ps.flatMap (fun q => q.hand)).countP p := by
  induction ps with
  | nil => exact Nat.le_refl _
  | cons q qs ih =>
    simp only [List.map_cons, List.flatMap_cons, List.countP_append]
    by_cases hq : q.id = playerId
    · rw [if_pos hq, hempty]
      simp only [List.countP_nil]
      omega
    · rw [if_neg hq]
      omega

theorem addPlayer_count (p : Card → Bool) (r : GameRoom) (playerId playerName : String) :
    (allCards (addPlayer r playerId playerName).2).countP p ≤ (allCards r).countP p := by
  unfold allCards
  rw [addPlayer_gameState]
  simp only [List.countP_append]
  have : ((addPlayer r playerId playerName).2.players.flatMap (fun q => q.hand)).countP p ≤
      (r.players.flatMap (fun q => q.hand)).countP p := by
    unfold addPlayer
    by_cases hfull : r.players.length ≥ r.maxPlayers
    · rw [if_pos hfull]
    · rw [if_neg hfull]
      dsimp only
      by_cases hin : (getPlayer r.players playerId).isSome = true
      · rw [if_pos hin]
        exact reseat_hands_count p playerId _ rfl r.players
      · rw [if_neg hin]
        simp
  omega

theorem removePlayer_count (p : Card → Bool) (r : GameRoom) (playerId : String) :
    (allCards (removePlayer r playerId).2).countP p ≤ (allCards r).countP p := by
  unfold allCards removePlayer
  simp only [List.countP_append]
  have := filter_hands_count p (fun q => decide (q.id ≠ playerId)) r.players
  omega

/-- A started `startGame` on a deck of `createDeck` leaves at most two cards that
chain in the room. -/
theorem startGame_count (r : GameRoom) (initiatorId : String) (deck : List Card) (rnd : Nat)
    (hdeck : isDeck deck = true) (hnodup : (playerIds r).Nodup)
    (hend : (dealLoop r (playerIds r) r.players deck).2.2 = none)
    (firstCard : Card) (below : List Card)
    (hpop : popFirstCard (dealLoop r (playerIds r) r.players deck).2.1.reverse =
      some (firstCard, below)) :
    (allCards
      { dealtRoom r initiatorId deck rnd with
          gameState :=
            { (dealtRoom r initiatorId deck rnd).gameState with
                deck := below.reverse
                playedCards := [firstCard]
                currentSuit := some firstCard.suit
                started := true } }).countP chains ≤ 2 := by
  have hcount := dealLoop_count chains r r.players [] deck (by simpa [playerIds] using hnodup)
    (by simpa [playerIds] using hend)
  simp only [List.nil_append, List.flatMap_nil, List.countP_nil, Nat.zero_add] at hcount
  have hsuffix := (popFirstCard_suffix _ _ _ hpop).sublist.countP_le chains
  rw [List.countP_reverse] at hsuffix
  have h2 := isDeck_chains deck hdeck
  unfold allCards dealtRoom
  simp only [List.countP_append, List.countP_reverse]
  simp only [List.countP_cons, List.countP_nil, playerIds] at hsuffix hcount ⊢
  omega


/-! ## The draw stack between two calls -/

theorem stackInvariant_of_frame (r r2 : GameRoom) (hgs : r2.gameState = r.gameState)
    (hcount : (allCards r2).countP chains ≤ (allCards r).countP chains)
    (h : stackInvariant r) : stackInvariant r2 := by
  obtain ⟨h1, h2, h3⟩ := h
  unfold stackInvariant
  rw [hgs]
  exact ⟨h1, fun hs => le_trans hcount (h2 hs), h3⟩

theorem top_count (p : Card → Bool) (pile : List Card) (top : Card)
    (htop : pile.getLast? = some top) (hp : p top = true) : 0 < pile.countP p :=
  List.countP_pos_iff.mpr ⟨top, List.mem_of_mem_getLast? (by rw [htop]; rfl), hp⟩

/-- A card that chains, found in the hand of a seated player, counts among the
cards of the hands. -/
theorem hand_card_count (ps : List Player) (playerId cardId : String) (player : Player)
    (cardIndex : Nat) (card : Card) (hp : getPlayer ps playerId = some player)
    (hc : findCard cardId player.hand = some (cardIndex, card)) (hch : chains card = true) :
    0 < (ps.flatMap (fun q => q.hand)).countP chains := by
  obtain ⟨_, before, after, hsplit⟩ := getPlayer_eq_split ps playerId player hp
  have hmem : card ∈ player.hand :=
    (findCard_perm cardId player.hand cardIndex card hc).mem_iff.mpr (List.mem_cons_self _ _)
  have hpos : 0 < player.hand.countP chains := List.countP_pos_iff.mpr ⟨card, hmem, hch⟩
  rw [hsplit]
  simp only [List.flatMap_append, List.flatMap_cons, List.countP_append]
  omega

/-- The game state in which a call of `playCard` that moved a card leaves: the
deck as it was, the card on the pile, the draw stack raised by a Seven or the
King of spades and otherwise as it was, and the round still started unless the
card is a Queen. -/
theorem playCard_stack_fields (r : GameRoom) (playerId cardId : String)
    (newSuit newValue : Option String) (player : Player) (cardIndex : Nat) (card : Card)
    (hcase : (applyEffect (pushCard r.gameState card) r.players.length card newSuit newValue =
          none ∧
        (playCard r playerId cardId newSuit newValue).room.gameState =
          pushCard r.gameState card) ∨
      ∃ gs2, applyEffect (pushCard r.gameState card) r.players.length card newSuit
          newValue = some gs2 ∧
        ((card.value = "Q" ∧ ∃ results,
            (playCard r playerId cardId newSuit newValue).room.gameState =
              { gs2 with winner := some playerId, started := false,
                         gameResults := results }) ∨
          (playCard r playerId cardId newSuit newValue).room.gameState =
            (nextPlayer
              { r with
                  players := setHand r.players playerId (player.hand.eraseIdx cardIndex)
                  gameState := gs2 }).gameState)) :
    (playCard r playerId cardId newSuit newValue).room.gameState.deck = r.gameState.deck ∧
      (playCard r playerId cardId newSuit newValue).room.gameState.playedCards =
        r.gameState.playedCards ++ [card] ∧
      ((playCard r playerId cardId newSuit newValue).room.gameState.started = false →
        r.gameState.started = false ∨ card.value = "Q") ∧
      (card.value = "7" →
        (playCard r playerId cardId newSuit newValue).room.gameState.drawStack =
          min (r.gameState.drawStack + 2) r.gameState.maxDrawStack) ∧
      (card.value = "K" ∧ card.suit = "spades" →
        (playCard r playerId cardId newSuit newValue).room.gameState.drawStack =
          min (r.gameState.drawStack + 5) r.gameState.maxDrawStack) ∧
      (card.value ≠ "7" → ¬ (card.value = "K" ∧ card.suit = "spades") →
        (playCard r playerId cardId newSuit newValue).room.gameState.drawStack =
          r.gameState.drawStack) := by
  rcases hcase with ⟨he, hgs⟩ | ⟨gs2, he, hgs⟩
  · have hJ : card.value = "J" := by
      by_contra hJ
      unfold applyEffect at he
      split_ifs at he with c1 c2 c3 c4 c5 c6 c7
      exact hJ c6.1
    rw [hgs]
    refine ⟨rfl, rfl, fun hs => Or.inl hs, ?_, ?_, fun _ _ => rfl⟩
    · intro h7
      rw [hJ] at h7
      exact absurd h7 (by decide)
    · intro hK
      rw [hJ] at hK
      exact absurd hK.1 (by decide)
  · obtain ⟨e1, e2, e3, _, eA, e7, eK, eO⟩ := applyEffect_pushCard _ _ _ _ _ _ he
    have hds : (card.value = "7" →
          gs2.drawStack = min (r.gameState.drawStack + 2) r.gameState.maxDrawStack) ∧
        (card.value = "K" ∧ card.suit = "spades" →
          gs2.drawStack = min (r.gameState.drawStack + 5) r.gameState.maxDrawStack) ∧
        (card.value ≠ "7" → ¬ (card.value = "K" ∧ card.suit = "spades") →
          gs2.drawStack = r.gameState.drawStack) := by
      refine ⟨fun h7 => (e7 h7).1, fun hK => (eK hK).1, fun h7 hK => ?_⟩
      by_cases hA : card.value = "A"
      · exact (eA hA).2.1
      · exact (eO hA h7 hK).1
    rcases hgs with ⟨hQ, results, hgs⟩ | hgs
    · rw [hgs]
      exact ⟨e2, e1, fun _ => Or.inr hQ, hds.1, hds.2.1, hds.2.2⟩
    · obtain ⟨_, n2, _, _, n5, _, n7, n8, _⟩ :=
        nextPlayer_frame
          { r with
              players := setHand r.players playerId (player.hand.eraseIdx cardIndex)
              gameState := gs2 }
      rw [hgs, n2, n5, n7, n8]
      refine ⟨e2, e1, fun hs => Or.inl ?_, hds.1, hds.2.1, hds.2.2⟩
      rw [← e3]
      exact hs

theorem playCard_stack (r : GameRoom) (hr : Reachable r) (hinv : stackInvariant r)
    (playerId cardId : String) (newSuit newValue : Option String) :
    stackInvariant (playCard r playerId cardId newSuit newValue).room := by
  rcases playCard_room_cases r playerId cardId newSuit newValue with
    h | ⟨player, cardIndex, card, hp, hc, hlegal, hpl, hcase⟩
  · rw [h]
    exact hinv
  · obtain ⟨hs, _⟩ := canPlayCard_true_imp r playerId card hlegal
    obtain ⟨hmax, _, _, _⟩ := reachable_fields r hr
    have hcount := (playCard_perm r playerId cardId newSuit newValue
      (reachable_nodup r hr)).countP_eq chains
    have hU := hinv.2.1 hs
    have hstack : 0 < r.gameState.drawStack →
        card.value = "7" ∨ (card.value = "K" ∧ card.suit = "spades") := by
      intro hpos
      obtain ⟨top, _, hcombo | hcombo⟩ := canPlayCard_true_stack r playerId card hlegal hpos
      · exact Or.inl hcombo.2.2.1
      · exact Or.inr ⟨hcombo.2.2.1, hcombo.2.2.2⟩
    obtain ⟨f1, f2, f3, f4, f5, f6⟩ :=
      playCard_stack_fields r playerId cardId newSuit newValue player cardIndex card hcase
    rw [hmax] at f4 f5
    refine ⟨?_, ?_, ?_⟩
    · intro hns
      rcases f3 hns with hc2 | hQ
      · rw [hs] at hc2
        cases hc2
      · have h7 : card.value ≠ "7" := by rw [hQ]; decide
        have hK : ¬ (card.value = "K" ∧ card.suit = "spades") := by
          rw [hQ]
          exact fun hc2 => absurd hc2.1 (by decide)
        rw [f6 h7 hK]
        by_contra hne
        rcases hstack (Nat.pos_of_ne_zero hne) with h | h
        · exact h7 h
        · exact hK h
    · intro _
      rw [hcount]
      exact hU
    · by_cases hpos : 0 < r.gameState.drawStack
      · obtain ⟨top, htop, hcombo⟩ := canPlayCard_true_stack r playerId card hlegal hpos
        have hchain : chains card = true ∧ chains top = true := by
          rcases hcombo with ⟨a, b, c, d⟩ | ⟨a, b, c, d⟩ <;> simp [chains, a, b, c, d]
        have hpile : 0 < r.gameState.playedCards.countP chains :=
          top_count chains _ top htop hchain.2
        have hseven : (playCard r playerId cardId newSuit newValue).room.gameState.drawStack =
              7 →
            (playCard r playerId cardId newSuit newValue).room.gameState.drawStack = 7 ∧
              2 ≤ ((playCard r playerId cardId newSuit newValue).room.gameState.deck ++
                (playCard r playerId cardId newSuit newValue).room.gameState.playedCards).countP
                  chains := by
          intro h7
          refine ⟨h7, ?_⟩
          rw [f1, f2]
          simp only [List.countP_append, List.countP_cons, List.countP_nil, hchain.1, if_true]
          omega
        rcases hinv.2.2 with h0 | ⟨h2, top2, htop2, hv⟩ | ⟨h5, top2, htop2, hv, _⟩ | ⟨h7, hc2⟩
        · omega
        · rw [htop] at htop2
          injection htop2 with htop2
          subst htop2
          rcases hcombo with ⟨a, _⟩ | ⟨_, _, c, d⟩
          · rw [a] at hv
            exact absurd hv (by decide)
          · right; right; right
            apply hseven
            rw [f5 ⟨c, d⟩, h2]
            rfl
        · rw [htop] at htop2
          injection htop2 with htop2
          subst htop2
          rcases hcombo with ⟨_, _, c, _⟩ | ⟨a, _⟩
          · right; right; right
            apply hseven
            rw [f4 c, h5]
            rfl
          · rw [a] at hv
            exact absurd hv (by decide)
        · exfalso
          have hhand := hand_card_count r.players playerId cardId player cardIndex card hp hc
            hchain.1
          unfold allCards at hU
          simp only [List.countP_append] at hU hc2
          omega
      · have hzero : r.gameState.drawStack = 0 := by omega
        by_cases h7 : card.value = "7"
        · right; left
          refine ⟨?_, card, ?_, h7⟩
          · rw [f4 h7, hzero]
            rfl
          · rw [f2]
            simp
        · by_cases hK : card.value = "K" ∧ card.suit = "spades"
          · right; right; left
            refine ⟨?_, card, ?_, hK.1, hK.2⟩
            · rw [f5 hK, hzero]
              rfl
            · rw [f2]
              simp
          · left
            rw [f6 h7 hK]
            exact hzero

/-- In every reachable room the facts of `stackInvariant` hold. -/
theorem reachable_stack (r : GameRoom) (h : Reachable r) : stackInvariant r := by
  induction h with
  | fresh roomId => exact ⟨fun _ => rfl, fun hs => (by cases hs), Or.inl rfl⟩
  | step r op hr hvalid ih =>
    cases op with
    | addPlayer playerId playerName =>
      exact stackInvariant_of_frame r _ (addPlayer_gameState r playerId playerName)
        (addPlayer_count chains r playerId playerName) ih
    | removePlayer playerId =>
      exact stackInvariant_of_frame r _ rfl (removePlayer_count chains r playerId) ih
    | startGame initiatorId deck rnd =>
      simp only [step]
      rcases startGame_room_cases r initiatorId deck rnd with
        h | ⟨h1, h2, _, _⟩ | ⟨_, hend, firstCard, below, hpop, h⟩
      · rw [h]
        exact ih
      · exact ⟨fun _ => h2, fun hs => (by rw [h1] at hs; cases hs), Or.inl h2⟩
      · rw [h]
        refine ⟨fun hs => (by cases hs), fun _ => ?_, Or.inl rfl⟩
        exact startGame_count r initiatorId deck rnd hvalid (reachable_nodup r hr) hend
          firstCard below hpop
    | playCard playerId cardId newSuit newValue =>
      exact playCard_stack r hr ih playerId cardId newSuit newValue
    | drawCard playerId =>
      simp only [step]
      have hcount := (drawCard_perm r playerId (reachable_nodup r hr)).countP_eq chains
      rcases drawCard_room_cases r playerId with h | ⟨player, n, _, h⟩
      · rw [h]
        exact ih
      · obtain ⟨_, n2, _, _, n5, _⟩ :=
          nextPlayer_frame
            { r with
                players := setHand r.players playerId
                  (popInto n player.hand r.gameState.deck).1
                gameState :=
                  { r.gameState with
                      deck := (popInto n player.hand r.gameState.deck).2
                      drawStack := 0 } }
        rw [h] at hcount ⊢
        refine ⟨fun _ => (by rw [n2]), fun hs => ?_, Or.inl (by rw [n2])⟩
        rw [hcount]
        rw [n5] at hs
        exact ih.2.1 hs
    | reshuffleDiscardPile =>
      simp only [step]
      obtain ⟨_, f2, f3, f4, _, _, f7⟩ := reshuffleDiscardPile_fields r
      have hcount := (reshuffleDiscardPile_perm r).countP_eq chains
      unfold stackInvariant
      rw [f2, f3, f4, hcount, f7.countP_eq chains]
      exact ih


/-- C39: in every room reachable from a fresh room by any sequence of
`addPlayer`, `removePlayer`, `startGame`, `playCard`, `drawCard` and
`reshuffleDiscardPile`, the draw stack is 0, 2, 5 or 7, so below the cap
`maxDrawStack = 10`. The reason: under a draw stack that is not 0 the only legal
cards are the Seven of spades and the King of spades; the cards of a started
round hold at most two cards that chain; and at draw stack 7 no hand holds one,
so no card is legal any more. -/
theorem drawStack_values (r : GameRoom) (h : Reachable r) :
    (r.gameState.drawStack = 0 ∨ r.gameState.drawStack = 2 ∨ r.gameState.drawStack = 5 ∨
        r.gameState.drawStack = 7) ∧
      r.gameState.maxDrawStack = 10 ∧ r.gameState.drawStack < r.gameState.maxDrawStack ∧
      (∀ playerId card, 0 < r.gameState.drawStack →
        canPlayCard r playerId card = some true →
        (card.value = "7" ∨ card.value = "K") ∧ card.suit = "spades") ∧
      (r.gameState.started = true → (allCards r).countP chains ≤ 2) ∧
      (r.gameState.drawStack = 7 →
        (r.players.flatMap (fun p => p.hand)).countP chains = 0 ∧
          ∀ playerId cardId newSuit newValue,
            (playCard r playerId cardId newSuit newValue).room = r) := by
  obtain ⟨h1, h2, h3⟩ := reachable_stack r h
  have hmax := (reachable_fields r h).1
  have hvalues : r.gameState.drawStack = 0 ∨ r.gameState.drawStack = 2 ∨
      r.gameState.drawStack = 5 ∨ r.gameState.drawStack = 7 := by
    rcases h3 with h0 | ⟨h2, _⟩ | ⟨h5, _⟩ | ⟨h7, _⟩
    · exact Or.inl h0
    · exact Or.inr (Or.inl h2)
    · exact Or.inr (Or.inr (Or.inl h5))
    · exact Or.inr (Or.inr (Or.inr h7))
  have hhands : r.gameState.drawStack = 7 →
      (r.players.flatMap (fun p => p.hand)).countP chains = 0 := by
    intro h7
    have hs : r.gameState.started = true := by
      cases hst : r.gameState.started with
      | true => rfl
      | false =>
        have := h1 hst
        omega
    have hU := h2 hs
    unfold allCards at hU
    simp only [List.countP_append] at hU
    rcases h3 with h0 | ⟨h2, _⟩ | ⟨h5, _⟩ | ⟨_, hc⟩
    · omega
    · omega
    · omega
    · simp only [List.countP_append] at hc
      omega
  refine ⟨hvalues, hmax, ?_, ?_, h2, fun h7 => ⟨hhands h7, ?_⟩⟩
  · rw [hmax]
    omega
  · intro playerId card hpos hlegal
    obtain ⟨top, _, hc | hc⟩ := canPlayCard_true_stack r playerId card hlegal hpos
    · exact ⟨Or.inl hc.2.2.1, hc.2.2.2⟩
    · exact ⟨Or.inr hc.2.2.1, hc.2.2.2⟩
  · intro playerId cardId newSuit newValue
    rcases playCard_room_cases r playerId cardId newSuit newValue with
      hsame | ⟨player, cardIndex, card, hp, hc, hlegal, _, _⟩
    · exact hsame
    · exfalso
      obtain ⟨top, _, hcombo⟩ :=
        canPlayCard_true_stack r playerId card hlegal (by omega)
      have hchain : chains card = true := by
        rcases hcombo with ⟨_, _, c, d⟩ | ⟨_, _, c, d⟩ <;> simp [chains, c, d]
      have hpos := hand_card_count r.players playerId cardId player cardIndex card hp hc hchain
      have := hhands h7
      omega

/-- C39, at a concrete input: in `chainedRoom`, where the Seven of spades lies
on the King of spades, the draw stack is 7, below the cap 10, and `a`, at turn
with the Ace of spades in hand, cannot play it. -/
theorem drawStack_values_witness :
    chainedRoom.gameState.drawStack = 7 ∧
      chainedRoom.gameState.drawStack < chainedRoom.gameState.maxDrawStack ∧
      (playCard chainedRoom "a" "spades-A" none none).room = chainedRoom :=
  ⟨by decide,
    (drawStack_values chainedRoom (Reachable.step kingRoom _ kingRoom_reachable rfl)).2.2.1,
    ((drawStack_values chainedRoom (Reachable.step kingRoom _ kingRoom_reachable rfl)).2.2.2.2.2
      (by decide)).2 "a" "spades-A" none none⟩

/-! ## The value lock and the Queen in reachable rooms -/

theorem drawnRoom_reachable : Reachable drawnRoom :=
  Reachable.step _ _ kingRoom_reachable rfl

theorem eliminatedRoom_reachable : Reachable eliminatedRoom :=
  Reachable.step _ _ penalizedRoom_reachable (by decide)

/-- C6: in every room reachable from a fresh room, in a started round with draw
stack 0, for a Queen offered by the player at the turn pointer: if
`currentValue` is set to a value other than `Q` the Queen is illegal; if
`currentValue` is `Q` the Queen is legal; and if `currentValue` is unset the
Queen is legal if and only if `lastPlayedWasSpecial` is `false`. -/
theorem canPlayCard_queen_reachable (r : GameRoom) (h : Reachable r) (playerId : String)
    (card : Card) (hs : r.gameState.started = true)
    (hcur : idAt (playerIds r) r.gameState.currentPlayer = some playerId)
    (hd : r.gameState.drawStack = 0) (hQ : card.value = "Q") :
    (∀ v, r.gameState.currentValue = some v → v ≠ "Q" →
        canPlayCard r playerId card = some false) ∧
      (r.gameState.currentValue = some "Q" → canPlayCard r playerId card = some true) ∧
      (r.gameState.currentValue = none →
        (canPlayCard r playerId card = some true ↔
            r.gameState.lastPlayedWasSpecial = false) ∧
          (canPlayCard r playerId card = some false ↔
            r.gameState.lastPlayedWasSpecial = true)) := by
  obtain ⟨h1, h2, h3⟩ := reachable_pile r h
  obtain ⟨top, htop⟩ := h1 hs
  obtain ⟨q1, q2, q3⟩ := canPlayCard_queen r playerId card top hs hcur hd htop hQ
  refine ⟨?_, q2, ?_⟩
  · intro v hv hne
    have hin := (h3 v hv).1
    have htruthy : truthy r.gameState.currentValue = true := by
      rw [hv]
      have : v ≠ "" := by
        intro he
        rw [he] at hin
        exact absurd hin (by decide)
      simpa [truthy] using this
    apply q1 htruthy
    rw [hv]
    intro he
    injection he with he
    exact hne he
  · intro hnone
    have hiff := q3 (by rw [hnone]; rfl)
    have hfresh : (r.gameState.lastPlayedWasSpecial = true ∧
        (top.value = "A" ∨ top.value = "7" ∨ (top.value = "K" ∧ top.suit = "spades"))) ↔
        r.gameState.lastPlayedWasSpecial = true := by
      constructor
      · exact fun hc => hc.1
      · intro hf
        obtain ⟨top2, htop2, hk⟩ := h2 (Or.inr hf)
        rw [htop] at htop2
        injection htop2 with htop2
        subst htop2
        exact ⟨hf, Or.inr hk⟩
    have htrue : canPlayCard r playerId card = some true ↔
        r.gameState.lastPlayedWasSpecial = false := by
      rw [hiff, hfresh]
      cases r.gameState.lastPlayedWasSpecial <;> simp
    refine ⟨htrue, ?_⟩
    have hsome := canPlayCard_isSome r playerId card top htop
    cases hres : canPlayCard r playerId card with
    | none => rw [hres] at hsome; cases hsome
    | some b =>
      rw [hres] at htrue
      cases b with
      | true =>
        have hf := htrue.mp rfl
        rw [hf]
        simp
      | false =>
        cases hf : r.gameState.lastPlayedWasSpecial with
        | true => simp
        | false =>
          have := htrue.mpr hf
          cases this

/-- C6, at a concrete input: in `drawnRoom`, where `b` has just drawn the five
cards for the King of spades, the flag is still up and the Queen of spades of
`a`, the player at turn, is illegal; in `openedRoom`, where the flag is down,
the same Queen is legal. -/
theorem canPlayCard_queen_reachable_witness :
    drawnRoom.gameState.lastPlayedWasSpecial = true ∧
      canPlayCard drawnRoom "a" (cardOf "spades" "Q") = some false ∧
      openedRoom.gameState.lastPlayedWasSpecial = false ∧
      canPlayCard openedRoom "a" (cardOf "spades" "Q") = some true :=
  ⟨by decide,
    ((canPlayCard_queen_reachable drawnRoom drawnRoom_reachable "a" (cardOf "spades" "Q")
      (by decide) (by decide) (by decide) (by decide)).2.2 (by decide)).2.mpr (by decide),
    by decide,
    ((canPlayCard_queen_reachable openedRoom openedRoom_reachable "a" (cardOf "spades" "Q")
      (by decide) (by decide) (by decide) (by decide)).2.2 (by decide)).1.mpr (by decide)⟩

/-- C9: in every room reachable from a fresh room in which `currentValue` is set
to a value `v`, `canPlayCard` returns `false`, for every player, for every card
whose value is neither `v` nor `J`, whatever its suit, the current suit
included. -/
theorem canPlayCard_value_lock_reachable (r : GameRoom) (h : Reachable r) (v : String)
    (hv : r.gameState.currentValue = some v) (playerId : String) (card : Card)
    (hne : card.value ≠ v) (hJ : card.value ≠ "J") :
    canPlayCard r playerId card = some false ∧
      (some card.suit = r.gameState.currentSuit → canPlayCard r playerId card = some false) := by
  obtain ⟨hin, hd, top, htop, htopJ⟩ := (reachable_pile r h).2.2 v hv
  have hset : truthy (some v) = true := by
    have : v ≠ "" := by
      intro he
      rw [he] at hin
      exact absurd hin (by decide)
    simpa [truthy] using this
  have hA : ¬ (card.value = "A" ∧ top.value = "A") := by
    rintro ⟨_, hc⟩
    rw [htopJ] at hc
    exact absurd hc (by decide)
  have hfalse := canPlayCard_value_lock r playerId card top v hd htop hv hset hne hJ hA
  exact ⟨hfalse, fun _ => hfalse⟩

/-- C9, at a concrete input: in `jackChosenRoom` the value is locked to 9 and the
current suit is clubs; the Ten of clubs is illegal for `b`, the player at turn. -/
theorem canPlayCard_value_lock_reachable_witness :
    jackChosenRoom.gameState.currentValue = some "9" ∧
      jackChosenRoom.gameState.currentSuit = some "clubs" ∧
      idAt (playerIds jackChosenRoom) jackChosenRoom.gameState.currentPlayer = some "b" ∧
      canPlayCard jackChosenRoom "b" (cardOf "clubs" "10") = some false :=
  ⟨by decide, by decide, by decide,
    (canPlayCard_value_lock_reachable jackChosenRoom jackChosenRoom_reachable "9" (by decide)
      "b" (cardOf "clubs" "10") (by decide) (by decide)).1⟩

/-! ## A play out of turn after an elimination -/

/-- C10, the code at the failing input: `a` and `b` play a round that `b` loses
with 286 points, and the next `startGame` eliminates `b`. In the room it leaves,
the round is not started, there is no discard pile, `a` has been dealt four
cards and the turn pointer is at the seat of `b`. `canPlayCard` answers `false`
to `a` for the Ace of spades, but `playCard` by `a`, who is not the current
player, of that Ace is not rejected: it raises on the log line that prints the
top card. -/
theorem playCard_not_at_turn_raises :
    Reachable eliminatedRoom ∧
      eliminatedRoom.gameState.started = false ∧
      eliminatedRoom.gameState.playedCards = [] ∧
      idAt (playerIds eliminatedRoom) eliminatedRoom.gameState.currentPlayer = some "b" ∧
      (getPlayer eliminatedRoom.players "a").map (fun p => p.hand.map (fun c => c.id)) =
        some ["spades-A", "spades-K", "spades-Q", "spades-J"] ∧
      canPlayCard eliminatedRoom "a" (cardOf "spades" "A") = some false ∧
      playCard eliminatedRoom "a" "spades-A" none none = .threw eliminatedRoom ∧
      (playCard eliminatedRoom "a" "spades-A" none none).value? = none :=
  ⟨eliminatedRoom_reachable, by decide, by decide, by decide, by decide, by decide, by decide,
    by decide⟩

end Ferbl
